import Mathlib

/-!
# TcpAdaptiveStart: a shallow embedding of `src/internet/model/tcp-adaptivestart.cc`

The estimator keeps an Eligible Rate Estimate (ERE) that it refreshes on a
self-rescheduling tick (`CalculateERE`) and feeds into the slow-start threshold.

Modelling conventions.

* `uint32_t` values are natural numbers; every operation that can wrap is
  written with an explicit `% 2 ^ 32`.
* `int m_ackedSinceT` is an integer kept in the signed 32-bit range by `wrapInt32`.
* `double` values are `Dbl`: exact rationals extended with `+inf`, `-inf` and
  `NaN`, following the IEEE-754 rules for the special values (division by zero,
  `inf - inf`, `0 * inf`, comparisons with `NaN`).  Rounding of finite results
  and the sign of zero are not represented: a finite result is the exact
  rational, and a zero divisor behaves as `+0`.  Where the rounding of binary64
  decides a property, the expressions of the tick are also given with an
  explicit rounding after every operation (`tkWith`, `alphaWith`,
  `filteredWith`, `gap64`, and `round64` for round-to-nearest), and properties
  are stated for every rounding that is monotone and exact on `0` and `1`.
* `ns3::Time` is a signed count of nanoseconds (the default resolution).
* A failed `NS_ASSERT` and a `double`-to-integer conversion whose value is not
  representable (undefined behaviour in C++) end the call with a `Fault`.
* The function-local `static double u, umax` of `CalculateERE` are program-wide
  state; they are threaded through explicitly as `Statics`.
-/

namespace ns3

/-- Idealised `double`: an exact rational or one of the IEEE special values. -/
inductive Dbl where
  | fin (q : ℚ)
  | pinf
  | ninf
  | nan
deriving DecidableEq

namespace Dbl

/-- IEEE addition on the special values, exact on finite values. -/
def add : Dbl → Dbl → Dbl
  | fin a, fin b => fin (a + b)
  | fin _, pinf => pinf
  | fin _, ninf => ninf
  | pinf, fin _ => pinf
  | pinf, pinf => pinf
  | ninf, fin _ => ninf
  | ninf, ninf => ninf
  | _, _ => nan

/-- Sign flip. -/
def neg : Dbl → Dbl
  | fin a => fin (-a)
  | pinf => ninf
  | ninf => pinf
  | nan => nan

/-- Subtraction, `a - b = a + (-b)`. -/
def sub (a b : Dbl) : Dbl := add a (neg b)

/-- An infinity with the sign of `q`, or `NaN` when `q = 0` (`0 * inf`). -/
def infOfSign (q : ℚ) : Dbl :=
  if 0 < q then pinf else if q < 0 then ninf else nan

/-- IEEE multiplication on the special values, exact on finite values. -/
def mul : Dbl → Dbl → Dbl
  | fin a, fin b => fin (a * b)
  | fin a, pinf => infOfSign a
  | fin a, ninf => infOfSign (-a)
  | pinf, fin b => infOfSign b
  | ninf, fin b => infOfSign (-b)
  | pinf, pinf => pinf
  | ninf, ninf => pinf
  | pinf, ninf => ninf
  | ninf, pinf => ninf
  | _, _ => nan

/-- IEEE division: `x / 0` is an infinity with the sign of `x`, `0 / 0` and
`inf / inf` are `NaN`, a finite value over an infinity is `0`. -/
def div : Dbl → Dbl → Dbl
  | fin a, fin b => if b = 0 then infOfSign a else fin (a / b)
  | fin _, pinf => fin 0
  | fin _, ninf => fin 0
  | pinf, fin b => if 0 ≤ b then pinf else ninf
  | ninf, fin b => if 0 ≤ b then ninf else pinf
  | _, _ => nan

/-- The comparison `a < b`; false as soon as one side is `NaN`. -/
def lt : Dbl → Dbl → Bool
  | fin a, fin b => decide (a < b)
  | fin _, pinf => true
  | ninf, fin _ => true
  | ninf, pinf => true
  | _, _ => false

/-- The comparison `a ≤ b`; false as soon as one side is `NaN`. -/
def le : Dbl → Dbl → Bool
  | fin a, fin b => decide (a ≤ b)
  | fin _, pinf => true
  | ninf, fin _ => true
  | ninf, pinf => true
  | pinf, pinf => true
  | ninf, ninf => true
  | _, _ => false

/-- The function `std::max (a, b)` on doubles, `(a < b) ? b : a`. -/
def max (a b : Dbl) : Dbl := if lt a b then b else a

/-- Conversion of a `uint32_t` to `double` (always exact). -/
def ofU32 (n : Nat) : Dbl := fin (n : ℚ)

instance : Add Dbl := ⟨add⟩
instance : Sub Dbl := ⟨sub⟩
instance : Mul Dbl := ⟨mul⟩
instance : Div Dbl := ⟨div⟩
instance (n : Nat) : OfNat Dbl n := ⟨fin (n : ℚ)⟩
instance : OfScientific Dbl := ⟨fun m s e => fin (OfScientific.ofScientific m s e)⟩

end Dbl

/-- Ways a call can end without a result. -/
inductive Fault where
  | assertion
  | conversion
deriving DecidableEq

/-- The conversion `uint32_t (x)`: truncation toward zero, defined only when the
truncated value fits in 32 bits. -/
def castU32 : Dbl → Except Fault Nat
  | Dbl.fin q => if -1 < q ∧ q < 2 ^ 32 then .ok ⌊q⌋₊ else .error .conversion
  | _ => .error .conversion

/-- Wrap an integer into the range of a 32-bit `int`. -/
def wrapInt32 (z : Int) : Int :=
  if z % 2 ^ 32 < 2 ^ 31 then z % 2 ^ 32 else z % 2 ^ 32 - 2 ^ 32

/-- Modelled from the spec: `ns3::Time` is declared outside `src/`; a duration or
timestamp is a signed 64-bit count of nanoseconds. -/
structure Time where
  ns : Int
deriving DecidableEq

namespace Time

/-- The value `Time::Min ()`, the smallest representable time. -/
def Min : Time := ⟨-(2 ^ 63)⟩

/-- The test `Time::IsZero`. -/
def IsZero (t : Time) : Bool := decide (t.ns = 0)

/-- The accessor `Time::GetSeconds`, the value in seconds as a `double`. -/
def GetSeconds (t : Time) : Dbl := Dbl.fin ((t.ns : ℚ) / 1000000000)

end Time

/-- The constructor `Seconds (x)`: the whole number of nanoseconds in `x` seconds
(a fraction of a nanosecond is dropped), defined only when it fits in 64 bits. -/
def Seconds : Dbl → Except Fault Time
  | Dbl.fin q =>
    if -(2 ^ 63) ≤ ⌊q * 1000000000⌋ ∧ ⌊q * 1000000000⌋ < 2 ^ 63 then
      .ok ⟨⌊q * 1000000000⌋⟩
    else .error .conversion
  | _ => .error .conversion

/-- Modelled from the spec: `TcpSocketState` and the `TracedValue` wrapper of its
`m_cWnd` and `m_ssThresh` are declared outside `src/`.  The connection state is
restricted to the members the algorithm touches, a traced member is read as the
`uint32_t` it holds, and `m_congState` is the numeric value of the
congestion-state enumeration.  Arithmetic on a traced member is `tracedDiv`. -/
structure TcpSocketState where
  m_cWnd : Nat
  m_ssThresh : Nat
  m_segmentSize : Nat
  m_congState : Nat
deriving DecidableEq

/-- Modelled from the spec: `TracedValue` is declared outside `src/`.  This is the
quotient `tcb->m_cWnd / x` of the traced `uint32_t` window by a `double`: the
division operator of `TracedValue<T>` computes the `double` quotient and returns
it as a `TracedValue<T>`, so the quotient is converted back to `uint32_t`
(truncated toward zero, undefined when it does not fit). -/
def tracedDiv (w : Nat) (x : Dbl) : Except Fault Nat := castU32 (Dbl.ofU32 w / x)

/-- The function-local statics `u` and `umax` of `CalculateERE`. -/
structure Statics where
  u : Dbl
  umax : Dbl
deriving DecidableEq

/-- The data members of `class TcpAdaptiveStart`.  `m_ereEstimateEvent` records
the delay with which the pending tick was scheduled, if any. -/
structure TcpAdaptiveStart where
  m_currentERE : Dbl
  m_bestRate : Dbl
  m_interval : Time
  m_lastSampleERE : Dbl
  m_lastERE : Dbl
  m_minRtt : Time
  m_Rtt : Time
  m_ackedSinceT : Int
  m_lastAck : Time
  m_deltaT : Dbl
  flag : Bool
  m_ereEstimateEvent : Option Time
deriving DecidableEq

namespace TcpAdaptiveStart

/-- The default constructor `TcpAdaptiveStart (void)`.  `m_deltaT` has no
initialiser in the source, so its value is whatever the caller supplies;
`Seconds (0.10)` is 100 000 000 ns. -/
def create (deltaT0 : Dbl) : TcpAdaptiveStart where
  m_currentERE := 0
  m_bestRate := 0
  m_interval := ⟨100000000⟩
  m_lastSampleERE := 0
  m_lastERE := 0
  m_minRtt := ⟨0⟩
  m_Rtt := ⟨0⟩
  m_ackedSinceT := 0
  m_lastAck := Time.Min
  m_deltaT := deltaT0
  flag := false
  m_ereEstimateEvent := none

/-- The copy constructor `TcpAdaptiveStart (const TcpAdaptiveStart&)`.  Only five
members are copied; `m_interval` and `m_lastAck` are default-constructed (zero),
and `m_ackedSinceT` and `m_deltaT` have no initialiser, so their values are
whatever the caller supplies. -/
def copy (sock : TcpAdaptiveStart) (acked0 : Int) (deltaT0 : Dbl) : TcpAdaptiveStart where
  m_currentERE := sock.m_currentERE
  m_bestRate := sock.m_bestRate
  m_interval := ⟨0⟩
  m_lastSampleERE := sock.m_lastSampleERE
  m_lastERE := sock.m_lastERE
  m_minRtt := ⟨0⟩
  m_Rtt := ⟨0⟩
  m_ackedSinceT := acked0
  m_lastAck := ⟨0⟩
  m_deltaT := deltaT0
  flag := sock.flag
  m_ereEstimateEvent := none

/-- The method `Fork`: `CopyObject` runs the copy constructor. -/
def Fork (self : TcpAdaptiveStart) (acked0 : Int) (deltaT0 : Dbl) : TcpAdaptiveStart :=
  copy self acked0 deltaT0

/-- The method `GetSsThresh`: the estimator and the connection state as the call
leaves them, and the value returned.  The body assigns nothing. -/
def GetSsThresh (self : TcpAdaptiveStart) (tcb : TcpSocketState) (_bytesInFlight : Nat) :
    Except Fault (TcpAdaptiveStart × TcpSocketState × Nat) :=
  match castU32 self.m_currentERE with
  | .error e => .error e
  | .ok c => .ok (self, tcb, Nat.max (2 * tcb.m_segmentSize % 2 ^ 32) c)

/-- Calls of `GetSsThresh` in a row, one for each `bytesInFlight` of the list and
each on the state the previous call left: the final state and the values
returned, in order. -/
def GetSsThreshRepeated (self : TcpAdaptiveStart) (tcb : TcpSocketState) :
    List Nat → Except Fault (TcpAdaptiveStart × TcpSocketState × List Nat)
  | [] => .ok (self, tcb, [])
  | b :: bs =>
    match GetSsThresh self tcb b with
    | .error e => .error e
    | .ok r =>
      match GetSsThreshRepeated r.1 r.2.1 bs with
      | .error e => .error e
      | .ok r2 => .ok (r2.1, r2.2.1, r.2.2 :: r2.2.2)

/-- The method `CalculateBestRate`:
`m_bestRate = double (tcb->m_cWnd / double (minRtt.GetSeconds ()))`.  The
quotient is taken on the traced window, so it is a `uint32_t` before the outer
conversion to `double`. -/
def CalculateBestRate (self : TcpAdaptiveStart) (minRtt : Time) (tcb : TcpSocketState) :
    Except Fault TcpAdaptiveStart :=
  if minRtt.IsZero then .error .assertion
  else
    match tracedDiv tcb.m_cWnd minRtt.GetSeconds with
    | .error e => .error e
    | .ok b => .ok { self with m_bestRate := Dbl.ofU32 b }

/-- The instantaneous sample of `CalculateERE`:
`m_ackedSinceT * tcb->m_segmentSize / m_interval.GetSeconds ()`, the product
being taken in `uint32_t`. -/
def instantaneousERE (self : TcpAdaptiveStart) (tcb : TcpSocketState) : Dbl :=
  Dbl.ofU32 ((self.m_ackedSinceT % 2 ^ 32).toNat * tcb.m_segmentSize % 2 ^ 32)
    / self.m_interval.GetSeconds

/-- The update of the static `u` in `CalculateERE`. -/
def nextU (self : TcpAdaptiveStart) (g : Statics) (tcb : TcpSocketState) : Dbl :=
  if Dbl.lt self.m_lastSampleERE (instantaneousERE self tcb) then
    0.6 * g.u + 0.4 * (instantaneousERE self tcb - self.m_lastSampleERE)
  else
    0.6 * g.u + 0.4 * (self.m_lastSampleERE - instantaneousERE self tcb)

/-- The update of the static `umax` in `CalculateERE`. -/
def nextUmax (self : TcpAdaptiveStart) (g : Statics) (tcb : TcpSocketState) : Dbl :=
  if Dbl.lt g.umax (nextU self g tcb) then nextU self g tcb else g.umax

/-- The time constant `tk` of `CalculateERE`. -/
def tk (self : TcpAdaptiveStart) (g : Statics) (tcb : TcpSocketState) : Dbl :=
  self.m_Rtt.GetSeconds + 10 * self.m_Rtt.GetSeconds * (nextU self g tcb / nextUmax self g tcb)

/-- The filter weight `alpha` of `CalculateERE`. -/
def alpha (self : TcpAdaptiveStart) (g : Statics) (tcb : TcpSocketState) : Dbl :=
  (2 * tk self g tcb - self.m_deltaT) / (2 * tk self g tcb + self.m_deltaT)

/-- The filtered estimate written to `m_currentERE` and `m_lastERE`. -/
def filteredERE (self : TcpAdaptiveStart) (g : Statics) (tcb : TcpSocketState) : Dbl :=
  alpha self g tcb * self.m_lastERE + (1 - alpha self g tcb) * instantaneousERE self tcb

/-- The candidate for the next interval,
`m_Rtt.GetSeconds () * ((m_bestRate - m_lastERE) / m_bestRate)`, evaluated after
`m_lastERE` has been overwritten with the new estimate. -/
def nextIntervalSeconds (self : TcpAdaptiveStart) (g : Statics) (tcb : TcpSocketState) : Dbl :=
  self.m_Rtt.GetSeconds * ((self.m_bestRate - filteredERE self g tcb) / self.m_bestRate)

/-- The method `CalculateERE`, one tick of the estimator. -/
def CalculateERE (self : TcpAdaptiveStart) (g : Statics) (tcb : TcpSocketState) :
    Except Fault (TcpAdaptiveStart × Statics) :=
  if self.m_interval.IsZero then .error .assertion
  else
    match (if Dbl.lt (nextIntervalSeconds self g tcb) 0.01 then Seconds 0.01
           else Seconds (nextIntervalSeconds self g tcb)) with
    | .error e => .error e
    | .ok interval =>
      .ok ({ self with
              m_currentERE := filteredERE self g tcb
              m_ackedSinceT := 0
              m_lastSampleERE := instantaneousERE self tcb
              m_lastERE := filteredERE self g tcb
              m_interval := interval
              m_ereEstimateEvent := some interval },
           { u := nextU self g tcb, umax := nextUmax self g tcb })

/-- The state of the estimator after lines 183-201 of `PktsAcked`: inter-ACK gap,
last ACK time, the acked counter, the last RTT and the minimum RTT. -/
def sampleAck (self : TcpAdaptiveStart) (now : Time) (packetsAcked : Nat) (rtt : Time) :
    TcpAdaptiveStart :=
  { self with
    m_deltaT := if self.m_lastAck = Time.Min then 0
                else now.GetSeconds - self.m_lastAck.GetSeconds
    m_lastAck := now
    m_ackedSinceT := wrapInt32 (self.m_ackedSinceT + (packetsAcked : Int))
    m_Rtt := rtt
    m_minRtt := if self.m_minRtt.IsZero then rtt
                else if rtt.ns < self.m_minRtt.ns then rtt else self.m_minRtt }

/-- The method `PktsAcked`; `now` is the value of `Simulator::Now ()`. -/
def PktsAcked (self : TcpAdaptiveStart) (g : Statics) (now : Time) (tcb : TcpSocketState)
    (packetsAcked : Nat) (rtt : Time) :
    Except Fault (TcpAdaptiveStart × Statics × TcpSocketState) :=
  if rtt.IsZero then .ok (self, g, tcb)
  else
    match castU32 (sampleAck self now packetsAcked rtt).m_currentERE with
    | .error e => .error e
    | .ok c =>
      match CalculateBestRate (sampleAck self now packetsAcked rtt)
              (sampleAck self now packetsAcked rtt).m_minRtt
              { tcb with m_ssThresh := Nat.max (2 * tcb.m_segmentSize % 2 ^ 32) c } with
      | .error e => .error e
      | .ok s2 =>
        if s2.flag then
          .ok (s2, g, { tcb with m_ssThresh := Nat.max (2 * tcb.m_segmentSize % 2 ^ 32) c })
        else
          match CalculateERE { s2 with flag := true } g
                  { tcb with m_ssThresh := Nat.max (2 * tcb.m_segmentSize % 2 ^ 32) c } with
          | .error e => .error e
          | .ok (s3, g3) =>
            .ok (s3, g3, { tcb with m_ssThresh := Nat.max (2 * tcb.m_segmentSize % 2 ^ 32) c })

/-- Modelled from the spec: `TcpNewReno::SlowStart` is defined outside `src/`.
Slow-start growth adds one segment to the window when at least one segment was
acknowledged and returns the unconsumed credit. -/
def SlowStart (tcb : TcpSocketState) (segmentsAcked : Nat) : TcpSocketState × Nat :=
  if 1 ≤ segmentsAcked then
    ({ tcb with m_cWnd := (tcb.m_cWnd + tcb.m_segmentSize) % 2 ^ 32 }, segmentsAcked - 1)
  else (tcb, 0)

/-- The value `adder` of `CongestionAvoidance` after `std::max (1.0, adder)`. -/
def adder (tcb : TcpSocketState) : Dbl :=
  Dbl.max 1 (Dbl.ofU32 (tcb.m_segmentSize * tcb.m_segmentSize % 2 ^ 32) / Dbl.ofU32 tcb.m_cWnd)

/-- The method `CongestionAvoidance`. -/
def CongestionAvoidance (tcb : TcpSocketState) (segmentsAcked : Nat) :
    Except Fault TcpSocketState :=
  if 0 < segmentsAcked then
    match castU32 (adder tcb) with
    | .error e => .error e
    | .ok a =>
      if tcb.m_congState ≠ 4 then
        .ok { tcb with m_cWnd := (Nat.max tcb.m_ssThresh tcb.m_cWnd + a) % 2 ^ 32 }
      else
        .ok { tcb with m_cWnd := (tcb.m_cWnd + a) % 2 ^ 32 }
  else .ok tcb

/-- The method `IncreaseWindow`. -/
def IncreaseWindow (self : TcpAdaptiveStart) (tcb : TcpSocketState) (segmentsAcked : Nat) :
    Except Fault TcpSocketState :=
  match castU32 self.m_currentERE with
  | .error e => .error e
  | .ok c =>
    let tcb1 : TcpSocketState := { tcb with m_ssThresh := Nat.max (2 * tcb.m_segmentSize % 2 ^ 32) c }
    let r : TcpSocketState × Nat :=
      if tcb1.m_cWnd < tcb1.m_ssThresh then SlowStart tcb1 segmentsAcked else (tcb1, segmentsAcked)
    if r.1.m_ssThresh ≤ r.1.m_cWnd then CongestionAvoidance r.1 r.2 else .ok r.1

end TcpAdaptiveStart

/-- One event delivered to an estimator: an acknowledgment (with the simulation
time, the connection state at that moment, the number of packets acknowledged and
the measured RTT) or a firing of the scheduled tick. -/
inductive Event where
  | ack (now : Time) (tcb : TcpSocketState) (packetsAcked : Nat) (rtt : Time)
  | tick (tcb : TcpSocketState)

/-- Deliver one event. -/
def step (sg : TcpAdaptiveStart × Statics) : Event → Except Fault (TcpAdaptiveStart × Statics)
  | .ack now tcb packetsAcked rtt =>
    match TcpAdaptiveStart.PktsAcked sg.1 sg.2 now tcb packetsAcked rtt with
    | .error e => .error e
    | .ok r => .ok (r.1, r.2.1)
  | .tick tcb => TcpAdaptiveStart.CalculateERE sg.1 sg.2 tcb

/-- Deliver a sequence of events in order, stopping at the first fault. -/
def run (sg : TcpAdaptiveStart × Statics) : List Event → Except Fault (TcpAdaptiveStart × Statics)
  | [] => .ok sg
  | e :: es =>
    match step sg e with
    | .error f => .error f
    | .ok sg1 => run sg1 es

/-- The RTTs carried by the acknowledgments of an event sequence. -/
def rtts : List Event → List Time
  | [] => []
  | .ack _ _ _ rtt :: es => rtt :: rtts es
  | .tick _ :: es => rtts es

/-- Round to the nearest integer, ties to the even neighbour. -/
def roundHalfEven (q : ℚ) : Int :=
  if q - ⌊q⌋ < 1 / 2 then ⌊q⌋
  else if 1 / 2 < q - ⌊q⌋ then ⌊q⌋ + 1
  else if ⌊q⌋ % 2 = 0 then ⌊q⌋ else ⌊q⌋ + 1

/-- Rounding to a 53-bit significand at the binary exponent `e`: the multiple of
`2 ^ (e - 52)` nearest to `q`, ties to even. -/
def roundAt (e : Int) (q : ℚ) : ℚ := (roundHalfEven (q / 2 ^ (e - 52)) : ℚ) * 2 ^ (e - 52)

/-- The rounding of binary64 arithmetic, round to nearest with ties to even, on
the rationals: `roundAt` at the exponent `e` with `2 ^ e ≤ |q| < 2 ^ (e + 1)`.
The exponent range (overflow, subnormal numbers) is not represented. -/
def round64 (q : ℚ) : ℚ := if q = 0 then 0 else roundAt (Int.log 2 |q|) q

/-- The inter-ACK gap `Now ().GetSeconds () - m_lastAck.GetSeconds ()` of
`PktsAcked` as binary64 computes it: each conversion to seconds and the
subtraction are rounded. -/
def gap64 (now last : Time) : ℚ :=
  round64 (round64 ((now.ns : ℚ) / 1000000000) - round64 ((last.ns : ℚ) / 1000000000))

/-- The timing condition on a sequence of events, `last` being the time of the
previous acknowledgment (`Time::Min ()` when there was none): for every
acknowledgment the inter-ACK gap that `PktsAcked` computes,
`Now ().GetSeconds () - m_lastAck.GetSeconds ()`, is at least zero and at most
twice the `double` value of its own RTT in seconds, both in the exact arithmetic
of `Dbl` and with the rounding of binary64. -/
def gapsWithin (last : Time) : List Event → Prop
  | [] => True
  | .ack now _ _ rtt :: es =>
    (last = Time.Min ∨
      (Dbl.le 0 (now.GetSeconds - last.GetSeconds) = true ∧
        Dbl.le (now.GetSeconds - last.GetSeconds) (2 * rtt.GetSeconds) = true ∧
        0 ≤ gap64 now last ∧ gap64 now last ≤ 2 * round64 ((rtt.ns : ℚ) / 1000000000))) ∧
    gapsWithin now es
  | .tick _ :: es => gapsWithin last es

/-- A sequence of events that leaves the inter-ACK gap at zero after an
acknowledgment at time `t`, `minRtt` being the minimum RTT seen so far: ticks,
and further acknowledgments that arrive at the same time `t` with a positive
representable RTT and a best rate `uint32_t (cWnd / minRtt)` that is defined and
non-zero. -/
def staysQuiet (t : Time) (minRtt : Time) : List Event → Prop
  | [] => True
  | .ack now tcb _ rtt :: es =>
    now = t ∧ 0 < rtt.ns ∧ rtt.ns < 2 ^ 63 ∧
    (∃ b, tracedDiv tcb.m_cWnd
        (if rtt.ns < minRtt.ns then rtt else minRtt).GetSeconds = .ok b ∧ 0 < b) ∧
    staysQuiet t (if rtt.ns < minRtt.ns then rtt else minRtt) es
  | .tick _ :: es => staysQuiet t minRtt es

/-- The invariant behind the non-negative estimate: the estimator is started,
`m_currentERE` and `m_lastERE` are finite and non-negative, the inter-ACK gap is
finite with `0 ≤ m_deltaT ≤ 2 * m_Rtt`, the last RTT and the interval are
positive, and the statics are finite with `0 ≤ u`. -/
def NonnegInv (s : TcpAdaptiveStart) (g : Statics) : Prop :=
  s.flag = true ∧ (∃ c, s.m_currentERE = Dbl.fin c ∧ 0 ≤ c) ∧
  (∃ e, s.m_lastERE = Dbl.fin e ∧ 0 ≤ e) ∧
  (∃ d, s.m_deltaT = Dbl.fin d ∧ 0 ≤ d ∧ d ≤ 2 * ((s.m_Rtt.ns : ℚ) / 1000000000)) ∧
  0 < s.m_Rtt.ns ∧ 0 < s.m_interval.ns ∧
  (∃ u, g.u = Dbl.fin u ∧ 0 ≤ u) ∧ (∃ m, g.umax = Dbl.fin m)

/-- The invariant behind an estimate that stays at zero: the estimator is started,
`m_currentERE`, `m_lastERE` and `m_deltaT` are zero, the best rate is a non-zero
whole number, the last RTT is positive and representable, the minimum RTT is
`minRtt` and is set, the interval is positive, the previous raw sample is
finite, the statics are finite with `0 ≤ u` and `0 < umax`, and the last
acknowledgment arrived at time `t`. -/
def QuietInv (t : Time) (minRtt : Time) (s : TcpAdaptiveStart) (g : Statics) : Prop :=
  s.flag = true ∧ s.m_currentERE = Dbl.fin 0 ∧ s.m_lastERE = Dbl.fin 0 ∧
  s.m_deltaT = Dbl.fin 0 ∧ (∃ b : Nat, s.m_bestRate = Dbl.ofU32 b ∧ 0 < b) ∧
  0 < s.m_Rtt.ns ∧ s.m_Rtt.ns < 2 ^ 63 ∧ s.m_minRtt = minRtt ∧ minRtt.ns ≠ 0 ∧
  0 < s.m_interval.ns ∧
  (∃ l, s.m_lastSampleERE = Dbl.fin l) ∧ (∃ u, g.u = Dbl.fin u ∧ 0 ≤ u) ∧
  (∃ m, g.umax = Dbl.fin m ∧ 0 < m) ∧ s.m_lastAck = t

/-- What is used of a rounding `fl` of the finite results of `double`
arithmetic: it is monotone, exact on `0` and `1`, and rounding twice is rounding
once. -/
def IsRounding (fl : ℚ → ℚ) : Prop :=
  Monotone fl ∧ fl 0 = 0 ∧ fl 1 = 1 ∧ ∀ x, fl (fl x) = fl x

/-- The time constant of `CalculateERE`,
`m_Rtt.GetSeconds () + 10 * m_Rtt.GetSeconds () * (u / umax)`, on finite
operands with the rounding `fl` after every operation: `R` is the value of
`m_Rtt.GetSeconds ()` and `ratio` the value of `u / umax`. -/
def tkWith (fl : ℚ → ℚ) (R ratio : ℚ) : ℚ := fl (R + fl (fl (10 * R) * ratio))

/-- The filter weight of `CalculateERE`, `(2 * tk - m_deltaT) / (2 * tk + m_deltaT)`,
on finite operands with the rounding `fl` after every operation. -/
def alphaWith (fl : ℚ → ℚ) (T d : ℚ) : ℚ := fl (fl (fl (2 * T) - d) / fl (fl (2 * T) + d))

/-- The filtered estimate of `CalculateERE`,
`(alpha * m_lastERE) + ((1 - alpha) * instantaneousERE)`, on finite operands
with the rounding `fl` after every operation. -/
def filteredWith (fl : ℚ → ℚ) (a e X : ℚ) : ℚ := fl (fl (a * e) + fl (fl (1 - a) * X))

/-! ## Arithmetic of `Dbl` -/

namespace Dbl

@[simp] theorem zero_def : (0 : Dbl) = fin 0 := by
  show fin ((0 : Nat) : ℚ) = fin 0
  norm_num

@[simp] theorem one_def : (1 : Dbl) = fin 1 := by
  show fin ((1 : Nat) : ℚ) = fin 1
  norm_num

@[simp] theorem two_def : (2 : Dbl) = fin 2 := by
  show fin ((2 : Nat) : ℚ) = fin 2
  norm_num

@[simp] theorem ten_def : (10 : Dbl) = fin 10 := by
  show fin ((10 : Nat) : ℚ) = fin 10
  norm_num

@[simp] theorem lit_06 : (0.6 : Dbl) = fin (3 / 5) := by
  show fin (0.6 : ℚ) = fin (3 / 5)
  norm_num

@[simp] theorem lit_04 : (0.4 : Dbl) = fin (2 / 5) := by
  show fin (0.4 : ℚ) = fin (2 / 5)
  norm_num

@[simp] theorem lit_001 : (0.01 : Dbl) = fin (1 / 100) := by
  show fin (0.01 : ℚ) = fin (1 / 100)
  norm_num

@[simp] theorem fin_add_fin (a b : ℚ) : fin a + fin b = fin (a + b) := rfl

@[simp] theorem fin_sub_fin (a b : ℚ) : fin a - fin b = fin (a - b) := by
  show add (fin a) (neg (fin b)) = fin (a - b)
  simp [add, neg, sub_eq_add_neg]

@[simp] theorem fin_mul_fin (a b : ℚ) : fin a * fin b = fin (a * b) := rfl

theorem fin_div_fin (a b : ℚ) (h : b ≠ 0) : fin a / fin b = fin (a / b) := by
  show div (fin a) (fin b) = fin (a / b)
  simp [div, h]

@[simp] theorem lt_fin_fin (a b : ℚ) : lt (fin a) (fin b) = decide (a < b) := rfl

@[simp] theorem le_fin_fin (a b : ℚ) : le (fin a) (fin b) = decide (a ≤ b) := rfl

theorem add_nan (x : Dbl) : x + nan = nan := by
  cases x <;> rfl

theorem nan_add (x : Dbl) : nan + x = nan := by
  cases x <;> rfl

theorem sub_nan (x : Dbl) : x - nan = nan := by
  cases x <;> rfl

theorem nan_sub (x : Dbl) : nan - x = nan := by
  cases x <;> rfl

theorem mul_nan (x : Dbl) : x * nan = nan := by
  cases x <;> rfl

theorem nan_mul (x : Dbl) : nan * x = nan := by
  cases x <;> rfl

theorem div_nan (x : Dbl) : x / nan = nan := by
  cases x <;> rfl

theorem nan_div (x : Dbl) : nan / x = nan := by
  cases x <;> rfl

theorem zero_div_zero : (fin 0 / fin 0 : Dbl) = nan := by
  show div (fin 0) (fin 0) = nan
  simp [div, infOfSign]

theorem nan_lt (x : Dbl) : lt nan x = false := by
  cases x <;> rfl

end Dbl

/-! ## Conversions between `double`, integers and `Time` -/

theorem castU32_fin (q : ℚ) (h0 : 0 ≤ q) (h1 : q < 2 ^ 32) :
    castU32 (Dbl.fin q) = .ok ⌊q⌋₊ := by
  have h : (-1 : ℚ) < q := by linarith
  simp [castU32, h, h1]

theorem castU32_zero : castU32 (Dbl.fin 0) = .ok 0 := by
  rw [castU32_fin 0 (le_refl _) (by norm_num)]
  simp

theorem castU32_one : castU32 (Dbl.fin 1) = .ok 1 := by
  rw [castU32_fin 1 (by norm_num) (by norm_num)]
  simp

/-- The floor of `max (1, a / c)` over the rationals is the natural-number
`max 1 (a / c)`. -/
theorem natFloor_max_one_div (a c : Nat) :
    ⌊max (1 : ℚ) ((a : ℚ) / (c : ℚ))⌋₊ = Nat.max 1 (a / c) := by
  have h : ⌊max (1 : ℚ) ((a : ℚ) / (c : ℚ))⌋₊ = max ⌊(1 : ℚ)⌋₊ ⌊(a : ℚ) / (c : ℚ)⌋₊ :=
    Nat.floor_mono.map_max
  rw [h, Nat.floor_one, Rat.natFloor_natCast_div_natCast]

theorem wrapInt32_emod (z : Int) : wrapInt32 z % 2 ^ 32 = z % 2 ^ 32 := by
  unfold wrapInt32
  split <;> omega

theorem Seconds_001 : Seconds 0.01 = .ok ⟨10000000⟩ := by
  rw [Dbl.lit_001]
  have h : ⌊(1 / 100 : ℚ) * 1000000000⌋ = 10000000 := by norm_num
  simp only [Seconds, h]
  rfl

/-- The constructor `Seconds` is the inverse of `GetSeconds` on representable times. -/
theorem Seconds_GetSeconds (t : Time) (hlo : -(2 ^ 63) ≤ t.ns) (hhi : t.ns < 2 ^ 63) :
    Seconds t.GetSeconds = .ok t := by
  have h : ⌊(t.ns : ℚ) / 1000000000 * 1000000000⌋ = t.ns := by
    rw [div_mul_cancel₀ _ (by norm_num : (1000000000 : ℚ) ≠ 0)]
    exact Int.floor_intCast _
  simp only [Seconds, Time.GetSeconds, h, hlo, hhi, and_self, if_true]

/-- The constructor `Seconds` applied to a value that is not below `0.01`
yields, when it yields anything, at least 10 ms. -/
theorem Seconds_floor (x : Dbl) (t : Time) (hx : Dbl.lt x 0.01 = false)
    (h : Seconds x = .ok t) : 10000000 ≤ t.ns := by
  cases x with
  | fin q =>
    rw [Dbl.lit_001, Dbl.lt_fin_fin] at hx
    have hq : (1 / 100 : ℚ) ≤ q := not_lt.mp (of_decide_eq_false hx)
    simp only [Seconds] at h
    split_ifs at h
    cases h
    show (10000000 : Int) ≤ ⌊q * 1000000000⌋
    apply Int.le_floor.mpr
    push_cast
    linarith
  | pinf => cases h
  | ninf => cases h
  | nan => cases h

/-- The traced quotient by a positive time, when it is below `2^32`: its floor. -/
theorem tracedDiv_floor (w : Nat) (t : Time) (ht : 0 < t.ns)
    (h1 : (w : ℚ) / ((t.ns : ℚ) / 1000000000) < 2 ^ 32) :
    tracedDiv w t.GetSeconds = .ok ⌊(w : ℚ) / ((t.ns : ℚ) / 1000000000)⌋₊ := by
  have hq : (0 : ℚ) < (t.ns : ℚ) / 1000000000 := by
    have : (0 : ℚ) < (t.ns : ℚ) := by exact_mod_cast ht
    positivity
  unfold tracedDiv Dbl.ofU32 Time.GetSeconds
  rw [Dbl.fin_div_fin _ _ hq.ne']
  exact castU32_fin _ (by positivity) h1

/-- The traced quotient by a positive time, when the exact quotient is the whole
number `b`. -/
theorem tracedDiv_exact (w b : Nat) (t : Time) (ht : 0 < t.ns) (hb : b < 2 ^ 32)
    (h : (w : ℚ) * 1000000000 = (b : ℚ) * (t.ns : ℚ)) :
    tracedDiv w t.GetSeconds = .ok b := by
  have hq : (0 : ℚ) < (t.ns : ℚ) := by exact_mod_cast ht
  have hdiv : (w : ℚ) / ((t.ns : ℚ) / 1000000000) = (b : ℚ) := by
    field_simp
    linarith
  rw [tracedDiv_floor w t ht (by rw [hdiv]; exact_mod_cast hb), hdiv, Nat.floor_natCast]

/-- The traced quotient fails with `Fault.conversion` only. -/
theorem tracedDiv_error (w : Nat) (x : Dbl) (e : Fault) (h : tracedDiv w x = .error e) :
    e = .conversion := by
  unfold tracedDiv at h
  generalize Dbl.ofU32 w / x = y at h
  cases y with
  | fin q =>
    simp only [castU32] at h
    split_ifs at h
    cases h
    rfl
  | pinf => cases h; rfl
  | ninf => cases h; rfl
  | nan => cases h; rfl

/-! ## Window growth -/

namespace TcpAdaptiveStart

/-- With a non-empty window the adder is `max (1, segmentSize² / cWnd)` and its
conversion to `uint32_t` is the integer quotient, at least 1. -/
theorem castU32_adder (tcb : TcpSocketState) (h : 0 < tcb.m_cWnd) :
    castU32 (adder tcb) =
      .ok (Nat.max 1 (tcb.m_segmentSize * tcb.m_segmentSize % 2 ^ 32 / tcb.m_cWnd)) := by
  have hc : (tcb.m_cWnd : ℚ) ≠ 0 := by exact_mod_cast h.ne'
  have hcpos : (0 : ℚ) < (tcb.m_cWnd : ℚ) := by exact_mod_cast h
  have hx : tcb.m_segmentSize * tcb.m_segmentSize % 2 ^ 32 < 2 ^ 32 := Nat.mod_lt _ (by norm_num)
  unfold adder Dbl.ofU32
  generalize tcb.m_segmentSize * tcb.m_segmentSize % 2 ^ 32 = x at hx ⊢
  rw [Dbl.fin_div_fin _ _ hc]
  simp only [Dbl.max, Dbl.one_def, Dbl.lt_fin_fin]
  by_cases hlt : (1 : ℚ) < (x : ℚ) / (tcb.m_cWnd : ℚ)
  · have hcx : tcb.m_cWnd < x := by
      rw [lt_div_iff₀ hcpos] at hlt
      exact_mod_cast (by linarith : (tcb.m_cWnd : ℚ) < x)
    have hq : 1 ≤ x / tcb.m_cWnd := (Nat.one_le_div_iff h).mpr hcx.le
    have hle : (x : ℚ) / (tcb.m_cWnd : ℚ) < 2 ^ 32 := by
      have h1 : (x : ℚ) / (tcb.m_cWnd : ℚ) ≤ x := by
        apply div_le_self (by positivity)
        exact_mod_cast h
      have h2 : (x : ℚ) < 2 ^ 32 := by exact_mod_cast hx
      linarith
    simp only [hlt, decide_True, if_true]
    rw [castU32_fin _ (by positivity) hle, Rat.natFloor_natCast_div_natCast]
    congr 1
    exact (Nat.max_eq_right hq).symm
  · have hxc : x ≤ tcb.m_cWnd := by
      rw [not_lt, div_le_iff₀ hcpos] at hlt
      exact_mod_cast (by linarith : (x : ℚ) ≤ tcb.m_cWnd)
    have hq : x / tcb.m_cWnd ≤ 1 := by
      calc x / tcb.m_cWnd ≤ tcb.m_cWnd / tcb.m_cWnd := Nat.div_le_div_right hxc
        _ = 1 := Nat.div_self h
    simp only [hlt, decide_False, if_false, Bool.false_eq_true]
    rw [castU32_one]
    congr 1
    exact (Nat.max_eq_left hq).symm

/-- With an empty window and a zero segment size the quotient is `0 / 0 = NaN`
and `std::max (1.0, NaN)` is `1.0`. -/
theorem castU32_adder_zero (tcb : TcpSocketState) (hc : tcb.m_cWnd = 0)
    (hs : tcb.m_segmentSize = 0) : castU32 (adder tcb) = .ok 1 := by
  have : adder tcb = Dbl.fin 1 := by
    unfold adder Dbl.ofU32
    rw [hc, hs]
    show Dbl.max 1 (Dbl.div _ _) = _
    simp [Dbl.div, Dbl.infOfSign, Dbl.max, Dbl.lt]
  rw [this, castU32_one]

theorem SlowStart_ssThresh (tcb : TcpSocketState) (n : Nat) :
    (SlowStart tcb n).1.m_ssThresh = tcb.m_ssThresh := by
  unfold SlowStart
  split <;> rfl

theorem SlowStart_segmentSize (tcb : TcpSocketState) (n : Nat) :
    (SlowStart tcb n).1.m_segmentSize = tcb.m_segmentSize := by
  unfold SlowStart
  split <;> rfl

/-- Congestion avoidance returns a state, with the threshold untouched, whenever
an empty window comes with a zero segment size. -/
theorem CongestionAvoidance_ok (tcb : TcpSocketState) (n : Nat)
    (h : tcb.m_cWnd = 0 → tcb.m_segmentSize = 0) :
    ∃ t, CongestionAvoidance tcb n = .ok t ∧ t.m_ssThresh = tcb.m_ssThresh := by
  unfold CongestionAvoidance
  by_cases hn : 0 < n
  · have hcast : ∃ a, castU32 (adder tcb) = .ok a := by
      rcases Nat.eq_zero_or_pos tcb.m_cWnd with hc | hc
      · exact ⟨1, castU32_adder_zero tcb hc (h hc)⟩
      · exact ⟨_, castU32_adder tcb hc⟩
    obtain ⟨a, ha⟩ := hcast
    simp only [hn, if_true, ha]
    split <;> exact ⟨_, rfl, rfl⟩
  · simp only [hn, if_false]
    exact ⟨tcb, rfl, rfl⟩

end TcpAdaptiveStart

/-! ## The tick -/

namespace TcpAdaptiveStart

/-- A tick leaves the minimum RTT alone. -/
theorem CalculateERE_minRtt (self : TcpAdaptiveStart) (g : Statics) (tcb : TcpSocketState)
    (r : TcpAdaptiveStart × Statics) (h : CalculateERE self g tcb = .ok r) :
    r.1.m_minRtt = self.m_minRtt := by
  unfold CalculateERE at h
  split at h
  · cases h
  · split at h
    · cases h
    · cases h; rfl

/-- A tick that completes leaves an interval of at least 10 ms and schedules the
next tick after exactly that interval. -/
theorem CalculateERE_interval (self : TcpAdaptiveStart) (g : Statics) (tcb : TcpSocketState)
    (r : TcpAdaptiveStart × Statics) (h : CalculateERE self g tcb = .ok r) :
    10000000 ≤ r.1.m_interval.ns ∧ r.1.m_ereEstimateEvent = some r.1.m_interval := by
  unfold CalculateERE at h
  split at h
  · cases h
  · split at h
    · cases h
    · rename_i interval hint
      cases h
      refine ⟨?_, rfl⟩
      show 10000000 ≤ interval.ns
      cases hlt : Dbl.lt (nextIntervalSeconds self g tcb) 0.01
      · rw [hlt] at hint
        exact Seconds_floor _ _ hlt hint
      · rw [hlt] at hint
        simp only [if_true] at hint
        rw [Seconds_001] at hint
        cases hint
        exact le_refl _

/-- The quantities of one tick when every input is finite, the updated `umax` is
non-zero and the denominator of `alpha` is non-zero: each is the exact rational
given by the source formula. -/
theorem tick_values (self : TcpAdaptiveStart) (g : Statics) (tcb : TcpSocketState)
    (l u0 m d e X U M T A E : ℚ)
    (hI : self.m_interval.ns ≠ 0)
    (hl : self.m_lastSampleERE = Dbl.fin l) (hu0 : g.u = Dbl.fin u0) (hm : g.umax = Dbl.fin m)
    (hd : self.m_deltaT = Dbl.fin d) (he : self.m_lastERE = Dbl.fin e)
    (hX : X = ((Int.toNat (self.m_ackedSinceT % 2 ^ 32) * tcb.m_segmentSize % 2 ^ 32 : Nat) : ℚ)
      / ((self.m_interval.ns : ℚ) / 1000000000))
    (hU : U = 3 / 5 * u0 + 2 / 5 * |X - l|)
    (hM : M = if m < U then U else m) (hM0 : M ≠ 0)
    (hT : T = (self.m_Rtt.ns : ℚ) / 1000000000
      + 10 * ((self.m_Rtt.ns : ℚ) / 1000000000) * (U / M))
    (hden : 2 * T + d ≠ 0)
    (hA : A = (2 * T - d) / (2 * T + d))
    (hE : E = A * e + (1 - A) * X) :
    instantaneousERE self tcb = Dbl.fin X ∧ nextU self g tcb = Dbl.fin U ∧
      nextUmax self g tcb = Dbl.fin M ∧ tk self g tcb = Dbl.fin T ∧
      alpha self g tcb = Dbl.fin A ∧ filteredERE self g tcb = Dbl.fin E := by
  have hIq : (self.m_interval.ns : ℚ) / 1000000000 ≠ 0 := by
    have : (self.m_interval.ns : ℚ) ≠ 0 := by exact_mod_cast hI
    positivity
  have hinst : instantaneousERE self tcb = Dbl.fin X := by
    unfold instantaneousERE Dbl.ofU32 Time.GetSeconds
    rw [Dbl.fin_div_fin _ _ hIq, hX]
  have hnu : nextU self g tcb = Dbl.fin U := by
    unfold nextU
    rw [hinst, hl, hu0]
    simp only [Dbl.lt_fin_fin, Dbl.lit_06, Dbl.lit_04, Dbl.fin_mul_fin, Dbl.fin_sub_fin,
      Dbl.fin_add_fin]
    by_cases hlt : l < X
    · simp only [hlt, decide_True, if_true]
      rw [hU, abs_of_pos (by linarith)]
    · simp only [hlt, decide_False, if_false, Bool.false_eq_true]
      rw [hU, abs_of_nonpos (by linarith)]
      congr 1
      ring
  have hnm : nextUmax self g tcb = Dbl.fin M := by
    unfold nextUmax
    rw [hnu, hm]
    simp only [Dbl.lt_fin_fin]
    by_cases hlt : m < U
    · simp only [hlt, decide_True, if_true, hM]
    · simp only [hlt, decide_False, if_false, Bool.false_eq_true, hM]
  have htk : tk self g tcb = Dbl.fin T := by
    unfold tk
    rw [hnu, hnm, Dbl.fin_div_fin _ _ hM0]
    simp only [Time.GetSeconds, Dbl.ten_def, Dbl.fin_mul_fin, Dbl.fin_add_fin, hT]
  have hal : alpha self g tcb = Dbl.fin A := by
    unfold alpha
    rw [htk, hd]
    simp only [Dbl.two_def, Dbl.fin_mul_fin, Dbl.fin_sub_fin, Dbl.fin_add_fin]
    rw [Dbl.fin_div_fin _ _ hden, hA]
  have hf : filteredERE self g tcb = Dbl.fin E := by
    unfold filteredERE
    rw [hal, hinst, he]
    simp only [Dbl.one_def, Dbl.fin_mul_fin, Dbl.fin_sub_fin, Dbl.fin_add_fin, hE]
  exact ⟨hinst, hnu, hnm, htk, hal, hf⟩

/-- The result of a tick in terms of its intermediate quantities, when the best
rate is finite and non-zero and the next interval fits in a `Time`. -/
theorem CalculateERE_result (self : TcpAdaptiveStart) (g : Statics) (tcb : TcpSocketState)
    (X U M E b x : ℚ) (hI : self.m_interval.ns ≠ 0)
    (hinst : instantaneousERE self tcb = Dbl.fin X) (hnu : nextU self g tcb = Dbl.fin U)
    (hnm : nextUmax self g tcb = Dbl.fin M) (hf : filteredERE self g tcb = Dbl.fin E)
    (hb : self.m_bestRate = Dbl.fin b) (hb0 : b ≠ 0)
    (hx : x = (self.m_Rtt.ns : ℚ) / 1000000000 * ((b - E) / b))
    (hhi : ⌊x * 1000000000⌋ < 2 ^ 63) :
    CalculateERE self g tcb =
      .ok ({ self with
              m_currentERE := Dbl.fin E
              m_ackedSinceT := 0
              m_lastSampleERE := Dbl.fin X
              m_lastERE := Dbl.fin E
              m_interval := if x < 1 / 100 then ⟨10000000⟩ else ⟨⌊x * 1000000000⌋⟩
              m_ereEstimateEvent :=
                some (if x < 1 / 100 then ⟨10000000⟩ else ⟨⌊x * 1000000000⌋⟩) },
           { u := Dbl.fin U, umax := Dbl.fin M }) := by
  have hz : self.m_interval.IsZero = false := by simp [Time.IsZero, hI]
  have hnext : nextIntervalSeconds self g tcb = Dbl.fin x := by
    unfold nextIntervalSeconds
    rw [hf, hb]
    simp only [Time.GetSeconds, Dbl.fin_sub_fin]
    rw [Dbl.fin_div_fin _ _ hb0, Dbl.fin_mul_fin, hx]
  have hint : (if Dbl.lt (nextIntervalSeconds self g tcb) 0.01 then Seconds 0.01
      else Seconds (nextIntervalSeconds self g tcb)) =
      .ok (if x < 1 / 100 then ⟨10000000⟩ else ⟨⌊x * 1000000000⌋⟩) := by
    rw [hnext]
    by_cases hlt : x < 1 / 100
    · simp only [Dbl.lit_001, Dbl.lt_fin_fin, hlt, decide_True, if_true]
      rw [← Dbl.lit_001, Seconds_001]
    · have hlo : -(2 ^ 63) ≤ ⌊x * 1000000000⌋ := by
        have : (0 : ℚ) ≤ x * 1000000000 := by
          have : (1 / 100 : ℚ) ≤ x := not_lt.mp hlt
          nlinarith
        have := Int.floor_nonneg.mpr this
        omega
      simp only [Dbl.lit_001, Dbl.lt_fin_fin, hlt, decide_False, if_false, Bool.false_eq_true,
        Seconds, hlo, hhi, and_self, if_true]
  unfold CalculateERE
  simp only [hz, Bool.false_eq_true, if_false]
  rw [hint]
  simp only [hf, hinst, hnu, hnm]

/-- A tick in which the updated `u` and `umax` are both zero: `u / umax` is
`0 / 0 = NaN`, the `NaN` reaches the candidate interval, the comparison with
`0.01` is false and `Seconds (NaN)` has no value. -/
theorem CalculateERE_zero_umax (self : TcpAdaptiveStart) (g : Statics) (tcb : TcpSocketState)
    (hI : self.m_interval.IsZero = false)
    (hu : nextU self g tcb = Dbl.fin 0) (hm : nextUmax self g tcb = Dbl.fin 0) :
    CalculateERE self g tcb = .error .conversion := by
  have hn : nextIntervalSeconds self g tcb = Dbl.nan := by
    unfold nextIntervalSeconds filteredERE alpha tk
    rw [hu, hm, Dbl.zero_div_zero]
    simp only [Dbl.mul_nan, Dbl.add_nan, Dbl.nan_sub, Dbl.nan_div, Dbl.nan_mul, Dbl.nan_add,
      Dbl.sub_nan]
  unfold CalculateERE
  rw [hI, hn]
  rfl

/-- The first tick of an estimator: no earlier sample or estimate, a zero
inter-ACK gap, a 100 ms interval, a non-zero 32-bit product `P` of the acked
counter and the segment size, and a non-zero best rate `b`.  The
estimate stays 0, the sample is `P / 0.1` and the next interval is the RTT,
raised to the 10 ms floor. -/
theorem firstAck_tick (acked : Int) (now rtt : Time) (tcb : TcpSocketState) (g : Statics)
    (P : Nat) (u0 m : ℚ) (hgu : g.u = Dbl.fin u0) (hgm : g.umax = Dbl.fin m) (hu0 : 0 ≤ u0)
    (hP : Int.toNat (acked % 2 ^ 32) * tcb.m_segmentSize % 2 ^ 32 = P) (hPpos : 0 < P)
    (hrtt : 0 < rtt.ns) (hr63 : rtt.ns < 2 ^ 63) (b : Nat) (hb0 : 0 < b) :
    CalculateERE
      { m_currentERE := 0
        m_bestRate := Dbl.ofU32 b
        m_interval := ⟨100000000⟩
        m_lastSampleERE := 0
        m_lastERE := 0
        m_minRtt := rtt
        m_Rtt := rtt
        m_ackedSinceT := acked
        m_lastAck := now
        m_deltaT := 0
        flag := true
        m_ereEstimateEvent := none } g tcb =
    .ok ({ m_currentERE := Dbl.fin 0
           m_bestRate := Dbl.ofU32 b
           m_interval := if rtt.ns < 10000000 then ⟨10000000⟩ else rtt
           m_lastSampleERE := Dbl.fin ((P : ℚ) / (1 / 10))
           m_lastERE := Dbl.fin 0
           m_minRtt := rtt
           m_Rtt := rtt
           m_ackedSinceT := 0
           m_lastAck := now
           m_deltaT := 0
           flag := true
           m_ereEstimateEvent := some (if rtt.ns < 10000000 then ⟨10000000⟩ else rtt) },
         { u := Dbl.fin (3 / 5 * u0 + 2 / 5 * ((P : ℚ) / (1 / 10)))
           umax := Dbl.fin (if m < 3 / 5 * u0 + 2 / 5 * ((P : ℚ) / (1 / 10))
             then 3 / 5 * u0 + 2 / 5 * ((P : ℚ) / (1 / 10)) else m) }) := by
  have hX : (0 : ℚ) < (P : ℚ) / (1 / 10) := by
    have : (0 : ℚ) < (P : ℚ) := by exact_mod_cast hPpos
    positivity
  have hR : (0 : ℚ) < (rtt.ns : ℚ) / 1000000000 := by
    have : (0 : ℚ) < (rtt.ns : ℚ) := by exact_mod_cast hrtt
    positivity
  have hW : (0 : ℚ) < (b : ℚ) := by exact_mod_cast hb0
  have hU : (0 : ℚ) < 3 / 5 * u0 + 2 / 5 * ((P : ℚ) / (1 / 10)) := by positivity
  have hM : (0 : ℚ) < (if m < 3 / 5 * u0 + 2 / 5 * ((P : ℚ) / (1 / 10))
      then 3 / 5 * u0 + 2 / 5 * ((P : ℚ) / (1 / 10)) else m) := by
    split_ifs with h
    · exact hU
    · exact lt_of_lt_of_le hU (not_lt.mp h)
  have hT : (0 : ℚ) < (rtt.ns : ℚ) / 1000000000 + 10 * ((rtt.ns : ℚ) / 1000000000)
      * ((3 / 5 * u0 + 2 / 5 * ((P : ℚ) / (1 / 10)))
        / (if m < 3 / 5 * u0 + 2 / 5 * ((P : ℚ) / (1 / 10))
            then 3 / 5 * u0 + 2 / 5 * ((P : ℚ) / (1 / 10)) else m)) := by positivity
  have hb : (b : ℚ) ≠ 0 := hW.ne'
  obtain ⟨hi, hnu, hnm, -, -, hf⟩ := tick_values
    { m_currentERE := 0
      m_bestRate := Dbl.ofU32 b
      m_interval := ⟨100000000⟩
      m_lastSampleERE := 0
      m_lastERE := 0
      m_minRtt := rtt
      m_Rtt := rtt
      m_ackedSinceT := acked
      m_lastAck := now
      m_deltaT := 0
      flag := true
      m_ereEstimateEvent := none } g tcb 0 u0 m 0 0 ((P : ℚ) / (1 / 10)) _ _ _ 1 0
    (show (100000000 : Int) ≠ 0 by decide) Dbl.zero_def hgu hgm Dbl.zero_def Dbl.zero_def
    (by
      show (P : ℚ) / (1 / 10) = ((Int.toNat (acked % 2 ^ 32) * tcb.m_segmentSize % 2 ^ 32 : Nat) : ℚ)
        / ((((100000000 : Int) : ℚ)) / 1000000000)
      rw [hP]
      norm_num)
    (by rw [sub_zero, abs_of_pos hX]) rfl hM.ne' rfl
    (by rw [add_zero]; exact (mul_pos two_pos hT).ne')
    (by rw [sub_zero, add_zero]; exact (div_self (mul_pos two_pos hT).ne').symm)
    (by norm_num)
  have hbr : Dbl.ofU32 b = Dbl.fin (b : ℚ) := rfl
  have hx : (rtt.ns : ℚ) / 1000000000 = (rtt.ns : ℚ) / 1000000000
      * (((b : ℚ) - 0) / (b : ℚ)) := by
    rw [sub_zero, div_self hb, mul_one]
  have hfl : ⌊(rtt.ns : ℚ) / 1000000000 * 1000000000⌋ = rtt.ns := by
    rw [div_mul_cancel₀ _ (by norm_num : (1000000000 : ℚ) ≠ 0)]
    exact Int.floor_intCast _
  have hres := CalculateERE_result
    { m_currentERE := 0
      m_bestRate := Dbl.ofU32 b
      m_interval := ⟨100000000⟩
      m_lastSampleERE := 0
      m_lastERE := 0
      m_minRtt := rtt
      m_Rtt := rtt
      m_ackedSinceT := acked
      m_lastAck := now
      m_deltaT := 0
      flag := true
      m_ereEstimateEvent := none } g tcb _ _ _ _ _ ((rtt.ns : ℚ) / 1000000000)
    (show (100000000 : Int) ≠ 0 by decide) hi hnu hnm hf hbr hb hx (by rw [hfl]; exact hr63)
  rw [hres]
  have hint : (if (rtt.ns : ℚ) / 1000000000 < 1 / 100 then (⟨10000000⟩ : Time)
      else ⟨⌊(rtt.ns : ℚ) / 1000000000 * 1000000000⌋⟩)
      = (if rtt.ns < 10000000 then ⟨10000000⟩ else rtt) := by
    rw [hfl]
    by_cases hlt : rtt.ns < 10000000
    · have hq : (rtt.ns : ℚ) / 1000000000 < 1 / 100 := by
        have : (rtt.ns : ℚ) < 10000000 := by exact_mod_cast hlt
        rw [div_lt_iff₀ (by norm_num)]
        linarith
      rw [if_pos hq, if_pos hlt]
    · have hq : ¬ (rtt.ns : ℚ) / 1000000000 < 1 / 100 := by
        have : (10000000 : ℚ) ≤ (rtt.ns : ℚ) := by exact_mod_cast (not_lt.mp hlt)
        rw [not_lt, le_div_iff₀ (by norm_num)]
        linarith
      rw [if_neg hq, if_neg hlt]
  rw [hint]

end TcpAdaptiveStart

/-! ## Acknowledgments -/

namespace TcpAdaptiveStart

/-- After a non-zero RTT sample the minimum RTT is non-zero. -/
theorem sampleAck_minRtt_ne_zero (self : TcpAdaptiveStart) (now : Time) (n : Nat) (rtt : Time)
    (hrtt : rtt.IsZero = false) : (sampleAck self now n rtt).m_minRtt.IsZero = false := by
  show Time.IsZero (if self.m_minRtt.IsZero then rtt
      else if rtt.ns < self.m_minRtt.ns then rtt else self.m_minRtt) = false
  cases hm : self.m_minRtt.IsZero
  · by_cases hlt : rtt.ns < self.m_minRtt.ns
    · simp [hlt, hrtt]
    · simp [hlt, hm]
  · simp [hrtt]

/-- With a non-zero `minRtt` and a quotient that converts to `uint32_t`,
`CalculateBestRate` stores the converted quotient. -/
theorem CalculateBestRate_ok (self : TcpAdaptiveStart) (minRtt : Time) (tcb : TcpSocketState)
    (b : Nat) (hm : minRtt.IsZero = false)
    (hb : tracedDiv tcb.m_cWnd minRtt.GetSeconds = .ok b) :
    CalculateBestRate self minRtt tcb = .ok { self with m_bestRate := Dbl.ofU32 b } := by
  simp only [CalculateBestRate, hm, Bool.false_eq_true, if_false, hb]

/-- A call of `CalculateBestRate` with a non-zero `minRtt` that returns has
converted the quotient. -/
theorem CalculateBestRate_inv (self : TcpAdaptiveStart) (minRtt : Time) (tcb : TcpSocketState)
    (s2 : TcpAdaptiveStart) (hm : minRtt.IsZero = false)
    (h : CalculateBestRate self minRtt tcb = .ok s2) :
    ∃ b, tracedDiv tcb.m_cWnd minRtt.GetSeconds = .ok b ∧
      s2 = { self with m_bestRate := Dbl.ofU32 b } := by
  simp only [CalculateBestRate, hm, Bool.false_eq_true, if_false] at h
  cases hb : tracedDiv tcb.m_cWnd minRtt.GetSeconds with
  | error e => rw [hb] at h; cases h
  | ok b =>
    rw [hb] at h
    cases h
    exact ⟨b, rfl, rfl⟩

/-- The threshold written by `PktsAcked` on a non-zero RTT is the one computed
from the estimate held on entry, and the best rate has been converted. -/
theorem PktsAcked_tcb (self : TcpAdaptiveStart) (g : Statics) (now : Time)
    (tcb : TcpSocketState) (n : Nat) (rtt : Time) (hrtt : rtt.IsZero = false)
    (r : TcpAdaptiveStart × Statics × TcpSocketState)
    (h : PktsAcked self g now tcb n rtt = .ok r) :
    ∃ c b, castU32 self.m_currentERE = .ok c ∧
      tracedDiv tcb.m_cWnd (sampleAck self now n rtt).m_minRtt.GetSeconds = .ok b ∧
      r.2.2 = { tcb with m_ssThresh := Nat.max (2 * tcb.m_segmentSize % 2 ^ 32) c } := by
  unfold PktsAcked at h
  simp only [hrtt, Bool.false_eq_true, if_false] at h
  have hE : (sampleAck self now n rtt).m_currentERE = self.m_currentERE := rfl
  rw [hE] at h
  cases hc : castU32 self.m_currentERE with
  | error e => rw [hc] at h; cases h
  | ok c =>
    rw [hc] at h
    simp only at h
    cases hB : CalculateBestRate (sampleAck self now n rtt) (sampleAck self now n rtt).m_minRtt
        { tcb with m_ssThresh := Nat.max (2 * tcb.m_segmentSize % 2 ^ 32) c } with
    | error e => rw [hB] at h; cases h
    | ok s2 =>
      rw [hB] at h
      obtain ⟨b, hb, -⟩ := CalculateBestRate_inv _ _ _ _
        (sampleAck_minRtt_ne_zero self now n rtt hrtt) hB
      refine ⟨c, b, rfl, hb, ?_⟩
      simp only at h
      split at h
      · cases h; rfl
      · split at h
        · cases h
        · cases h; rfl

/-- On a non-zero RTT, `PktsAcked` leaves the minimum RTT computed by the sampler. -/
theorem PktsAcked_minRtt (self : TcpAdaptiveStart) (g : Statics) (now : Time)
    (tcb : TcpSocketState) (n : Nat) (rtt : Time) (hrtt : rtt.IsZero = false)
    (r : TcpAdaptiveStart × Statics × TcpSocketState)
    (h : PktsAcked self g now tcb n rtt = .ok r) :
    r.1.m_minRtt = (sampleAck self now n rtt).m_minRtt := by
  unfold PktsAcked at h
  simp only [hrtt, Bool.false_eq_true, if_false] at h
  split at h
  · cases h
  · rename_i c hc
    cases hB : CalculateBestRate (sampleAck self now n rtt) (sampleAck self now n rtt).m_minRtt
        { tcb with m_ssThresh := Nat.max (2 * tcb.m_segmentSize % 2 ^ 32) c } with
    | error e => rw [hB] at h; cases h
    | ok s2 =>
      rw [hB] at h
      obtain ⟨b, -, hs2⟩ := CalculateBestRate_inv _ _ _ _
        (sampleAck_minRtt_ne_zero self now n rtt hrtt) hB
      subst hs2
      simp only at h
      split at h
      · cases h; rfl
      · split at h
        · cases h
        · rename_i s3 g3 hE
          cases h
          exact CalculateERE_minRtt _ _ _ _ hE

/-- Once the estimator is started, `PktsAcked` on a non-zero RTT returns as soon
as the estimate and the best rate convert to `uint32_t`. -/
theorem PktsAcked_started (self : TcpAdaptiveStart) (g : Statics) (now : Time)
    (tcb : TcpSocketState) (n : Nat) (rtt : Time) (hrtt : rtt.IsZero = false)
    (hflag : self.flag = true) (c : Nat) (hc : castU32 self.m_currentERE = .ok c)
    (b : Nat)
    (hb : tracedDiv tcb.m_cWnd (sampleAck self now n rtt).m_minRtt.GetSeconds = .ok b) :
    PktsAcked self g now tcb n rtt =
      .ok ({ sampleAck self now n rtt with m_bestRate := Dbl.ofU32 b },
           g, { tcb with m_ssThresh := Nat.max (2 * tcb.m_segmentSize % 2 ^ 32) c }) := by
  unfold PktsAcked
  have hE : (sampleAck self now n rtt).m_currentERE = self.m_currentERE := rfl
  have hF : (sampleAck self now n rtt).flag = true := hflag
  simp only [hrtt, Bool.false_eq_true, if_false, hE, hc, CalculateBestRate,
    sampleAck_minRtt_ne_zero self now n rtt hrtt, hb, hF, if_true]

/-- Before the estimator is started, `PktsAcked` on a non-zero RTT sets the flag
and runs the first tick on the sampled state. -/
theorem PktsAcked_unstarted (self : TcpAdaptiveStart) (g : Statics) (now : Time)
    (tcb : TcpSocketState) (n : Nat) (rtt : Time) (hrtt : rtt.IsZero = false)
    (hflag : self.flag = false) (c : Nat) (hc : castU32 self.m_currentERE = .ok c)
    (b : Nat)
    (hb : tracedDiv tcb.m_cWnd (sampleAck self now n rtt).m_minRtt.GetSeconds = .ok b) :
    PktsAcked self g now tcb n rtt =
      match CalculateERE
          { sampleAck self now n rtt with m_bestRate := Dbl.ofU32 b, flag := true } g
          { tcb with m_ssThresh := Nat.max (2 * tcb.m_segmentSize % 2 ^ 32) c } with
      | .error e => .error e
      | .ok (s3, g3) =>
        .ok (s3, g3, { tcb with m_ssThresh := Nat.max (2 * tcb.m_segmentSize % 2 ^ 32) c }) := by
  unfold PktsAcked
  have hE : (sampleAck self now n rtt).m_currentERE = self.m_currentERE := rfl
  have hF : (sampleAck self now n rtt).flag = false := hflag
  simp only [hrtt, Bool.false_eq_true, if_false, hE, hc, CalculateBestRate,
    sampleAck_minRtt_ne_zero self now n rtt hrtt, hb, hF]

/-- A best rate that does not convert to `uint32_t` ends `PktsAcked` on a
non-zero RTT with the conversion fault. -/
theorem PktsAcked_rate_fault (self : TcpAdaptiveStart) (g : Statics) (now : Time)
    (tcb : TcpSocketState) (n : Nat) (rtt : Time) (hrtt : rtt.IsZero = false)
    (c : Nat) (hc : castU32 self.m_currentERE = .ok c) (e : Fault)
    (hb : tracedDiv tcb.m_cWnd (sampleAck self now n rtt).m_minRtt.GetSeconds = .error e) :
    PktsAcked self g now tcb n rtt = .error e := by
  unfold PktsAcked
  have hE : (sampleAck self now n rtt).m_currentERE = self.m_currentERE := rfl
  simp only [hrtt, Bool.false_eq_true, if_false, hE, hc, CalculateBestRate,
    sampleAck_minRtt_ne_zero self now n rtt hrtt, hb]

/-- The sampler of a fresh estimator takes the RTT as the minimum RTT. -/
theorem sampleAck_create_minRtt (deltaT0 : Dbl) (now : Time) (n : Nat) (rtt : Time) :
    (sampleAck (create deltaT0) now n rtt).m_minRtt = rtt := by
  simp only [sampleAck, create, Time.IsZero, decide_True, if_true]

/-- A window of 10000 bytes and a minimum RTT of 100 ms: the best rate is 100000. -/
theorem tracedDiv_10000_100ms : tracedDiv 10000 (Time.GetSeconds ⟨100000000⟩) = .ok 100000 :=
  tracedDiv_exact 10000 100000 ⟨100000000⟩ (by decide) (by norm_num) (by norm_num)

/-- The first acknowledgment on a fresh estimator, with finite statics, a
non-zero 32-bit product `P` of `packetsAcked` and `segmentSize` and a best rate
`b` that is defined and non-zero: the complete result of `PktsAcked`. -/
theorem PktsAcked_fresh (deltaT0 : Dbl) (now rtt : Time) (tcb : TcpSocketState) (g : Statics)
    (n P : Nat) (u0 m : ℚ) (hgu : g.u = Dbl.fin u0) (hgm : g.umax = Dbl.fin m) (hu0 : 0 ≤ u0)
    (hP : n % 2 ^ 32 * tcb.m_segmentSize % 2 ^ 32 = P) (hPpos : 0 < P)
    (hrtt : 0 < rtt.ns) (hr63 : rtt.ns < 2 ^ 63) (b : Nat)
    (hb : tracedDiv tcb.m_cWnd rtt.GetSeconds = .ok b) (hb0 : 0 < b) :
    PktsAcked (create deltaT0) g now tcb n rtt =
    .ok ({ m_currentERE := Dbl.fin 0
           m_bestRate := Dbl.ofU32 b
           m_interval := if rtt.ns < 10000000 then ⟨10000000⟩ else rtt
           m_lastSampleERE := Dbl.fin ((P : ℚ) / (1 / 10))
           m_lastERE := Dbl.fin 0
           m_minRtt := rtt
           m_Rtt := rtt
           m_ackedSinceT := 0
           m_lastAck := now
           m_deltaT := 0
           flag := true
           m_ereEstimateEvent := some (if rtt.ns < 10000000 then ⟨10000000⟩ else rtt) },
         { u := Dbl.fin (3 / 5 * u0 + 2 / 5 * ((P : ℚ) / (1 / 10)))
           umax := Dbl.fin (if m < 3 / 5 * u0 + 2 / 5 * ((P : ℚ) / (1 / 10))
             then 3 / 5 * u0 + 2 / 5 * ((P : ℚ) / (1 / 10)) else m) },
         { tcb with m_ssThresh := 2 * tcb.m_segmentSize % 2 ^ 32 }) := by
  have hz : rtt.IsZero = false := by simp [Time.IsZero, hrtt.ne']
  have hacked : Int.toNat (wrapInt32 (0 + (n : Int)) % 2 ^ 32) * tcb.m_segmentSize % 2 ^ 32
      = P := by
    have : Int.toNat (wrapInt32 (0 + (n : Int)) % 2 ^ 32) = n % 2 ^ 32 := by
      rw [wrapInt32_emod, zero_add]
      omega
    rw [this, hP]
  have htick := firstAck_tick (wrapInt32 (0 + (n : Int))) now rtt
    { tcb with m_ssThresh := 2 * tcb.m_segmentSize % 2 ^ 32 } g P u0 m hgu hgm hu0 hacked hPpos
    hrtt hr63 b hb0
  have hc : castU32 (create deltaT0).m_currentERE = .ok 0 := by
    have : (create deltaT0).m_currentERE = Dbl.fin 0 := Dbl.zero_def
    rw [this, castU32_zero]
  have hmin : (sampleAck (create deltaT0) now n rtt).m_minRtt = rtt := by
    simp only [sampleAck, create, Time.IsZero, decide_True, if_true]
  rw [PktsAcked_unstarted (create deltaT0) g now tcb n rtt hz rfl 0 hc b (by rw [hmin]; exact hb)]
  have hm : Nat.max (2 * tcb.m_segmentSize % 2 ^ 32) 0 = 2 * tcb.m_segmentSize % 2 ^ 32 :=
    Nat.max_eq_left (Nat.zero_le _)
  rw [hm]
  have hsamp : ({ sampleAck (create deltaT0) now n rtt with
        m_bestRate := Dbl.ofU32 b, flag := true } : TcpAdaptiveStart) =
      { m_currentERE := 0
        m_bestRate := Dbl.ofU32 b
        m_interval := ⟨100000000⟩
        m_lastSampleERE := 0
        m_lastERE := 0
        m_minRtt := rtt
        m_Rtt := rtt
        m_ackedSinceT := wrapInt32 (0 + (n : Int))
        m_lastAck := now
        m_deltaT := 0
        flag := true
        m_ereEstimateEvent := none } := by
    simp only [sampleAck, create, Time.IsZero, decide_True, if_true]
  rw [hsamp, htick]

end TcpAdaptiveStart

/-! ## Runs of events -/

/-- The RTT samples an estimator has seen: the stored minimum, if set, followed by
the RTTs still to be delivered. -/
theorem run_minRtt (es : List Event) :
    ∀ (sg r : TcpAdaptiveStart × Statics),
      (∀ t ∈ rtts es, 0 < t.ns) → run sg es = .ok r →
      (sg.1.m_minRtt.ns = 0 → rtts es ≠ [] →
        r.1.m_minRtt ∈ rtts es ∧ ∀ t ∈ rtts es, r.1.m_minRtt.ns ≤ t.ns) ∧
      (sg.1.m_minRtt.ns ≠ 0 →
        (r.1.m_minRtt = sg.1.m_minRtt ∨ r.1.m_minRtt ∈ rtts es) ∧
        r.1.m_minRtt.ns ≤ sg.1.m_minRtt.ns ∧ ∀ t ∈ rtts es, r.1.m_minRtt.ns ≤ t.ns) := by
  induction es with
  | nil =>
    intro sg r _ hrun
    simp only [run] at hrun
    cases hrun
    simp [rtts]
  | cons e es ih =>
    intro sg r hpos hrun
    simp only [run] at hrun
    cases hstep : step sg e with
    | error f => rw [hstep] at hrun; cases hrun
    | ok sg1 =>
      rw [hstep] at hrun
      cases e with
      | tick tcb =>
        have hm : sg1.1.m_minRtt = sg.1.m_minRtt :=
          TcpAdaptiveStart.CalculateERE_minRtt _ _ _ _ hstep
        have := ih sg1 r hpos hrun
        rw [hm] at this
        exact this
      | ack now tcb n rtt =>
        have hrpos : 0 < rtt.ns := hpos rtt (by simp [rtts])
        have hrtt : rtt.IsZero = false := by
          simp [Time.IsZero, hrpos.ne']
        have hpos2 : ∀ t ∈ rtts es, 0 < t.ns := fun t ht => hpos t (by simp [rtts, ht])
        simp only [step] at hstep
        cases hP : TcpAdaptiveStart.PktsAcked sg.1 sg.2 now tcb n rtt with
        | error f => rw [hP] at hstep; cases hstep
        | ok p =>
          rw [hP] at hstep
          cases hstep
          have hm := TcpAdaptiveStart.PktsAcked_minRtt _ _ _ _ _ _ hrtt _ hP
          have hm2 : p.1.m_minRtt = (if sg.1.m_minRtt.IsZero then rtt
              else if rtt.ns < sg.1.m_minRtt.ns then rtt else sg.1.m_minRtt) := hm
          obtain ⟨_, ih2⟩ := ih (p.1, p.2.1) r hpos2 hrun
          by_cases hz : sg.1.m_minRtt.ns = 0
          · have hz2 : sg.1.m_minRtt.IsZero = true := by simp [Time.IsZero, hz]
            rw [hz2] at hm2
            simp only [if_true] at hm2
            have hne : p.1.m_minRtt.ns ≠ 0 := by rw [hm2]; exact hrpos.ne'
            obtain ⟨hmem, hle, hall⟩ := ih2 hne
            rw [hm2] at hmem hle
            refine ⟨fun _ _ => ⟨?_, ?_⟩, fun h => absurd hz h⟩
            · simp only [rtts, List.mem_cons]
              rcases hmem with h | h
              · exact Or.inl h
              · exact Or.inr h
            · intro t ht
              simp only [rtts, List.mem_cons] at ht
              rcases ht with h | h
              · rw [h]; exact hle
              · exact hall t h
          · have hz2 : sg.1.m_minRtt.IsZero = false := by simp [Time.IsZero, hz]
            rw [hz2] at hm2
            simp only [Bool.false_eq_true, if_false] at hm2
            refine ⟨fun h => absurd h hz, fun _ => ?_⟩
            by_cases hlt : rtt.ns < sg.1.m_minRtt.ns
            · rw [if_pos hlt] at hm2
              have hne : p.1.m_minRtt.ns ≠ 0 := by rw [hm2]; exact hrpos.ne'
              obtain ⟨hmem, hle, hall⟩ := ih2 hne
              rw [hm2] at hmem hle
              refine ⟨Or.inr ?_, by omega, ?_⟩
              · simp only [rtts, List.mem_cons]
                rcases hmem with h | h
                · exact Or.inl h
                · exact Or.inr h
              · intro t ht
                simp only [rtts, List.mem_cons] at ht
                rcases ht with h | h
                · rw [h]; exact hle
                · exact hall t h
            · rw [if_neg hlt] at hm2
              have hne : p.1.m_minRtt.ns ≠ 0 := by rw [hm2]; exact hz
              obtain ⟨hmem, hle, hall⟩ := ih2 hne
              rw [hm2] at hmem hle
              refine ⟨?_, hle, ?_⟩
              · rcases hmem with h | h
                · exact Or.inl h
                · exact Or.inr (by simp [rtts, h])
              · intro t ht
                simp only [rtts, List.mem_cons] at ht
                rcases ht with h | h
                · rw [h]; omega
                · exact hall t h

/-! ## The claims -/

open TcpAdaptiveStart

/-- C1: when `2 * segmentSize` fits in 32 bits and `m_currentERE` is a finite value
in `[0, 2^32)`, each of the three threshold computations yields at least
`2 * segmentSize`: `GetSsThresh` returns such a value, every `m_ssThresh` written
by `PktsAcked` on a non-zero RTT is such a value (and one is written whenever the
estimator is already started and the best rate converts to `uint32_t`), and
`IncreaseWindow` returns with such an `m_ssThresh`. -/
theorem C1_threshold_at_least_two_segments (self : TcpAdaptiveStart) (g : Statics) (now : Time)
    (tcb : TcpSocketState) (packetsAcked segmentsAcked bytesInFlight : Nat) (rtt : Time) (q : ℚ)
    (hseg : 2 * tcb.m_segmentSize < 2 ^ 32)
    (hERE : self.m_currentERE = Dbl.fin q) (h0 : 0 ≤ q) (h1 : q < 2 ^ 32)
    (hrtt : rtt.IsZero = false) :
    (∃ v, GetSsThresh self tcb bytesInFlight = .ok (self, tcb, v) ∧
      2 * tcb.m_segmentSize ≤ v) ∧
    (∀ r, PktsAcked self g now tcb packetsAcked rtt = .ok r →
      2 * tcb.m_segmentSize ≤ r.2.2.m_ssThresh) ∧
    (self.flag = true →
      ∀ b, tracedDiv tcb.m_cWnd (sampleAck self now packetsAcked rtt).m_minRtt.GetSeconds
          = .ok b →
        ∃ r, PktsAcked self g now tcb packetsAcked rtt = .ok r) ∧
    (∃ t, IncreaseWindow self tcb segmentsAcked = .ok t ∧
      2 * tcb.m_segmentSize ≤ t.m_ssThresh) := by
  have hc : castU32 self.m_currentERE = .ok ⌊q⌋₊ := by rw [hERE]; exact castU32_fin q h0 h1
  have hmod : 2 * tcb.m_segmentSize % 2 ^ 32 = 2 * tcb.m_segmentSize := Nat.mod_eq_of_lt hseg
  have hmax : 2 * tcb.m_segmentSize ≤ Nat.max (2 * tcb.m_segmentSize % 2 ^ 32) ⌊q⌋₊ := by
    rw [hmod]; exact Nat.le_max_left _ _
  refine ⟨?_, ?_, ?_, ?_⟩
  · refine ⟨Nat.max (2 * tcb.m_segmentSize % 2 ^ 32) ⌊q⌋₊, ?_, hmax⟩
    simp only [GetSsThresh, hc]
  · intro r hr
    obtain ⟨c, b, hc2, -, hr2⟩ := PktsAcked_tcb self g now tcb packetsAcked rtt hrtt r hr
    rw [hc] at hc2
    cases hc2
    rw [hr2]
    exact hmax
  · intro hflag b hb
    exact ⟨_, PktsAcked_started self g now tcb packetsAcked rtt hrtt hflag _ hc b hb⟩
  · unfold IncreaseWindow
    simp only [hc]
    split_ifs with h1 h2 h2
    · have hz : (SlowStart { tcb with m_ssThresh := Nat.max (2 * tcb.m_segmentSize % 2 ^ 32) ⌊q⌋₊ }
          segmentsAcked).1.m_cWnd = 0 →
          (SlowStart { tcb with m_ssThresh := Nat.max (2 * tcb.m_segmentSize % 2 ^ 32) ⌊q⌋₊ }
          segmentsAcked).1.m_segmentSize = 0 := by
        intro hz
        rw [hz, SlowStart_ssThresh] at h2
        rw [SlowStart_segmentSize]
        have : 2 * tcb.m_segmentSize ≤ 0 := le_trans hmax h2
        show tcb.m_segmentSize = 0
        omega
      obtain ⟨t, ht, hts⟩ := CongestionAvoidance_ok _ (SlowStart _ segmentsAcked).2 hz
      refine ⟨t, ht, ?_⟩
      rw [hts, SlowStart_ssThresh]
      exact hmax
    · refine ⟨_, rfl, ?_⟩
      rw [SlowStart_ssThresh]
      exact hmax
    · have hz : ({ tcb with m_ssThresh := Nat.max (2 * tcb.m_segmentSize % 2 ^ 32) ⌊q⌋₊ } :
          TcpSocketState).m_cWnd = 0 →
          ({ tcb with m_ssThresh := Nat.max (2 * tcb.m_segmentSize % 2 ^ 32) ⌊q⌋₊ } :
          TcpSocketState).m_segmentSize = 0 := by
        intro hz
        have h3 : Nat.max (2 * tcb.m_segmentSize % 2 ^ 32) ⌊q⌋₊ ≤ tcb.m_cWnd := h2
        have hz2 : tcb.m_cWnd = 0 := hz
        have : 2 * tcb.m_segmentSize ≤ 0 := by
          calc 2 * tcb.m_segmentSize ≤ _ := hmax
            _ ≤ tcb.m_cWnd := h3
            _ = 0 := hz2
        show tcb.m_segmentSize = 0
        omega
      obtain ⟨t, ht, hts⟩ := CongestionAvoidance_ok _ segmentsAcked hz
      exact ⟨t, ht, by rw [hts]; exact hmax⟩
    · exact ⟨_, rfl, hmax⟩

theorem C1_threshold_at_least_two_segments_witness :
    (∃ v, GetSsThresh (create 0) ⟨10000, 65535, 1000, 0⟩ 0
        = .ok (create 0, ⟨10000, 65535, 1000, 0⟩, v) ∧ 2 * 1000 ≤ v) ∧
    (∀ r, PktsAcked (create 0) ⟨0, 0⟩ ⟨0⟩ ⟨10000, 65535, 1000, 0⟩ 2 ⟨100000000⟩ = .ok r →
      2 * 1000 ≤ r.2.2.m_ssThresh) ∧
    ((create 0).flag = true →
      ∀ b, tracedDiv 10000 (sampleAck (create 0) ⟨0⟩ 2 ⟨100000000⟩).m_minRtt.GetSeconds
          = .ok b →
        ∃ r, PktsAcked (create 0) ⟨0, 0⟩ ⟨0⟩ ⟨10000, 65535, 1000, 0⟩ 2 ⟨100000000⟩ = .ok r) ∧
    (∃ t, IncreaseWindow (create 0) ⟨10000, 65535, 1000, 0⟩ 2 = .ok t ∧
      2 * 1000 ≤ t.m_ssThresh) :=
  C1_threshold_at_least_two_segments (create 0) ⟨0, 0⟩ ⟨0⟩ ⟨10000, 65535, 1000, 0⟩ 2 2 0
    ⟨100000000⟩ 0 (by norm_num) (by simp [create]) (le_refl _) (by norm_num) (by decide)

/-- C2 (as stated, refuted): with `m_currentERE = 2500.7` and a segment size of
1000 bytes `GetSsThresh` returns 2500, not the rounded value 2501. -/
theorem C2_getSsThresh_truncates_counterexample :
    GetSsThresh { create 0 with m_currentERE := Dbl.fin (25007 / 10) } ⟨10000, 65535, 1000, 0⟩ 0
        = .ok ({ create 0 with m_currentERE := Dbl.fin (25007 / 10) },
            ⟨10000, 65535, 1000, 0⟩, 2500) ∧
      round (25007 / 10 : ℚ) = 2501 ∧
      GetSsThresh { create 0 with m_currentERE := Dbl.fin (25007 / 10) } ⟨10000, 65535, 1000, 0⟩ 0
        ≠ .ok ({ create 0 with m_currentERE := Dbl.fin (25007 / 10) },
            ⟨10000, 65535, 1000, 0⟩, Nat.max (2 * 1000) (round (25007 / 10 : ℚ)).toNat) := by
  have hfl : ⌊(25007 / 10 : ℚ)⌋₊ = 2500 := by
    rw [Nat.floor_eq_iff (by norm_num)]; norm_num
  have hr : round (25007 / 10 : ℚ) = 2501 := by
    rw [round_eq]; norm_num
  have hg : GetSsThresh { create 0 with m_currentERE := Dbl.fin (25007 / 10) }
      ⟨10000, 65535, 1000, 0⟩ 0 = .ok ({ create 0 with m_currentERE := Dbl.fin (25007 / 10) },
        ⟨10000, 65535, 1000, 0⟩, 2500) := by
    unfold GetSsThresh
    simp only [castU32_fin (25007 / 10) (by norm_num) (by norm_num), hfl]
    rfl
  refine ⟨hg, hr, ?_⟩
  rw [hg, hr]
  intro h
  injection h with h
  have h2 := congrArg (fun x : TcpAdaptiveStart × TcpSocketState × Nat => x.2.2) h
  revert h2
  decide

/-- C2 (amended): for a finite `m_currentERE` in `[0, 2^32)` and
`2 * segmentSize < 2^32`, `GetSsThresh` returns
`max (2 * segmentSize, ⌊m_currentERE⌋)`: the estimate is truncated, not rounded. -/
theorem C2_getSsThresh_max_floor (self : TcpAdaptiveStart) (tcb : TcpSocketState)
    (bytesInFlight : Nat) (q : ℚ) (hseg : 2 * tcb.m_segmentSize < 2 ^ 32)
    (hERE : self.m_currentERE = Dbl.fin q) (h0 : 0 ≤ q) (h1 : q < 2 ^ 32) :
    GetSsThresh self tcb bytesInFlight
      = .ok (self, tcb, Nat.max (2 * tcb.m_segmentSize) ⌊q⌋₊) := by
  unfold GetSsThresh
  rw [hERE, castU32_fin q h0 h1, Nat.mod_eq_of_lt hseg]

theorem C2_getSsThresh_max_floor_witness :
    GetSsThresh { create 0 with m_currentERE := Dbl.fin 3000 } ⟨10000, 65535, 1000, 0⟩ 7
      = .ok ({ create 0 with m_currentERE := Dbl.fin 3000 }, ⟨10000, 65535, 1000, 0⟩,
          Nat.max (2 * 1000) ⌊(3000 : ℚ)⌋₊) :=
  C2_getSsThresh_max_floor { create 0 with m_currentERE := Dbl.fin 3000 }
    ⟨10000, 65535, 1000, 0⟩ 7 3000 (by norm_num) rfl (by norm_num) (by norm_num)

/-- C3: starting from a freshly constructed estimator, after any sequence of
acknowledgments and ticks that contains at least one acknowledgment and whose
RTTs are all positive, `m_minRtt` is the minimum of the RTTs supplied: it is one
of them and no supplied RTT is smaller. -/
theorem C3_minRtt_is_minimum (deltaT0 : Dbl) (g : Statics) (es : List Event)
    (r : TcpAdaptiveStart × Statics)
    (hne : rtts es ≠ []) (hpos : ∀ t ∈ rtts es, 0 < t.ns)
    (hrun : run (create deltaT0, g) es = .ok r) :
    r.1.m_minRtt ∈ rtts es ∧ ∀ t ∈ rtts es, r.1.m_minRtt.ns ≤ t.ns :=
  (run_minRtt es (create deltaT0, g) r hpos hrun).1 rfl hne

theorem C3_minRtt_is_minimum_witness :
    ∃ r, run (create 0, ⟨0, 0⟩)
        [Event.ack ⟨0⟩ ⟨10000, 2000, 1000, 0⟩ 2 ⟨100000000⟩,
         Event.ack ⟨50000000⟩ ⟨10000, 2000, 1000, 0⟩ 2 ⟨80000000⟩] = .ok r ∧
      r.1.m_minRtt = ⟨80000000⟩ ∧
      r.1.m_minRtt ∈ rtts [Event.ack ⟨0⟩ ⟨10000, 2000, 1000, 0⟩ 2 ⟨100000000⟩,
         Event.ack ⟨50000000⟩ ⟨10000, 2000, 1000, 0⟩ 2 ⟨80000000⟩] ∧
      ∀ t ∈ rtts [Event.ack ⟨0⟩ ⟨10000, 2000, 1000, 0⟩ 2 ⟨100000000⟩,
         Event.ack ⟨50000000⟩ ⟨10000, 2000, 1000, 0⟩ 2 ⟨80000000⟩], r.1.m_minRtt.ns ≤ t.ns := by
  have h1 := PktsAcked_fresh 0 ⟨0⟩ ⟨100000000⟩ ⟨10000, 2000, 1000, 0⟩ ⟨0, 0⟩ 2 2000 0 0
    Dbl.zero_def Dbl.zero_def (le_refl _) (by norm_num) (by norm_num) (by norm_num)
    (by norm_num) 100000 tracedDiv_10000_100ms (by norm_num)
  have hrun : ∃ r, run (create 0, ⟨0, 0⟩)
      [Event.ack ⟨0⟩ ⟨10000, 2000, 1000, 0⟩ 2 ⟨100000000⟩,
       Event.ack ⟨50000000⟩ ⟨10000, 2000, 1000, 0⟩ 2 ⟨80000000⟩] = .ok r ∧
      r.1.m_minRtt = ⟨80000000⟩ := by
    simp only [run, step, h1]
    rw [PktsAcked_started _ _ _ _ _ _ (by decide) rfl 0 castU32_zero 125000
      (tracedDiv_exact 10000 125000 ⟨80000000⟩ (by decide) (by norm_num) (by norm_num))]
    exact ⟨_, rfl, by decide⟩
  obtain ⟨r, hr, hmin⟩ := hrun
  have h := C3_minRtt_is_minimum 0 ⟨0, 0⟩ _ r (by simp [rtts])
    (by intro t ht; simp [rtts] at ht; rcases ht with h | h <;> rw [h] <;> decide) hr
  exact ⟨r, hr, hmin, h⟩

/-- C4: `PktsAcked` called with a zero RTT returns the estimator, the statics and
the connection state exactly as they were passed in. -/
theorem C4_zero_rtt_changes_nothing (self : TcpAdaptiveStart) (g : Statics) (now : Time)
    (tcb : TcpSocketState) (packetsAcked : Nat) :
    PktsAcked self g now tcb packetsAcked ⟨0⟩ = .ok (self, g, tcb) := by
  unfold PktsAcked
  rfl

/-- C5 (the code at the failing inputs): a tick entered with a 100 ms interval, a
100 ms last RTT and `m_bestRate = 0` - the state `PktsAcked` hands to the first
tick when the window is empty - computes the estimate 0 and the margin
`(0 - 0) / 0 = NaN`; the test `0.01 > NaN` is false, so the floor is skipped and
`Seconds (NaN)` has no value: no interval of at least 10 ms is produced.  The
same happens, with a window of 10000 bytes, when the first acknowledgment
carries `packetsAcked = 0`: then `u / umax = 0 / 0 = NaN` reaches the margin. -/
theorem C5_zero_best_rate_escapes_floor :
    filteredERE
        { m_currentERE := 0, m_bestRate := 0, m_interval := ⟨100000000⟩, m_lastSampleERE := 0,
          m_lastERE := 0, m_minRtt := ⟨100000000⟩, m_Rtt := ⟨100000000⟩, m_ackedSinceT := 2,
          m_lastAck := ⟨0⟩, m_deltaT := 0, flag := true, m_ereEstimateEvent := none }
        ⟨0, 0⟩ ⟨0, 2000, 1000, 0⟩ = Dbl.fin 0 ∧
      nextIntervalSeconds
        { m_currentERE := 0, m_bestRate := 0, m_interval := ⟨100000000⟩, m_lastSampleERE := 0,
          m_lastERE := 0, m_minRtt := ⟨100000000⟩, m_Rtt := ⟨100000000⟩, m_ackedSinceT := 2,
          m_lastAck := ⟨0⟩, m_deltaT := 0, flag := true, m_ereEstimateEvent := none }
        ⟨0, 0⟩ ⟨0, 2000, 1000, 0⟩ = Dbl.nan ∧
      CalculateERE
        { m_currentERE := 0, m_bestRate := 0, m_interval := ⟨100000000⟩, m_lastSampleERE := 0,
          m_lastERE := 0, m_minRtt := ⟨100000000⟩, m_Rtt := ⟨100000000⟩, m_ackedSinceT := 2,
          m_lastAck := ⟨0⟩, m_deltaT := 0, flag := true, m_ereEstimateEvent := none }
        ⟨0, 0⟩ ⟨0, 2000, 1000, 0⟩ = .error .conversion ∧
      PktsAcked (create 0) ⟨0, 0⟩ ⟨0⟩ ⟨0, 2000, 1000, 0⟩ 2 ⟨100000000⟩
        = .error .conversion ∧
      PktsAcked (create 0) ⟨0, 0⟩ ⟨0⟩ ⟨10000, 2000, 1000, 0⟩ 0 ⟨100000000⟩
        = .error .conversion := by
  obtain ⟨-, -, -, -, -, hf⟩ := tick_values
    { m_currentERE := 0, m_bestRate := 0, m_interval := ⟨100000000⟩, m_lastSampleERE := 0,
      m_lastERE := 0, m_minRtt := ⟨100000000⟩, m_Rtt := ⟨100000000⟩, m_ackedSinceT := 2,
      m_lastAck := ⟨0⟩, m_deltaT := 0, flag := true, m_ereEstimateEvent := none }
    ⟨0, 0⟩ ⟨0, 2000, 1000, 0⟩ 0 0 0 0 0 20000 8000 8000 (11 / 10) 1 0
    (by decide) Dbl.zero_def Dbl.zero_def Dbl.zero_def Dbl.zero_def Dbl.zero_def
    (by norm_num [Int.toNat]) (by norm_num) (by norm_num) (by norm_num) (by norm_num)
    (by norm_num) (by norm_num) (by norm_num)
  have hn : nextIntervalSeconds
      { m_currentERE := 0, m_bestRate := 0, m_interval := ⟨100000000⟩, m_lastSampleERE := 0,
        m_lastERE := 0, m_minRtt := ⟨100000000⟩, m_Rtt := ⟨100000000⟩, m_ackedSinceT := 2,
        m_lastAck := ⟨0⟩, m_deltaT := 0, flag := true, m_ereEstimateEvent := none }
      ⟨0, 0⟩ ⟨0, 2000, 1000, 0⟩ = Dbl.nan := by
    unfold nextIntervalSeconds
    rw [hf]
    show Dbl.mul (Time.GetSeconds ⟨100000000⟩) (Dbl.div (Dbl.sub 0 (Dbl.fin 0)) 0) = Dbl.nan
    simp [Time.GetSeconds, Dbl.sub, Dbl.neg, Dbl.add, Dbl.div, Dbl.infOfSign, Dbl.mul]
  have hE : CalculateERE
      { m_currentERE := 0, m_bestRate := 0, m_interval := ⟨100000000⟩, m_lastSampleERE := 0,
        m_lastERE := 0, m_minRtt := ⟨100000000⟩, m_Rtt := ⟨100000000⟩, m_ackedSinceT := 2,
        m_lastAck := ⟨0⟩, m_deltaT := 0, flag := true, m_ereEstimateEvent := none }
      ⟨0, 0⟩ ⟨0, 2000, 1000, 0⟩ = .error .conversion := by
    unfold CalculateERE
    rw [hn]
    rfl
  refine ⟨hf, hn, hE, ?_, ?_⟩
  rotate_left
  · have hc : castU32 (create 0).m_currentERE = .ok 0 := by
      have : (create 0).m_currentERE = Dbl.fin 0 := Dbl.zero_def
      rw [this, castU32_zero]
    rw [PktsAcked_unstarted (create 0) ⟨0, 0⟩ ⟨0⟩ ⟨10000, 2000, 1000, 0⟩ 0 ⟨100000000⟩
      (by decide) rfl 0 hc 100000 (by rw [sampleAck_create_minRtt]; exact tracedDiv_10000_100ms)]
    have hi : instantaneousERE
        { sampleAck (create 0) ⟨0⟩ 0 ⟨100000000⟩ with
          m_bestRate := Dbl.ofU32 100000
          flag := true }
        { (⟨10000, 2000, 1000, 0⟩ : TcpSocketState) with
          m_ssThresh := Nat.max (2 * 1000 % 2 ^ 32) 0 } = Dbl.fin 0 := by
      show Dbl.ofU32 (Int.toNat (wrapInt32 (0 + ((0 : Nat) : Int)) % 2 ^ 32) * 1000 % 2 ^ 32)
        / Time.GetSeconds ⟨100000000⟩ = Dbl.fin 0
      have hw : wrapInt32 (0 + ((0 : Nat) : Int)) = 0 := by decide
      rw [hw]
      unfold Dbl.ofU32 Time.GetSeconds
      rw [Dbl.fin_div_fin _ _ (by norm_num)]
      norm_num
    have hu : nextU
        { sampleAck (create 0) ⟨0⟩ 0 ⟨100000000⟩ with
          m_bestRate := Dbl.ofU32 100000
          flag := true } ⟨0, 0⟩
        { (⟨10000, 2000, 1000, 0⟩ : TcpSocketState) with
          m_ssThresh := Nat.max (2 * 1000 % 2 ^ 32) 0 } = Dbl.fin 0 := by
      unfold nextU
      rw [hi]
      show (if Dbl.lt 0 (Dbl.fin 0) then (0.6 : Dbl) * 0 + 0.4 * (Dbl.fin 0 - 0)
        else (0.6 : Dbl) * 0 + 0.4 * (0 - Dbl.fin 0)) = Dbl.fin 0
      simp only [Dbl.zero_def, Dbl.lt_fin_fin, Dbl.lit_06, Dbl.lit_04, Dbl.fin_mul_fin,
        Dbl.fin_sub_fin, Dbl.fin_add_fin]
      norm_num
    have hm : nextUmax
        { sampleAck (create 0) ⟨0⟩ 0 ⟨100000000⟩ with
          m_bestRate := Dbl.ofU32 100000
          flag := true } ⟨0, 0⟩
        { (⟨10000, 2000, 1000, 0⟩ : TcpSocketState) with
          m_ssThresh := Nat.max (2 * 1000 % 2 ^ 32) 0 } = Dbl.fin 0 := by
      unfold nextUmax
      rw [hu]
      show (if Dbl.lt 0 (Dbl.fin 0) then Dbl.fin 0 else 0) = Dbl.fin 0
      simp only [Dbl.zero_def, Dbl.lt_fin_fin, lt_self_iff_false, decide_False, if_false,
        Bool.false_eq_true]
    have hE2 := CalculateERE_zero_umax _ _ _ (by rfl) hu hm
    rw [hE2]
  have hc : castU32 (create 0).m_currentERE = .ok 0 := by
    have : (create 0).m_currentERE = Dbl.fin 0 := Dbl.zero_def
    rw [this, castU32_zero]
  rw [PktsAcked_unstarted (create 0) ⟨0, 0⟩ ⟨0⟩ ⟨0, 2000, 1000, 0⟩ 2 ⟨100000000⟩ (by decide) rfl 0
    hc 0 (by
      rw [sampleAck_create_minRtt]
      exact tracedDiv_exact 0 0 ⟨100000000⟩ (by decide) (by norm_num) (by norm_num))]
  have hbr : Dbl.ofU32 0 = (0 : Dbl) := rfl
  have hw : wrapInt32 (0 + ((2 : Nat) : Int)) = 2 := by decide
  have hss : Nat.max (2 * 1000 % 2 ^ 32) 0 = 2000 := by decide
  have hsamp : ({ sampleAck (create 0) ⟨0⟩ 2 ⟨100000000⟩ with
        m_bestRate := Dbl.ofU32 0
        flag := true } : TcpAdaptiveStart) =
      { m_currentERE := 0, m_bestRate := 0, m_interval := ⟨100000000⟩, m_lastSampleERE := 0,
        m_lastERE := 0, m_minRtt := ⟨100000000⟩, m_Rtt := ⟨100000000⟩, m_ackedSinceT := 2,
        m_lastAck := ⟨0⟩, m_deltaT := 0, flag := true, m_ereEstimateEvent := none } := by
    simp only [sampleAck, create, Time.IsZero, decide_True, if_true, hbr, hw]
  simp only [hss]
  rw [hsamp, hE]

/-- C6 (the code at the failing input): with a window of 10000 bytes and a
minimum RTT of 30 ms the quotient is `1000000/3`, and `CalculateBestRate` stores
333333: the quotient of the traced `uint32_t` window by a `double` is converted
back to `uint32_t` before the outer `double (...)` is applied.  With a window of
1 byte and a minimum RTT of 2 s the quotient is `1/2` and the rate stored is 0.
Whatever the window and the non-zero `minRtt`, a call that returns has stored a
whole number and left every other member as it was; a window of 10000 bytes and
a minimum RTT of 50 ms give 200000. -/
theorem C6_best_rate_truncated :
    CalculateBestRate (create 0) ⟨30000000⟩ ⟨10000, 65535, 1000, 0⟩ =
        .ok { create 0 with m_bestRate := Dbl.fin 333333 } ∧
      Dbl.ofU32 10000 / Time.GetSeconds ⟨30000000⟩ = Dbl.fin (1000000 / 3) ∧
      (333333 : ℚ) ≠ 1000000 / 3 ∧
      CalculateBestRate (create 0) ⟨2000000000⟩ ⟨1, 65535, 1000, 0⟩ =
        .ok { create 0 with m_bestRate := Dbl.fin 0 } ∧
      Dbl.ofU32 1 / Time.GetSeconds ⟨2000000000⟩ = Dbl.fin (1 / 2) ∧
      (∀ (self : TcpAdaptiveStart) (minRtt : Time) (tcb : TcpSocketState)
          (r : TcpAdaptiveStart), minRtt.ns ≠ 0 → CalculateBestRate self minRtt tcb = .ok r →
        ∃ b : Nat, r = { self with m_bestRate := Dbl.fin (b : ℚ) }) ∧
      (∀ (self : TcpAdaptiveStart) (tcb : TcpSocketState),
        CalculateBestRate self ⟨50000000⟩ { tcb with m_cWnd := 10000 } =
          .ok { self with m_bestRate := Dbl.fin 200000 }) := by
  have h1 : tracedDiv 10000 (Time.GetSeconds ⟨30000000⟩) = .ok 333333 := by
    rw [tracedDiv_floor 10000 ⟨30000000⟩ (by decide) (by norm_num)]
    congr 1
    rw [Nat.floor_eq_iff (by norm_num)]
    norm_num
  have h2 : tracedDiv 1 (Time.GetSeconds ⟨2000000000⟩) = .ok 0 := by
    rw [tracedDiv_floor 1 ⟨2000000000⟩ (by decide) (by norm_num)]
    congr 1
    rw [Nat.floor_eq_iff (by norm_num)]
    norm_num
  refine ⟨?_, ?_, by norm_num, ?_, ?_, ?_, ?_⟩
  · rw [CalculateBestRate_ok (create 0) ⟨30000000⟩ ⟨10000, 65535, 1000, 0⟩ 333333 (by decide) h1]
    simp [Dbl.ofU32]
  · unfold Dbl.ofU32 Time.GetSeconds
    rw [Dbl.fin_div_fin _ _ (by norm_num)]
    norm_num
  · rw [CalculateBestRate_ok (create 0) ⟨2000000000⟩ ⟨1, 65535, 1000, 0⟩ 0 (by decide) h2]
    simp [Dbl.ofU32]
  · unfold Dbl.ofU32 Time.GetSeconds
    rw [Dbl.fin_div_fin _ _ (by norm_num)]
    norm_num
  · intro self minRtt tcb r hm h
    have hz : minRtt.IsZero = false := by simp [Time.IsZero, hm]
    obtain ⟨b, -, hr⟩ := CalculateBestRate_inv self minRtt tcb r hz h
    exact ⟨b, hr⟩
  · intro self tcb
    rw [CalculateBestRate_ok self ⟨50000000⟩ { tcb with m_cWnd := 10000 } 200000 (by decide)
      (tracedDiv_exact 10000 200000 ⟨50000000⟩ (by decide) (by norm_num) (by norm_num))]
    simp [Dbl.ofU32]

/-- C7: with a non-empty window, at least one segment acknowledged and no 32-bit
overflow, `CongestionAvoidance` sets the window to
`base + ⌊max (1, segmentSize² / cWnd)⌋`, where `base` is `max (ssThresh, cWnd)`
unless the congestion state is 4 and `cWnd` when it is; a window of 10000 bytes,
segments of 1000 bytes, state 0 and a threshold of 5000 give 10100. -/
theorem C7_congestion_avoidance_growth (tcb : TcpSocketState) (segmentsAcked : Nat)
    (hw : 0 < tcb.m_cWnd) (hn : 0 < segmentsAcked)
    (hseg : tcb.m_segmentSize * tcb.m_segmentSize < 2 ^ 32)
    (hov : (if tcb.m_congState ≠ 4 then Nat.max tcb.m_ssThresh tcb.m_cWnd else tcb.m_cWnd)
      + ⌊max (1 : ℚ) ((tcb.m_segmentSize : ℚ) ^ 2 / (tcb.m_cWnd : ℚ))⌋₊ < 2 ^ 32) :
    CongestionAvoidance tcb segmentsAcked =
        .ok { tcb with
              m_cWnd := (if tcb.m_congState ≠ 4 then Nat.max tcb.m_ssThresh tcb.m_cWnd
                  else tcb.m_cWnd)
                + ⌊max (1 : ℚ) ((tcb.m_segmentSize : ℚ) ^ 2 / (tcb.m_cWnd : ℚ))⌋₊ } ∧
      CongestionAvoidance ⟨10000, 5000, 1000, 0⟩ segmentsAcked = .ok ⟨10100, 5000, 1000, 0⟩ := by
  have key : ∀ t : TcpSocketState, 0 < t.m_cWnd →
      t.m_segmentSize * t.m_segmentSize < 2 ^ 32 →
      (if t.m_congState ≠ 4 then Nat.max t.m_ssThresh t.m_cWnd else t.m_cWnd)
        + ⌊max (1 : ℚ) ((t.m_segmentSize : ℚ) ^ 2 / (t.m_cWnd : ℚ))⌋₊ < 2 ^ 32 →
      CongestionAvoidance t segmentsAcked =
        .ok { t with
              m_cWnd := (if t.m_congState ≠ 4 then Nat.max t.m_ssThresh t.m_cWnd else t.m_cWnd)
                + ⌊max (1 : ℚ) ((t.m_segmentSize : ℚ) ^ 2 / (t.m_cWnd : ℚ))⌋₊ } := by
    intro t htw hts hto
    have hfl : ⌊max (1 : ℚ) ((t.m_segmentSize : ℚ) ^ 2 / (t.m_cWnd : ℚ))⌋₊ =
        Nat.max 1 (t.m_segmentSize * t.m_segmentSize % 2 ^ 32 / t.m_cWnd) := by
      rw [Nat.mod_eq_of_lt hts, ← natFloor_max_one_div]
      push_cast
      rw [sq]
    rw [hfl] at hto ⊢
    unfold CongestionAvoidance
    rw [if_pos hn, castU32_adder t htw]
    by_cases hc : t.m_congState ≠ 4
    · simp only [if_pos hc] at hto ⊢
      rw [Nat.mod_eq_of_lt hto]
    · simp only [if_neg hc] at hto ⊢
      rw [Nat.mod_eq_of_lt hto]
  refine ⟨key tcb hw hseg hov, ?_⟩
  have h10 : ⌊max (1 : ℚ) (((1000 : Nat) : ℚ) ^ 2 / ((10000 : Nat) : ℚ))⌋₊ = 100 := by
    rw [Nat.floor_eq_iff (by positivity)]
    norm_num
  have h := key ⟨10000, 5000, 1000, 0⟩ (by norm_num) (by norm_num)
    (by
      show (if (0 : Nat) ≠ 4 then Nat.max 5000 10000 else 10000)
        + ⌊max (1 : ℚ) (((1000 : Nat) : ℚ) ^ 2 / ((10000 : Nat) : ℚ))⌋₊ < 2 ^ 32
      rw [h10]
      decide)
  rw [h]
  show Except.ok (TcpSocketState.mk ((if (0 : Nat) ≠ 4 then Nat.max 5000 10000 else 10000)
        + ⌊max (1 : ℚ) (((1000 : Nat) : ℚ) ^ 2 / ((10000 : Nat) : ℚ))⌋₊) 5000 1000 0) = _
  rw [h10]
  rfl

theorem C7_congestion_avoidance_growth_witness :
    CongestionAvoidance ⟨20000, 30000, 1460, 4⟩ 3 =
        .ok { (⟨20000, 30000, 1460, 4⟩ : TcpSocketState) with
              m_cWnd := (if (4 : Nat) ≠ 4 then Nat.max 30000 20000 else 20000)
                + ⌊max (1 : ℚ) (((1460 : Nat) : ℚ) ^ 2 / ((20000 : Nat) : ℚ))⌋₊ } ∧
      CongestionAvoidance ⟨10000, 5000, 1000, 0⟩ 3 = .ok ⟨10100, 5000, 1000, 0⟩ :=
  C7_congestion_avoidance_growth ⟨20000, 30000, 1460, 4⟩ 3 (by norm_num) (by norm_num)
    (by norm_num)
    (by
      have h : ⌊max (1 : ℚ) (((1460 : Nat) : ℚ) ^ 2 / ((20000 : Nat) : ℚ))⌋₊ = 106 := by
        rw [Nat.floor_eq_iff (by positivity)]
        norm_num
      show (if (4 : Nat) ≠ 4 then Nat.max 30000 20000 else 20000)
        + ⌊max (1 : ℚ) (((1460 : Nat) : ℚ) ^ 2 / ((20000 : Nat) : ℚ))⌋₊ < 2 ^ 32
      rw [h]
      decide)

/-- C8 (as stated, refuted): on a fresh estimator a first acknowledgment with
`packetsAcked = 3000000` and `segmentSize = 1460` stores the instantaneous rate
850327040, because the product is taken in 32 bits, and not
`3000000 * 1460 / 0.1`. -/
theorem C8_first_ack_product_wraps_counterexample :
    ∃ r, PktsAcked (create 0) ⟨0, 0⟩ ⟨0⟩ ⟨10000, 2000, 1460, 0⟩ 3000000 ⟨100000000⟩ = .ok r ∧
      r.1.m_lastSampleERE = Dbl.fin 850327040 ∧
      r.1.m_lastSampleERE ≠ Dbl.fin ((3000000 : ℚ) * 1460 / (1 / 10)) := by
  have h := PktsAcked_fresh 0 ⟨0⟩ ⟨100000000⟩ ⟨10000, 2000, 1460, 0⟩ ⟨0, 0⟩ 3000000 85032704
    0 0 Dbl.zero_def Dbl.zero_def (le_refl _) (by norm_num) (by norm_num) (by norm_num)
    (by norm_num) 100000 tracedDiv_10000_100ms (by norm_num)
  refine ⟨_, h, ?_, ?_⟩
  · show Dbl.fin (((85032704 : Nat) : ℚ) / (1 / 10)) = Dbl.fin 850327040
    norm_num
  · show Dbl.fin (((85032704 : Nat) : ℚ) / (1 / 10)) ≠ Dbl.fin ((3000000 : ℚ) * 1460 / (1 / 10))
    intro hh
    injection hh with hh
    norm_num at hh

/-- C8 (amended): a fresh estimator, with the statics at zero, receives its first
acknowledgment with `packetsAcked = n > 0`, `segmentSize = s > 0`, `n * s < 2^32`,
a positive RTT and a window for which the best rate `uint32_t (cWnd / rtt)` is
defined and non-zero.  `PktsAcked` returns with the flag set,
`m_lastSampleERE = n * s / 0.1`, `m_ackedSinceT = 0` and a tick scheduled after
the new `m_interval`, which is at least 10 ms; `n = 2000`, `s = 1000`, a window
of 10000 bytes and an RTT of 100 ms give the rate 20000000. -/
theorem C8_first_ack_on_fresh_estimator (deltaT0 : Dbl) (now rtt : Time) (tcb : TcpSocketState)
    (n b : Nat) (hn : 0 < n) (hs : 0 < tcb.m_segmentSize) (hns : n * tcb.m_segmentSize < 2 ^ 32)
    (hrtt : 0 < rtt.ns) (hr63 : rtt.ns < 2 ^ 63)
    (hb : tracedDiv tcb.m_cWnd rtt.GetSeconds = .ok b) (hb0 : 0 < b) :
    (∃ s g t, PktsAcked (create deltaT0) ⟨0, 0⟩ now tcb n rtt = .ok (s, g, t) ∧
      s.flag = true ∧
      s.m_lastSampleERE = Dbl.fin ((n : ℚ) * (tcb.m_segmentSize : ℚ) / (1 / 10)) ∧
      s.m_ackedSinceT = 0 ∧
      ∃ i, s.m_ereEstimateEvent = some i ∧ s.m_interval = i ∧ 10000000 ≤ i.ns) ∧
    (∃ r, PktsAcked (create deltaT0) ⟨0, 0⟩ now
        { tcb with m_cWnd := 10000, m_segmentSize := 1000 } 2000
        ⟨100000000⟩ = .ok r ∧ r.1.m_lastSampleERE = Dbl.fin 20000000) := by
  constructor
  · have hnlt : n < 2 ^ 32 := lt_of_le_of_lt (Nat.le_mul_of_pos_right n hs) hns
    have hP : n % 2 ^ 32 * tcb.m_segmentSize % 2 ^ 32 = n * tcb.m_segmentSize := by
      rw [Nat.mod_eq_of_lt hnlt, Nat.mod_eq_of_lt hns]
    have h := PktsAcked_fresh deltaT0 now rtt tcb ⟨0, 0⟩ n (n * tcb.m_segmentSize) 0 0
      Dbl.zero_def Dbl.zero_def (le_refl _) hP (Nat.mul_pos hn hs) hrtt hr63 b hb hb0
    refine ⟨_, _, _, h, rfl, ?_, rfl, _, rfl, rfl, ?_⟩
    · show Dbl.fin (((n * tcb.m_segmentSize : Nat) : ℚ) / (1 / 10)) = _
      push_cast
      rfl
    · show 10000000 ≤ (if rtt.ns < 10000000 then (⟨10000000⟩ : Time) else rtt).ns
      split_ifs with hlt
      · exact le_refl _
      · exact not_lt.mp hlt
  · have h := PktsAcked_fresh deltaT0 now ⟨100000000⟩
      { tcb with m_cWnd := 10000, m_segmentSize := 1000 }
      ⟨0, 0⟩ 2000 2000000 0 0 Dbl.zero_def Dbl.zero_def (le_refl _) (by norm_num) (by norm_num)
      (by norm_num) (by norm_num) 100000 tracedDiv_10000_100ms (by norm_num)
    refine ⟨_, h, ?_⟩
    show Dbl.fin (((2000000 : Nat) : ℚ) / (1 / 10)) = Dbl.fin 20000000
    norm_num

/-- C8 (amended) applies to a first acknowledgment of 3 packets of 1460 bytes with
an RTT of 40 ms on a window of 14600 bytes, whose best rate is 365000. -/
theorem C8_first_ack_on_fresh_estimator_witness :
    (∃ s g t, PktsAcked (create 0) ⟨0, 0⟩ ⟨0⟩ ⟨14600, 65535, 1460, 0⟩ 3 ⟨40000000⟩
        = .ok (s, g, t) ∧
      s.flag = true ∧
      s.m_lastSampleERE = Dbl.fin (((3 : Nat) : ℚ) * ((1460 : Nat) : ℚ) / (1 / 10)) ∧
      s.m_ackedSinceT = 0 ∧
      ∃ i, s.m_ereEstimateEvent = some i ∧ s.m_interval = i ∧ 10000000 ≤ i.ns) ∧
    (∃ r, PktsAcked (create 0) ⟨0, 0⟩ ⟨0⟩
        { (⟨14600, 65535, 1460, 0⟩ : TcpSocketState) with
          m_cWnd := 10000, m_segmentSize := 1000 } 2000
        ⟨100000000⟩ = .ok r ∧ r.1.m_lastSampleERE = Dbl.fin 20000000) :=
  C8_first_ack_on_fresh_estimator 0 ⟨0⟩ ⟨40000000⟩ ⟨14600, 65535, 1460, 0⟩ 3 365000
    (by norm_num) (by norm_num) (by norm_num) (by norm_num) (by norm_num)
    (tracedDiv_exact 14600 365000 ⟨40000000⟩ (by decide) (by norm_num) (by norm_num))
    (by norm_num)

/-- C9: the estimator produced by `Fork` carries the parent's `m_currentERE`,
`m_bestRate`, `m_lastSampleERE` and `m_lastERE`. -/
theorem C9_fork_copies_rate_state (self : TcpAdaptiveStart) (acked0 : Int) (deltaT0 : Dbl) :
    (Fork self acked0 deltaT0).m_currentERE = self.m_currentERE ∧
      (Fork self acked0 deltaT0).m_bestRate = self.m_bestRate ∧
      (Fork self acked0 deltaT0).m_lastSampleERE = self.m_lastSampleERE ∧
      (Fork self acked0 deltaT0).m_lastERE = self.m_lastERE :=
  ⟨rfl, rfl, rfl, rfl⟩

/-- C10 (the code at the failing input): estimator B receives two
acknowledgments and then ticks.  If estimator A receives its first
acknowledgment (which runs A's first tick) in between, the statics `u`, `umax`
that B's tick reads have been overwritten by A, and B's tick yields
`m_currentERE = 168000/47` and a 96425531 ns interval instead of
`m_currentERE = 60000/23` and a 97391304 ns interval. -/
theorem C10_statics_shared_between_estimators :
    ∃ (b1 b2 a rAlone rAfter : TcpAdaptiveStart) (g1 gA g2 g3 : Statics)
      (t1 t2 t3 t4 : TcpSocketState),
      PktsAcked (create 0) ⟨0, 0⟩ ⟨0⟩ ⟨10000, 2000, 1000, 0⟩ 2 ⟨100000000⟩ = .ok (b1, g1, t1) ∧
      PktsAcked b1 g1 ⟨100000000⟩ ⟨10000, 2000, 1000, 0⟩ 3 ⟨100000000⟩ = .ok (b2, g1, t2) ∧
      CalculateERE b2 g1 ⟨10000, 2000, 1000, 0⟩ = .ok (rAlone, g2) ∧
      PktsAcked (create 0) g1 ⟨50000000⟩ ⟨10000, 2000, 1000, 0⟩ 10 ⟨100000000⟩
        = .ok (a, gA, t3) ∧
      PktsAcked b1 gA ⟨100000000⟩ ⟨10000, 2000, 1000, 0⟩ 3 ⟨100000000⟩ = .ok (b2, gA, t4) ∧
      CalculateERE b2 gA ⟨10000, 2000, 1000, 0⟩ = .ok (rAfter, g3) ∧
      rAlone.m_currentERE = Dbl.fin (60000 / 23) ∧
      rAfter.m_currentERE = Dbl.fin (168000 / 47) ∧
      rAlone.m_interval = ⟨97391304⟩ ∧ rAfter.m_interval = ⟨96425531⟩ := by
  have hbr : Dbl.ofU32 100000 = Dbl.fin 100000 := by
    simp [Dbl.ofU32]
  -- B's first acknowledgment
  have hB1 : PktsAcked (create 0) ⟨0, 0⟩ ⟨0⟩ ⟨10000, 2000, 1000, 0⟩ 2 ⟨100000000⟩ =
      .ok ({ m_currentERE := Dbl.fin 0, m_bestRate := Dbl.fin 100000,
             m_interval := ⟨100000000⟩, m_lastSampleERE := Dbl.fin 20000,
             m_lastERE := Dbl.fin 0, m_minRtt := ⟨100000000⟩, m_Rtt := ⟨100000000⟩,
             m_ackedSinceT := 0, m_lastAck := ⟨0⟩, m_deltaT := Dbl.fin 0, flag := true,
             m_ereEstimateEvent := some ⟨100000000⟩ },
           ⟨Dbl.fin 8000, Dbl.fin 8000⟩, ⟨10000, 2000, 1000, 0⟩) := by
    rw [PktsAcked_fresh 0 ⟨0⟩ ⟨100000000⟩ ⟨10000, 2000, 1000, 0⟩ ⟨0, 0⟩ 2 2000 0 0
      Dbl.zero_def Dbl.zero_def (le_refl _) (by norm_num) (by norm_num) (by norm_num)
      (by norm_num) 100000 tracedDiv_10000_100ms (by norm_num)]
    simp only [hbr, Dbl.zero_def]
    norm_num
  -- B's second acknowledgment, whatever the statics
  have hB2 : ∀ g : Statics, PktsAcked
      { m_currentERE := Dbl.fin 0, m_bestRate := Dbl.fin 100000,
        m_interval := ⟨100000000⟩, m_lastSampleERE := Dbl.fin 20000,
        m_lastERE := Dbl.fin 0, m_minRtt := ⟨100000000⟩, m_Rtt := ⟨100000000⟩,
        m_ackedSinceT := 0, m_lastAck := ⟨0⟩, m_deltaT := Dbl.fin 0, flag := true,
        m_ereEstimateEvent := some ⟨100000000⟩ }
      g ⟨100000000⟩ ⟨10000, 2000, 1000, 0⟩ 3 ⟨100000000⟩ =
      .ok ({ m_currentERE := Dbl.fin 0, m_bestRate := Dbl.fin 100000,
             m_interval := ⟨100000000⟩, m_lastSampleERE := Dbl.fin 20000,
             m_lastERE := Dbl.fin 0, m_minRtt := ⟨100000000⟩, m_Rtt := ⟨100000000⟩,
             m_ackedSinceT := 3, m_lastAck := ⟨100000000⟩, m_deltaT := Dbl.fin (1 / 10),
             flag := true, m_ereEstimateEvent := some ⟨100000000⟩ },
           g, ⟨10000, 2000, 1000, 0⟩) := by
    intro g
    refine (PktsAcked_started _ g ⟨100000000⟩ ⟨10000, 2000, 1000, 0⟩ 3 ⟨100000000⟩ (by decide)
      rfl 0 castU32_zero 100000 ?_).trans ?_
    · exact tracedDiv_10000_100ms
    have hd : (Time.GetSeconds ⟨100000000⟩ - Time.GetSeconds ⟨0⟩ : Dbl) = Dbl.fin (1 / 10) := by
      unfold Time.GetSeconds
      rw [Dbl.fin_sub_fin]
      norm_num
    have hw : wrapInt32 (0 + ((3 : Nat) : Int)) = 3 := by decide
    have hne : ((⟨0⟩ : Time) = Time.Min) = False := by
      simp [Time.Min]
    have hmin : (if decide ((100000000 : Int) = 0) = true then (⟨100000000⟩ : Time)
        else if (100000000 : Int) < 100000000 then ⟨100000000⟩ else ⟨100000000⟩)
        = ⟨100000000⟩ := by decide
    have hss : Nat.max (2 * 1000 % 2 ^ 32) 0 = 2000 := by decide
    simp only [sampleAck, hd, hw, hne, if_false, Time.IsZero, hmin, hbr, hss]
  -- B's tick with the statics B left behind
  obtain ⟨hi1, hu1, hm1, -, -, hf1⟩ := tick_values
    { m_currentERE := Dbl.fin 0, m_bestRate := Dbl.fin 100000,
      m_interval := ⟨100000000⟩, m_lastSampleERE := Dbl.fin 20000,
      m_lastERE := Dbl.fin 0, m_minRtt := ⟨100000000⟩, m_Rtt := ⟨100000000⟩,
      m_ackedSinceT := 3, m_lastAck := ⟨100000000⟩, m_deltaT := Dbl.fin (1 / 10),
      flag := true, m_ereEstimateEvent := some ⟨100000000⟩ }
    ⟨Dbl.fin 8000, Dbl.fin 8000⟩ ⟨10000, 2000, 1000, 0⟩
    20000 8000 8000 (1 / 10) 0 30000 8800 8800 (11 / 10) (21 / 23) (60000 / 23)
    (by decide) rfl rfl rfl rfl rfl (by norm_num [Int.toNat])
    (by rw [abs_of_pos (by norm_num)]; norm_num) (by norm_num) (by norm_num) (by norm_num)
    (by norm_num) (by norm_num) (by norm_num)
  have hT1 := CalculateERE_result _ _ _ 30000 8800 8800 (60000 / 23) 100000 (56 / 575)
    (by decide) hi1 hu1 hm1 hf1 rfl (by norm_num) (by norm_num)
    (by
      have : ⌊(56 / 575 : ℚ) * 1000000000⌋ = 97391304 := by
        rw [Int.floor_eq_iff]; norm_num
      rw [this]; decide)
  -- A's first acknowledgment, run on the statics B left behind
  have hA := PktsAcked_fresh 0 ⟨50000000⟩ ⟨100000000⟩ ⟨10000, 2000, 1000, 0⟩
    ⟨Dbl.fin 8000, Dbl.fin 8000⟩ 10 10000 8000 8000 rfl rfl (by norm_num) (by norm_num)
    (by norm_num) (by norm_num) (by norm_num) 100000 tracedDiv_10000_100ms (by norm_num)
  have hgA : (3 / 5 * 8000 + 2 / 5 * (((10000 : Nat) : ℚ) / (1 / 10)) : ℚ) = 44800 := by norm_num
  rw [hgA] at hA
  have hgA2 : (if (8000 : ℚ) < 44800 then (44800 : ℚ) else 8000) = 44800 := by norm_num
  rw [hgA2] at hA
  -- B's tick with the statics A left behind
  obtain ⟨hi2, hu2, hm2, -, -, hf2⟩ := tick_values
    { m_currentERE := Dbl.fin 0, m_bestRate := Dbl.fin 100000,
      m_interval := ⟨100000000⟩, m_lastSampleERE := Dbl.fin 20000,
      m_lastERE := Dbl.fin 0, m_minRtt := ⟨100000000⟩, m_Rtt := ⟨100000000⟩,
      m_ackedSinceT := 3, m_lastAck := ⟨100000000⟩, m_deltaT := Dbl.fin (1 / 10),
      flag := true, m_ereEstimateEvent := some ⟨100000000⟩ }
    ⟨Dbl.fin 44800, Dbl.fin 44800⟩ ⟨10000, 2000, 1000, 0⟩
    20000 44800 44800 (1 / 10) 0 30000 30880 44800 (221 / 280) (207 / 235) (168000 / 47)
    (by decide) rfl rfl rfl rfl rfl (by norm_num [Int.toNat])
    (by rw [abs_of_pos (by norm_num)]; norm_num) (by norm_num) (by norm_num) (by norm_num)
    (by norm_num) (by norm_num) (by norm_num)
  have hT2 := CalculateERE_result _ _ _ 30000 30880 44800 (168000 / 47) 100000 (1133 / 11750)
    (by decide) hi2 hu2 hm2 hf2 rfl (by norm_num) (by norm_num)
    (by
      have : ⌊(1133 / 11750 : ℚ) * 1000000000⌋ = 96425531 := by
        rw [Int.floor_eq_iff]; norm_num
      rw [this]; decide)
  have hfl1 : ⌊(56 / 575 : ℚ) * 1000000000⌋ = 97391304 := by
    rw [Int.floor_eq_iff]; norm_num
  have hfl2 : ⌊(1133 / 11750 : ℚ) * 1000000000⌋ = 96425531 := by
    rw [Int.floor_eq_iff]; norm_num
  refine ⟨_, _, _, _, _, _, _, _, _, _, _, _, _, hB1, hB2 _, hT1, hA, hB2 _, hT2, rfl, rfl, ?_, ?_⟩
  · show (if (56 / 575 : ℚ) < 1 / 100 then (⟨10000000⟩ : Time)
      else ⟨⌊(56 / 575 : ℚ) * 1000000000⌋⟩) = ⟨97391304⟩
    rw [hfl1, if_neg (by norm_num)]
  · show (if (1133 / 11750 : ℚ) < 1 / 100 then (⟨10000000⟩ : Time)
      else ⟨⌊(1133 / 11750 : ℚ) * 1000000000⌋⟩) = ⟨96425531⟩
    rw [hfl2, if_neg (by norm_num)]

/-! ## Faults, the flag and window growth -/

/-- The conversions to `uint32_t` and to `Time` fail with `Fault.conversion` only. -/
theorem castU32_error (x : Dbl) (e : Fault) (h : castU32 x = .error e) : e = .conversion := by
  cases x with
  | fin q =>
    simp only [castU32] at h
    split_ifs at h
    cases h
    rfl
  | pinf => cases h; rfl
  | ninf => cases h; rfl
  | nan => cases h; rfl

theorem Seconds_error (x : Dbl) (e : Fault) (h : Seconds x = .error e) : e = .conversion := by
  cases x with
  | fin q =>
    simp only [Seconds] at h
    split_ifs at h
    cases h
    rfl
  | pinf => cases h; rfl
  | ninf => cases h; rfl
  | nan => cases h; rfl

namespace TcpAdaptiveStart

/-- A tick entered with a non-zero interval does not fail an assertion. -/
theorem CalculateERE_error (self : TcpAdaptiveStart) (g : Statics) (tcb : TcpSocketState)
    (e : Fault) (hI : self.m_interval.IsZero = false) (h : CalculateERE self g tcb = .error e) :
    e = .conversion := by
  unfold CalculateERE at h
  rw [hI] at h
  simp only [Bool.false_eq_true, if_false] at h
  split at h
  · rename_i e1 he
    cases h
    split_ifs at he
    · exact Seconds_error _ _ he
    · exact Seconds_error _ _ he
  · cases h

/-- On a non-zero RTT, with a non-zero interval on entry, `PktsAcked` does not
fail an assertion. -/
theorem PktsAcked_error (self : TcpAdaptiveStart) (g : Statics) (now : Time)
    (tcb : TcpSocketState) (n : Nat) (rtt : Time) (e : Fault) (hrtt : rtt.IsZero = false)
    (hI : self.m_interval.IsZero = false) (h : PktsAcked self g now tcb n rtt = .error e) :
    e = .conversion := by
  cases hc : castU32 self.m_currentERE with
  | error e1 =>
    unfold PktsAcked at h
    have hE : (sampleAck self now n rtt).m_currentERE = self.m_currentERE := rfl
    simp only [hrtt, Bool.false_eq_true, if_false, hE, hc] at h
    cases h
    exact castU32_error _ _ hc
  | ok c =>
    cases hb : tracedDiv tcb.m_cWnd (sampleAck self now n rtt).m_minRtt.GetSeconds with
    | error e1 =>
      rw [PktsAcked_rate_fault self g now tcb n rtt hrtt c hc e1 hb] at h
      cases h
      exact tracedDiv_error _ _ _ hb
    | ok b =>
      cases hf : self.flag
      · rw [PktsAcked_unstarted self g now tcb n rtt hrtt hf c hc b hb] at h
        split at h
        · rename_i e1 he
          cases h
          exact CalculateERE_error _ _ _ _ (by exact hI) he
        · cases h
      · rw [PktsAcked_started self g now tcb n rtt hrtt hf c hc b hb] at h
        cases h

end TcpAdaptiveStart

namespace TcpAdaptiveStart

/-- With a non-empty window and at least one segment acknowledged,
`CongestionAvoidance` returns the state whose window is the base plus the
converted adder, modulo `2^32`. -/
theorem CongestionAvoidance_pos (tcb : TcpSocketState) (n : Nat) (hw : 0 < tcb.m_cWnd)
    (hn : 0 < n) :
    CongestionAvoidance tcb n =
      .ok { tcb with
            m_cWnd := ((if tcb.m_congState ≠ 4 then Nat.max tcb.m_ssThresh tcb.m_cWnd
                else tcb.m_cWnd)
              + Nat.max 1 (tcb.m_segmentSize * tcb.m_segmentSize % 2 ^ 32 / tcb.m_cWnd))
              % 2 ^ 32 } := by
  unfold CongestionAvoidance
  rw [if_pos hn, castU32_adder tcb hw]
  by_cases hc : tcb.m_congState ≠ 4
  · simp only [if_pos hc]
  · simp only [if_neg hc]

end TcpAdaptiveStart

namespace TcpAdaptiveStart

/-- A tick leaves the flag alone. -/
theorem CalculateERE_flag (self : TcpAdaptiveStart) (g : Statics) (tcb : TcpSocketState)
    (r : TcpAdaptiveStart × Statics) (h : CalculateERE self g tcb = .ok r) :
    r.1.flag = self.flag := by
  unfold CalculateERE at h
  split at h
  · cases h
  · split at h
    · cases h
    · cases h; rfl

/-- Once the estimator is started, a call of `PktsAcked` that returns has run no
tick: it returns the sampled state with the new best rate, and the statics it
was given. -/
theorem PktsAcked_started_ok (self : TcpAdaptiveStart) (g : Statics) (now : Time)
    (tcb : TcpSocketState) (n : Nat) (rtt : Time) (hrtt : rtt.IsZero = false)
    (hflag : self.flag = true) (r : TcpAdaptiveStart × Statics × TcpSocketState)
    (h : PktsAcked self g now tcb n rtt = .ok r) :
    ∃ b, tracedDiv tcb.m_cWnd (sampleAck self now n rtt).m_minRtt.GetSeconds = .ok b ∧
      r.1 = { sampleAck self now n rtt with m_bestRate := Dbl.ofU32 b } ∧ r.2.1 = g := by
  obtain ⟨c, b, hc, hb, -⟩ := PktsAcked_tcb self g now tcb n rtt hrtt r h
  rw [PktsAcked_started self g now tcb n rtt hrtt hflag c hc b hb] at h
  cases h
  exact ⟨b, hb, rfl, rfl⟩

/-- A call of `PktsAcked` that returns leaves the flag set if it was set or if the
RTT is non-zero, and clear otherwise. -/
theorem PktsAcked_flag (self : TcpAdaptiveStart) (g : Statics) (now : Time)
    (tcb : TcpSocketState) (n : Nat) (rtt : Time)
    (r : TcpAdaptiveStart × Statics × TcpSocketState)
    (h : PktsAcked self g now tcb n rtt = .ok r) :
    r.1.flag = (self.flag || !rtt.IsZero) := by
  cases hrtt : rtt.IsZero
  · cases hf : self.flag
    · obtain ⟨c, b, hc, hb, -⟩ := PktsAcked_tcb self g now tcb n rtt hrtt r h
      rw [PktsAcked_unstarted self g now tcb n rtt hrtt hf c hc b hb] at h
      split at h
      · cases h
      · rename_i s3 g3 hE
        cases h
        have := CalculateERE_flag _ _ _ _ hE
        simpa using this
    · obtain ⟨b, -, h1, -⟩ := PktsAcked_started_ok self g now tcb n rtt hrtt hf r h
      rw [h1]
      simpa using hf
  · unfold PktsAcked at h
    rw [hrtt] at h
    simp only [if_true] at h
    cases h
    simp

end TcpAdaptiveStart

/-- After a run that completes, the flag is set exactly when it was set at the
start or an acknowledgment with a non-zero RTT was delivered. -/
theorem run_flag (es : List Event) :
    ∀ (sg r : TcpAdaptiveStart × Statics), run sg es = .ok r →
      (r.1.flag = true ↔ sg.1.flag = true ∨ ∃ t ∈ rtts es, t.ns ≠ 0) := by
  induction es with
  | nil =>
    intro sg r hrun
    simp only [run] at hrun
    cases hrun
    simp [rtts]
  | cons e es ih =>
    intro sg r hrun
    simp only [run] at hrun
    cases hstep : step sg e with
    | error f => rw [hstep] at hrun; cases hrun
    | ok sg1 =>
      rw [hstep] at hrun
      have h1 := ih sg1 r hrun
      cases e with
      | tick tcb =>
        have hf : sg1.1.flag = sg.1.flag := TcpAdaptiveStart.CalculateERE_flag _ _ _ _ hstep
        rw [hf] at h1
        simpa [rtts] using h1
      | ack now tcb n rtt =>
        simp only [step] at hstep
        cases hP : TcpAdaptiveStart.PktsAcked sg.1 sg.2 now tcb n rtt with
        | error f => rw [hP] at hstep; cases hstep
        | ok p =>
          rw [hP] at hstep
          cases hstep
          have hf := TcpAdaptiveStart.PktsAcked_flag _ _ _ _ _ _ _ hP
          have hf2 : (p.1.flag = true ↔ sg.1.flag = true ∨ rtt.ns ≠ 0) := by
            rw [hf]
            simp [Time.IsZero]
          rw [show ((p.1, p.2.1) : TcpAdaptiveStart × Statics).1.flag = p.1.flag from rfl,
            hf2] at h1
          rw [h1]
          simp only [rtts, List.mem_cons]
          constructor
          · rintro ((h | h) | ⟨t, ht, hne⟩)
            · exact Or.inl h
            · exact Or.inr ⟨rtt, Or.inl rfl, h⟩
            · exact Or.inr ⟨t, Or.inr ht, hne⟩
          · rintro (h | ⟨t, ht | ht, hne⟩)
            · exact Or.inl (Or.inl h)
            · exact Or.inl (Or.inr (ht ▸ hne))
            · exact Or.inr ⟨t, ht, hne⟩

/-! ## Statics and the filter weight -/

namespace TcpAdaptiveStart

/-- When the updated `u` and `umax` are both zero, the time constant, the filter
weight, the filtered estimate and the candidate interval are all `NaN`. -/
theorem tick_zero_umax (self : TcpAdaptiveStart) (g : Statics) (tcb : TcpSocketState)
    (hu : nextU self g tcb = Dbl.fin 0) (hm : nextUmax self g tcb = Dbl.fin 0) :
    tk self g tcb = Dbl.nan ∧ alpha self g tcb = Dbl.nan ∧
      filteredERE self g tcb = Dbl.nan ∧ nextIntervalSeconds self g tcb = Dbl.nan := by
  have htk : tk self g tcb = Dbl.nan := by
    unfold tk
    rw [hu, hm, Dbl.zero_div_zero, Dbl.mul_nan, Dbl.add_nan]
  have hal : alpha self g tcb = Dbl.nan := by
    unfold alpha
    rw [htk, Dbl.mul_nan, Dbl.nan_sub, Dbl.nan_div]
  have hf : filteredERE self g tcb = Dbl.nan := by
    unfold filteredERE
    rw [hal, Dbl.nan_mul, Dbl.nan_add]
  refine ⟨htk, hal, hf, ?_⟩
  unfold nextIntervalSeconds
  rw [hf, Dbl.sub_nan, Dbl.nan_div, Dbl.mul_nan]

/-- A tick with no packet acknowledged since the last one, a zero previous raw
sample and zero statics leaves `u` and `umax` at zero. -/
theorem tick_idle_statics (self : TcpAdaptiveStart) (tcb : TcpSocketState)
    (hI : self.m_interval.ns ≠ 0) (ha : self.m_ackedSinceT = 0)
    (hl : self.m_lastSampleERE = Dbl.fin 0) :
    nextU self ⟨0, 0⟩ tcb = Dbl.fin 0 ∧ nextUmax self ⟨0, 0⟩ tcb = Dbl.fin 0 := by
  have hIq : (self.m_interval.ns : ℚ) / 1000000000 ≠ 0 := by
    have : (self.m_interval.ns : ℚ) ≠ 0 := by exact_mod_cast hI
    positivity
  have hi : instantaneousERE self tcb = Dbl.fin 0 := by
    unfold instantaneousERE Dbl.ofU32 Time.GetSeconds
    rw [ha, Dbl.fin_div_fin _ _ hIq]
    norm_num
  have hu : nextU self ⟨0, 0⟩ tcb = Dbl.fin 0 := by
    unfold nextU
    rw [hi, hl]
    simp only [Dbl.zero_def, Dbl.lt_fin_fin, Dbl.lit_06, Dbl.lit_04, Dbl.fin_mul_fin,
      Dbl.fin_sub_fin, Dbl.fin_add_fin]
    norm_num
  refine ⟨hu, ?_⟩
  unfold nextUmax
  rw [hu]
  simp only [Dbl.zero_def, Dbl.lt_fin_fin, lt_self_iff_false, decide_False, if_false,
    Bool.false_eq_true]

end TcpAdaptiveStart

namespace Dbl

theorem fin_add_pinf (a : ℚ) : fin a + pinf = pinf := rfl

theorem pinf_div_pinf : (pinf / pinf : Dbl) = nan := rfl

theorem lt_pinf_fin (a : ℚ) : lt pinf (fin a) = false := rfl

theorem lt_ninf_fin (a : ℚ) : lt ninf (fin a) = true := rfl

theorem lt_fin_pinf (a : ℚ) : lt (fin a) pinf = true := rfl

theorem lt_fin_nan (a : ℚ) : lt (fin a) nan = false := rfl

theorem pinf_sub_fin (a : ℚ) : pinf - fin a = pinf := rfl

theorem fin_sub_ninf (a : ℚ) : fin a - ninf = pinf := rfl

theorem fin_mul_pinf (a : ℚ) (h : 0 < a) : fin a * pinf = pinf := by
  show infOfSign a = pinf
  simp [infOfSign, h]

end Dbl

namespace TcpAdaptiveStart

/-- What a tick that completes has written: the members it assigns, the members
it leaves alone, and the statics. -/
theorem CalculateERE_ok (self : TcpAdaptiveStart) (g : Statics) (tcb : TcpSocketState)
    (r : TcpAdaptiveStart × Statics) (h : CalculateERE self g tcb = .ok r) :
    self.m_interval.IsZero = false ∧
      r.1.m_currentERE = filteredERE self g tcb ∧ r.1.m_lastERE = filteredERE self g tcb ∧
      r.1.m_lastSampleERE = instantaneousERE self tcb ∧ r.1.m_ackedSinceT = 0 ∧
      r.1.m_bestRate = self.m_bestRate ∧ r.1.m_Rtt = self.m_Rtt ∧
      r.1.m_deltaT = self.m_deltaT ∧ r.1.m_lastAck = self.m_lastAck ∧
      r.2.u = nextU self g tcb ∧ r.2.umax = nextUmax self g tcb := by
  unfold CalculateERE at h
  split at h
  · cases h
  · rename_i hI
    split at h
    · cases h
    · cases h
      exact ⟨by simpa using hI, rfl, rfl, rfl, rfl, rfl, rfl, rfl, rfl, rfl, rfl⟩

/-- A tick whose time constant is `NaN` does not complete. -/
theorem CalculateERE_tk_nan (self : TcpAdaptiveStart) (g : Statics) (tcb : TcpSocketState)
    (htk : tk self g tcb = Dbl.nan) (r : TcpAdaptiveStart × Statics) :
    CalculateERE self g tcb ≠ .ok r := by
  have hn : nextIntervalSeconds self g tcb = Dbl.nan := by
    unfold nextIntervalSeconds filteredERE alpha
    rw [htk]
    simp only [Dbl.mul_nan, Dbl.add_nan, Dbl.nan_sub, Dbl.nan_div, Dbl.nan_mul, Dbl.nan_add,
      Dbl.sub_nan]
  intro h
  unfold CalculateERE at h
  rw [hn] at h
  split at h
  · cases h
  · simp only [Dbl.nan_lt, Bool.false_eq_true, if_false] at h
    cases h

/-- The instantaneous sample is finite as soon as the interval is non-zero. -/
theorem instantaneousERE_fin (self : TcpAdaptiveStart) (tcb : TcpSocketState)
    (hI : self.m_interval.IsZero = false) :
    instantaneousERE self tcb =
      Dbl.fin (((Int.toNat (self.m_ackedSinceT % 2 ^ 32) * tcb.m_segmentSize % 2 ^ 32 : Nat) : ℚ)
        / ((self.m_interval.ns : ℚ) / 1000000000)) := by
  have hns : self.m_interval.ns ≠ 0 := by simpa [Time.IsZero] using hI
  have hIq : (self.m_interval.ns : ℚ) / 1000000000 ≠ 0 := by
    have : (self.m_interval.ns : ℚ) ≠ 0 := by exact_mod_cast hns
    positivity
  unfold instantaneousERE Dbl.ofU32 Time.GetSeconds
  rw [Dbl.fin_div_fin _ _ hIq]

/-- A tick that completes, entered with finite statics `0 ≤ u ≤ umax`, leaves
finite statics `0 ≤ u ≤ umax` with `umax` positive and not smaller than before. -/
theorem CalculateERE_statics (self : TcpAdaptiveStart) (g : Statics) (tcb : TcpSocketState)
    (r : TcpAdaptiveStart × Statics) (a m : ℚ) (hu : g.u = Dbl.fin a) (hm : g.umax = Dbl.fin m)
    (h0 : 0 ≤ a) (h : CalculateERE self g tcb = .ok r) :
    ∃ U M, nextU self g tcb = Dbl.fin U ∧ nextUmax self g tcb = Dbl.fin M ∧
      r.2.u = Dbl.fin U ∧ r.2.umax = Dbl.fin M ∧ 0 ≤ U ∧ U ≤ M ∧ m ≤ M ∧ 0 < M := by
  obtain ⟨hI, -, -, -, -, -, -, -, -, hru, hrm⟩ := CalculateERE_ok self g tcb r h
  have hi := instantaneousERE_fin self tcb hI
  generalize ((Int.toNat (self.m_ackedSinceT % 2 ^ 32) * tcb.m_segmentSize % 2 ^ 32 : Nat) : ℚ)
        / ((self.m_interval.ns : ℚ) / 1000000000) = X at hi
  -- an infinite or `NaN` previous sample makes `u / umax` a `NaN`
  have hbad : nextU self g tcb = Dbl.pinf ∨ nextU self g tcb = Dbl.nan → False := by
    intro hb
    have hratio : nextU self g tcb / nextUmax self g tcb = Dbl.nan := by
      rcases hb with hb | hb
      · have : nextUmax self g tcb = Dbl.pinf := by
          unfold nextUmax
          rw [hb, hm, Dbl.lt_fin_pinf]
          rfl
        rw [hb, this, Dbl.pinf_div_pinf]
      · rw [hb, Dbl.nan_div]
    have htk : tk self g tcb = Dbl.nan := by
      unfold tk
      rw [hratio, Dbl.mul_nan, Dbl.add_nan]
    exact CalculateERE_tk_nan self g tcb htk r h
  cases hl : self.m_lastSampleERE with
  | fin l =>
    have hnu : nextU self g tcb = Dbl.fin (3 / 5 * a + 2 / 5 * |X - l|) := by
      unfold nextU
      rw [hi, hl, hu]
      simp only [Dbl.lt_fin_fin, Dbl.lit_06, Dbl.lit_04, Dbl.fin_mul_fin, Dbl.fin_sub_fin,
        Dbl.fin_add_fin]
      by_cases hlt : l < X
      · simp only [hlt, decide_True, if_true]
        rw [abs_of_pos (by linarith)]
      · simp only [hlt, decide_False, if_false, Bool.false_eq_true]
        rw [abs_of_nonpos (by linarith)]
        congr 1
        ring
    have hU0 : (0 : ℚ) ≤ 3 / 5 * a + 2 / 5 * |X - l| := by positivity
    generalize (3 / 5 * a + 2 / 5 * |X - l| : ℚ) = U at hnu hU0
    have hnm : nextUmax self g tcb = Dbl.fin (if m < U then U else m) := by
      unfold nextUmax
      rw [hnu, hm]
      simp only [Dbl.lt_fin_fin]
      by_cases hlt : m < U
      · simp only [hlt, decide_True, if_true]
      · simp only [hlt, decide_False, if_false, Bool.false_eq_true]
    have hUM : U ≤ (if m < U then U else m) := by
      split_ifs with hlt
      · exact le_refl _
      · exact not_lt.mp hlt
    have hmM : m ≤ (if m < U then U else m) := by
      split_ifs with hlt
      · exact hlt.le
      · exact le_refl _
    generalize (if m < U then U else m) = M at hnm hUM hmM
    have hM0 : M ≠ 0 := by
      intro hM
      rw [hM] at hnm hUM
      have hUz : U = 0 := le_antisymm hUM hU0
      rw [hUz] at hnu
      have := CalculateERE_zero_umax self g tcb hI hnu hnm
      rw [this] at h
      cases h
    have hMpos : 0 < M := lt_of_le_of_ne (le_trans hU0 hUM) (Ne.symm hM0)
    exact ⟨U, M, hnu, hnm, by rw [hru, hnu], by rw [hrm, hnm], hU0, hUM, hmM, hMpos⟩
  | pinf =>
    exfalso
    apply hbad
    left
    unfold nextU
    rw [hi, hl, hu, Dbl.lt_pinf_fin]
    simp only [Bool.false_eq_true, if_false, Dbl.lit_06, Dbl.lit_04, Dbl.fin_mul_fin,
      Dbl.pinf_sub_fin]
    rw [Dbl.fin_mul_pinf _ (by norm_num), Dbl.fin_add_pinf]
  | ninf =>
    exfalso
    apply hbad
    left
    unfold nextU
    rw [hi, hl, hu, Dbl.lt_ninf_fin]
    simp only [if_true, Dbl.lit_06, Dbl.lit_04, Dbl.fin_mul_fin, Dbl.fin_sub_ninf]
    rw [Dbl.fin_mul_pinf _ (by norm_num), Dbl.fin_add_pinf]
  | nan =>
    exfalso
    apply hbad
    right
    unfold nextU
    rw [hi, hl, hu, Dbl.nan_lt]
    simp only [Bool.false_eq_true, if_false, Dbl.nan_sub, Dbl.mul_nan, Dbl.add_nan]

/-- With finite `0 ≤ u ≤ umax`, `umax > 0` after the update and a positive last
RTT, the time constant lies, in the exact arithmetic of `Dbl`, between the RTT
and eleven times the RTT. -/
theorem tk_bounds (self : TcpAdaptiveStart) (g : Statics) (tcb : TcpSocketState) (U M : ℚ)
    (hnu : nextU self g tcb = Dbl.fin U) (hnm : nextUmax self g tcb = Dbl.fin M)
    (hU0 : 0 ≤ U) (hUM : U ≤ M) (hM : 0 < M) (hR : 0 < self.m_Rtt.ns) :
    ∃ T, tk self g tcb = Dbl.fin T ∧ (self.m_Rtt.ns : ℚ) / 1000000000 ≤ T ∧
      T ≤ 11 * ((self.m_Rtt.ns : ℚ) / 1000000000) := by
  have hRq : (0 : ℚ) < (self.m_Rtt.ns : ℚ) / 1000000000 := by
    have : (0 : ℚ) < (self.m_Rtt.ns : ℚ) := by exact_mod_cast hR
    positivity
  have hr0 : 0 ≤ U / M := div_nonneg hU0 hM.le
  have hr1 : U / M ≤ 1 := (div_le_one hM).mpr hUM
  refine ⟨(self.m_Rtt.ns : ℚ) / 1000000000
    + 10 * ((self.m_Rtt.ns : ℚ) / 1000000000) * (U / M), ?_, ?_, ?_⟩
  · unfold tk
    rw [hnu, hnm, Dbl.fin_div_fin _ _ hM.ne']
    simp only [Time.GetSeconds, Dbl.ten_def, Dbl.fin_mul_fin, Dbl.fin_add_fin]
  · nlinarith
  · nlinarith

end TcpAdaptiveStart

namespace TcpAdaptiveStart

/-- A call of `PktsAcked` that returns, entered with finite statics
`0 ≤ u ≤ umax`, leaves finite statics `0 ≤ u ≤ umax` with `umax` not smaller
than before. -/
theorem PktsAcked_statics (self : TcpAdaptiveStart) (g : Statics) (now : Time)
    (tcb : TcpSocketState) (n : Nat) (rtt : Time)
    (r : TcpAdaptiveStart × Statics × TcpSocketState) (a m : ℚ)
    (hu : g.u = Dbl.fin a) (hm : g.umax = Dbl.fin m) (h0 : 0 ≤ a) (h1 : a ≤ m)
    (h : PktsAcked self g now tcb n rtt = .ok r) :
    ∃ U M, r.2.1.u = Dbl.fin U ∧ r.2.1.umax = Dbl.fin M ∧ 0 ≤ U ∧ U ≤ M ∧ m ≤ M := by
  cases hrtt : rtt.IsZero
  · cases hf : self.flag
    · obtain ⟨c, b, hc, hb, -⟩ := PktsAcked_tcb self g now tcb n rtt hrtt r h
      rw [PktsAcked_unstarted self g now tcb n rtt hrtt hf c hc b hb] at h
      split at h
      · cases h
      · rename_i s3 g3 hE
        cases h
        obtain ⟨U, M, -, -, h3, h4, h5, h6, h7, -⟩ :=
          CalculateERE_statics _ _ _ _ a m hu hm h0 hE
        exact ⟨U, M, h3, h4, h5, h6, h7⟩
    · obtain ⟨b, -, -, h2⟩ := PktsAcked_started_ok self g now tcb n rtt hrtt hf r h
      rw [h2]
      exact ⟨a, m, hu, hm, h0, h1, le_refl _⟩
  · unfold PktsAcked at h
    rw [hrtt] at h
    simp only [if_true] at h
    cases h
    exact ⟨a, m, hu, hm, h0, h1, le_refl _⟩

end TcpAdaptiveStart

/-- Along a run that completes, finite statics `0 ≤ u ≤ umax` stay finite with
`0 ≤ u ≤ umax`, and `umax` does not decrease. -/
theorem run_statics (es : List Event) :
    ∀ (sg r : TcpAdaptiveStart × Statics) (a m : ℚ),
      sg.2.u = Dbl.fin a → sg.2.umax = Dbl.fin m → 0 ≤ a → a ≤ m → run sg es = .ok r →
      ∃ U M, r.2.u = Dbl.fin U ∧ r.2.umax = Dbl.fin M ∧ 0 ≤ U ∧ U ≤ M ∧ m ≤ M := by
  induction es with
  | nil =>
    intro sg r a m hu hm h0 h1 hrun
    simp only [run] at hrun
    cases hrun
    exact ⟨a, m, hu, hm, h0, h1, le_refl _⟩
  | cons e es ih =>
    intro sg r a m hu hm h0 h1 hrun
    simp only [run] at hrun
    cases hstep : step sg e with
    | error f => rw [hstep] at hrun; cases hrun
    | ok sg1 =>
      rw [hstep] at hrun
      have hmid : ∃ U M, sg1.2.u = Dbl.fin U ∧ sg1.2.umax = Dbl.fin M ∧ 0 ≤ U ∧ U ≤ M ∧ m ≤ M := by
        cases e with
        | tick tcb =>
          obtain ⟨U, M, -, -, h3, h4, h5, h6, h7, -⟩ :=
            TcpAdaptiveStart.CalculateERE_statics _ _ _ _ a m hu hm h0 hstep
          exact ⟨U, M, h3, h4, h5, h6, h7⟩
        | ack now tcb n rtt =>
          simp only [step] at hstep
          cases hP : TcpAdaptiveStart.PktsAcked sg.1 sg.2 now tcb n rtt with
          | error f => rw [hP] at hstep; cases hstep
          | ok p =>
            rw [hP] at hstep
            cases hstep
            exact TcpAdaptiveStart.PktsAcked_statics _ _ _ _ _ _ _ a m hu hm h0 h1 hP
      obtain ⟨U, M, h3, h4, h5, h6, h7⟩ := hmid
      obtain ⟨U2, M2, k3, k4, k5, k6, k7⟩ := ih sg1 r U M h3 h4 h5 h6 hrun
      exact ⟨U2, M2, k3, k4, k5, k6, le_trans h7 k7⟩

namespace TcpAdaptiveStart

/-- With a finite positive time constant and `0 ≤ m_deltaT ≤ 2 * tk`, the filter
weight is a finite number in `[0, 1]`. -/
theorem alpha_in_range (self : TcpAdaptiveStart) (g : Statics) (tcb : TcpSocketState)
    (T d : ℚ) (htk : tk self g tcb = Dbl.fin T) (hd : self.m_deltaT = Dbl.fin d)
    (hT : 0 < T) (hd0 : 0 ≤ d) (hd2 : d ≤ 2 * T) :
    ∃ a, alpha self g tcb = Dbl.fin a ∧ a = (2 * T - d) / (2 * T + d) ∧ 0 ≤ a ∧ a ≤ 1 := by
  have hden : (0 : ℚ) < 2 * T + d := by linarith
  refine ⟨(2 * T - d) / (2 * T + d), ?_, rfl, ?_, ?_⟩
  · unfold alpha
    rw [htk, hd]
    simp only [Dbl.two_def, Dbl.fin_mul_fin, Dbl.fin_sub_fin, Dbl.fin_add_fin]
    rw [Dbl.fin_div_fin _ _ hden.ne']
  · exact div_nonneg (by linarith) hden.le
  · rw [div_le_one hden]
    linarith

end TcpAdaptiveStart

/-! ## The non-negative estimate -/

namespace Dbl

/-- The product of zero with any quotient by zero is `NaN`. -/
theorem zero_mul_div_zero (y : Dbl) : fin 0 * (y / fin 0) = nan := by
  cases y with
  | fin a =>
    show mul (fin 0) (div (fin a) (fin 0)) = nan
    simp only [div, if_true, infOfSign]
    split_ifs <;> simp [mul, infOfSign]
  | pinf =>
    show mul (fin 0) (div pinf (fin 0)) = nan
    simp [div, mul, infOfSign]
  | ninf =>
    show mul (fin 0) (div ninf (fin 0)) = nan
    simp [div, mul, infOfSign]
  | nan => rfl

end Dbl

namespace TcpAdaptiveStart

/-- A tick entered with a zero last RTT and a zero best rate - the state of an
estimator that has not processed any acknowledgment - does not complete. -/
theorem CalculateERE_unset (self : TcpAdaptiveStart) (g : Statics) (tcb : TcpSocketState)
    (hR : self.m_Rtt = ⟨0⟩) (hb : self.m_bestRate = Dbl.fin 0)
    (r : TcpAdaptiveStart × Statics) : CalculateERE self g tcb ≠ .ok r := by
  have hn : nextIntervalSeconds self g tcb = Dbl.nan := by
    unfold nextIntervalSeconds
    rw [hR, hb]
    have : Time.GetSeconds ⟨0⟩ = Dbl.fin 0 := by
      unfold Time.GetSeconds
      norm_num
    rw [this, Dbl.zero_mul_div_zero]
  intro h
  unfold CalculateERE at h
  rw [hn] at h
  split at h
  · cases h
  · simp only [Dbl.nan_lt, Bool.false_eq_true, if_false] at h
    cases h

/-- One tick keeps the estimate non-negative when the previous estimate is
non-negative and the inter-ACK gap is at most twice the last RTT. -/
theorem CalculateERE_nonneg (self : TcpAdaptiveStart) (g : Statics) (tcb : TcpSocketState)
    (r : TcpAdaptiveStart × Statics) (e d a m : ℚ)
    (he : self.m_lastERE = Dbl.fin e) (he0 : 0 ≤ e)
    (hd : self.m_deltaT = Dbl.fin d) (hd0 : 0 ≤ d)
    (hd2 : d ≤ 2 * ((self.m_Rtt.ns : ℚ) / 1000000000))
    (hR : 0 < self.m_Rtt.ns) (hI : 0 < self.m_interval.ns)
    (hu : g.u = Dbl.fin a) (hm : g.umax = Dbl.fin m) (ha : 0 ≤ a)
    (h : CalculateERE self g tcb = .ok r) :
    (∃ E, r.1.m_currentERE = Dbl.fin E ∧ r.1.m_lastERE = Dbl.fin E ∧ 0 ≤ E) ∧
      (∃ U, r.2.u = Dbl.fin U ∧ 0 ≤ U) ∧ (∃ M, r.2.umax = Dbl.fin M) ∧
      0 < r.1.m_interval.ns := by
  obtain ⟨U, M, hnu, hnm, hru, hrm, hU0, hUM, -, hM⟩ :=
    CalculateERE_statics self g tcb r a m hu hm ha h
  obtain ⟨T, htk, hT1, -⟩ := tk_bounds self g tcb U M hnu hnm hU0 hUM hM hR
  have hRq : (0 : ℚ) < (self.m_Rtt.ns : ℚ) / 1000000000 := by
    have : (0 : ℚ) < (self.m_Rtt.ns : ℚ) := by exact_mod_cast hR
    positivity
  obtain ⟨A, hal, -, hA0, hA1⟩ :=
    alpha_in_range self g tcb T d htk hd (by linarith) hd0 (by linarith)
  obtain ⟨hIz, hc, hl, -, -, -, -, -, -, -, -⟩ := CalculateERE_ok self g tcb r h
  have hi := instantaneousERE_fin self tcb hIz
  have hX0 : (0 : ℚ) ≤ ((Int.toNat (self.m_ackedSinceT % 2 ^ 32) * tcb.m_segmentSize % 2 ^ 32
      : Nat) : ℚ) / ((self.m_interval.ns : ℚ) / 1000000000) := by
    have : (0 : ℚ) < (self.m_interval.ns : ℚ) := by exact_mod_cast hI
    positivity
  generalize ((Int.toNat (self.m_ackedSinceT % 2 ^ 32) * tcb.m_segmentSize % 2 ^ 32 : Nat) : ℚ)
        / ((self.m_interval.ns : ℚ) / 1000000000) = X at hi hX0
  have hf : filteredERE self g tcb = Dbl.fin (A * e + (1 - A) * X) := by
    unfold filteredERE
    rw [hal, he, hi]
    simp only [Dbl.one_def, Dbl.fin_mul_fin, Dbl.fin_sub_fin, Dbl.fin_add_fin]
  have hE0 : 0 ≤ A * e + (1 - A) * X := by
    have : 0 ≤ 1 - A := by linarith
    positivity
  have hint := (CalculateERE_interval self g tcb r h).1
  exact ⟨⟨_, by rw [hc, hf], by rw [hl, hf], hE0⟩, ⟨U, hru, hU0⟩, ⟨M, hrm⟩, by omega⟩

end TcpAdaptiveStart

namespace TcpAdaptiveStart

/-- The first acknowledgment with a positive RTT on an estimator that has not
started, whose estimate is zero and that has seen no acknowledgment: if the call
returns, the invariant of the non-negative estimate holds afterwards. -/
theorem PktsAcked_first_nonneg (self : TcpAdaptiveStart) (g : Statics) (now : Time)
    (tcb : TcpSocketState) (n : Nat) (rtt : Time)
    (r : TcpAdaptiveStart × Statics × TcpSocketState) (a m : ℚ)
    (hrtt : 0 < rtt.ns) (hflag : self.flag = false) (hc : self.m_currentERE = Dbl.fin 0)
    (he : self.m_lastERE = Dbl.fin 0) (hl : self.m_lastAck = Time.Min)
    (hI : 0 < self.m_interval.ns)
    (hu : g.u = Dbl.fin a) (hm : g.umax = Dbl.fin m) (ha : 0 ≤ a)
    (h : PktsAcked self g now tcb n rtt = .ok r) :
    NonnegInv r.1 r.2.1 ∧ r.1.m_lastAck = now := by
  have hz : rtt.IsZero = false := by simp [Time.IsZero, hrtt.ne']
  obtain ⟨-, b, -, hb, -⟩ := PktsAcked_tcb self g now tcb n rtt hz r h
  rw [PktsAcked_unstarted self g now tcb n rtt hz hflag 0 (by rw [hc]; exact castU32_zero)
    b hb] at h
  split at h
  · cases h
  · rename_i s3 g3 hE
    cases h
    have hRq : (0 : ℚ) ≤ 2 * ((rtt.ns : ℚ) / 1000000000) := by
      have : (0 : ℚ) < (rtt.ns : ℚ) := by exact_mod_cast hrtt
      positivity
    obtain ⟨⟨E, hcE, hlE, hE0⟩, hU, hM, hint⟩ :=
      CalculateERE_nonneg _ g _ (s3, g3) 0 0 a m (by exact he) (le_refl _)
        (by simp [sampleAck, hl, Dbl.zero_def]) (le_refl _) (by exact hRq) (by exact hrtt)
        (by exact hI) hu hm ha hE
    obtain ⟨-, -, -, -, -, -, hR, hd, hla, -, -⟩ := CalculateERE_ok _ _ _ _ hE
    have hf := CalculateERE_flag _ _ _ _ hE
    refine ⟨⟨hf, ⟨E, hcE, hE0⟩, ⟨E, hlE, hE0⟩, ⟨0, ?_, le_refl _, ?_⟩, ?_, hint, hU, hM⟩, hla⟩
    · show s3.m_deltaT = Dbl.fin 0
      rw [hd]
      simp [sampleAck, hl, Dbl.zero_def]
    · show (0 : ℚ) ≤ 2 * ((s3.m_Rtt.ns : ℚ) / 1000000000)
      rw [hR]
      exact hRq
    · show 0 < s3.m_Rtt.ns
      rw [hR]
      exact hrtt

/-- A later acknowledgment with a positive RTT whose inter-ACK gap is at least
zero and at most twice its RTT keeps the invariant of the non-negative
estimate. -/
theorem PktsAcked_later_nonneg (self : TcpAdaptiveStart) (g : Statics) (now : Time)
    (tcb : TcpSocketState) (n : Nat) (rtt : Time)
    (r : TcpAdaptiveStart × Statics × TcpSocketState)
    (hrtt : 0 < rtt.ns) (hinv : NonnegInv self g)
    (hgap : self.m_lastAck = Time.Min ∨
      (Dbl.le 0 (now.GetSeconds - self.m_lastAck.GetSeconds) = true ∧
        Dbl.le (now.GetSeconds - self.m_lastAck.GetSeconds) (2 * rtt.GetSeconds) = true))
    (h : PktsAcked self g now tcb n rtt = .ok r) :
    NonnegInv r.1 r.2.1 ∧ r.1.m_lastAck = now := by
  have hz : rtt.IsZero = false := by simp [Time.IsZero, hrtt.ne']
  obtain ⟨hflag, hc, he, -, -, hI, hu, hm⟩ := hinv
  obtain ⟨b, -, h1, h2⟩ := PktsAcked_started_ok self g now tcb n rtt hz hflag r h
  have hRq : (0 : ℚ) ≤ 2 * ((rtt.ns : ℚ) / 1000000000) := by
    have : (0 : ℚ) < (rtt.ns : ℚ) := by exact_mod_cast hrtt
    positivity
  rw [h1, h2]
  refine ⟨⟨hflag, hc, he, ?_, hrtt, hI, hu, hm⟩, rfl⟩
  show ∃ d, (if self.m_lastAck = Time.Min then (0 : Dbl)
      else now.GetSeconds - self.m_lastAck.GetSeconds) = Dbl.fin d ∧ 0 ≤ d ∧
      d ≤ 2 * ((rtt.ns : ℚ) / 1000000000)
  by_cases hl : self.m_lastAck = Time.Min
  · rw [if_pos hl]
    exact ⟨0, Dbl.zero_def, le_refl _, hRq⟩
  · rw [if_neg hl]
    rcases hgap with hg | ⟨hg1, hg2⟩
    · exact absurd hg hl
    · unfold Time.GetSeconds at hg1 hg2 ⊢
      simp only [Dbl.zero_def, Dbl.two_def, Dbl.fin_sub_fin, Dbl.fin_mul_fin, Dbl.le_fin_fin,
        decide_eq_true_eq] at hg1 hg2
      exact ⟨_, Dbl.fin_sub_fin _ _, hg1, hg2⟩

end TcpAdaptiveStart

/-- A run that completes from a state satisfying the invariant of the
non-negative estimate, or from an unstarted estimator that has seen no
acknowledgment, ends with a finite non-negative estimate, as long as every
acknowledgment has a positive RTT and arrives within twice its RTT of the
previous one. -/
theorem run_nonneg (es : List Event) :
    ∀ (sg r : TcpAdaptiveStart × Statics),
      (∀ t ∈ rtts es, 0 < t.ns) → gapsWithin sg.1.m_lastAck es →
      ((sg.1.flag = false ∧ sg.1.m_currentERE = Dbl.fin 0 ∧ sg.1.m_lastERE = Dbl.fin 0 ∧
          sg.1.m_lastAck = Time.Min ∧ 0 < sg.1.m_interval.ns ∧ sg.1.m_Rtt = ⟨0⟩ ∧
          sg.1.m_bestRate = Dbl.fin 0 ∧ (∃ a, sg.2.u = Dbl.fin a ∧ 0 ≤ a) ∧
          ∃ m, sg.2.umax = Dbl.fin m) ∨ NonnegInv sg.1 sg.2) →
      run sg es = .ok r → ∃ c, r.1.m_currentERE = Dbl.fin c ∧ 0 ≤ c := by
  induction es with
  | nil =>
    intro sg r _ _ hinv hrun
    simp only [run] at hrun
    cases hrun
    rcases hinv with ⟨-, hc, -⟩ | ⟨-, hc, -⟩
    · exact ⟨0, hc, le_refl _⟩
    · exact hc
  | cons e es ih =>
    intro sg r hpos hgap hinv hrun
    simp only [run] at hrun
    cases hstep : step sg e with
    | error f => rw [hstep] at hrun; cases hrun
    | ok sg1 =>
      rw [hstep] at hrun
      cases e with
      | tick tcb =>
        have hstep2 : TcpAdaptiveStart.CalculateERE sg.1 sg.2 tcb = .ok sg1 := hstep
        rcases hinv with ⟨-, -, -, -, -, hR, hb, -, -⟩ | ⟨hf, hc, ⟨e, he, he0⟩, ⟨d, hd, hd0, hd2⟩,
            hR, hI, ⟨a, hu, ha⟩, ⟨m, hm⟩⟩
        · exact absurd hstep2 (TcpAdaptiveStart.CalculateERE_unset _ _ _ hR hb _)
        · obtain ⟨⟨E, hcE, hlE, hE0⟩, hU, hM, hint⟩ :=
            TcpAdaptiveStart.CalculateERE_nonneg _ _ _ _ e d a m he he0 hd hd0 hd2 hR hI hu hm ha
              hstep2
          obtain ⟨-, -, -, -, -, -, hR2, hd3, hla, -, -⟩ :=
            TcpAdaptiveStart.CalculateERE_ok _ _ _ _ hstep2
          have hf2 := TcpAdaptiveStart.CalculateERE_flag _ _ _ _ hstep2
          refine ih sg1 r hpos (by rw [hla]; exact hgap) (Or.inr ?_) hrun
          exact ⟨by rw [hf2]; exact hf, ⟨E, hcE, hE0⟩, ⟨E, hlE, hE0⟩,
            ⟨d, by rw [hd3]; exact hd, hd0, by rw [hR2]; exact hd2⟩, by rw [hR2]; exact hR,
            hint, hU, hM⟩
      | ack now tcb n rtt =>
        have hrpos : 0 < rtt.ns := hpos rtt (by simp [rtts])
        have hpos2 : ∀ t ∈ rtts es, 0 < t.ns := fun t ht => hpos t (by simp [rtts, ht])
        obtain ⟨hg1, hg2⟩ := hgap
        simp only [step] at hstep
        cases hP : TcpAdaptiveStart.PktsAcked sg.1 sg.2 now tcb n rtt with
        | error f => rw [hP] at hstep; cases hstep
        | ok p =>
          rw [hP] at hstep
          cases hstep
          have key : NonnegInv p.1 p.2.1 ∧ p.1.m_lastAck = now := by
            rcases hinv with ⟨hf, hc, he, hl, hI, -, -, ⟨a, hu, ha⟩, ⟨m, hm⟩⟩ | hinv
            · exact TcpAdaptiveStart.PktsAcked_first_nonneg _ _ _ _ _ _ _ a m hrpos hf hc he hl hI
                hu hm ha hP
            · exact TcpAdaptiveStart.PktsAcked_later_nonneg _ _ _ _ _ _ _ hrpos hinv
                (hg1.imp id (fun hg => ⟨hg.1, hg.2.1⟩)) hP
          have hg3 : gapsWithin p.1.m_lastAck es := by
            rw [key.2]
            exact hg2
          exact ih (p.1, p.2.1) r hpos2 hg3 (Or.inr key.1) hrun

/-! ## A worked run: two acknowledgments, a tick, a late acknowledgment, a tick -/

namespace TcpAdaptiveStart

/-- The first three events of the worked run: a first acknowledgment of 2 packets
at time 0, a second one of 3 packets 100 ms later, and a tick. -/
theorem scenario_start :
    run (create 0, ⟨0, 0⟩)
      [Event.ack ⟨0⟩ ⟨10000, 2000, 1000, 0⟩ 2 ⟨100000000⟩,
       Event.ack ⟨100000000⟩ ⟨10000, 2000, 1000, 0⟩ 3 ⟨100000000⟩,
       Event.tick ⟨10000, 2000, 1000, 0⟩] =
    .ok ({ m_currentERE := Dbl.fin (60000 / 23), m_bestRate := Dbl.fin 100000,
           m_interval := ⟨97391304⟩, m_lastSampleERE := Dbl.fin 30000,
           m_lastERE := Dbl.fin (60000 / 23), m_minRtt := ⟨100000000⟩, m_Rtt := ⟨100000000⟩,
           m_ackedSinceT := 0, m_lastAck := ⟨100000000⟩, m_deltaT := Dbl.fin (1 / 10),
           flag := true, m_ereEstimateEvent := some ⟨97391304⟩ },
         ⟨Dbl.fin 8800, Dbl.fin 8800⟩) := by
  have hbr : Dbl.ofU32 100000 = Dbl.fin 100000 := by
    simp [Dbl.ofU32]
  have h1 : PktsAcked (create 0) ⟨0, 0⟩ ⟨0⟩ ⟨10000, 2000, 1000, 0⟩ 2 ⟨100000000⟩ =
      .ok ({ m_currentERE := Dbl.fin 0, m_bestRate := Dbl.fin 100000,
             m_interval := ⟨100000000⟩, m_lastSampleERE := Dbl.fin 20000,
             m_lastERE := Dbl.fin 0, m_minRtt := ⟨100000000⟩, m_Rtt := ⟨100000000⟩,
             m_ackedSinceT := 0, m_lastAck := ⟨0⟩, m_deltaT := Dbl.fin 0, flag := true,
             m_ereEstimateEvent := some ⟨100000000⟩ },
           ⟨Dbl.fin 8000, Dbl.fin 8000⟩, ⟨10000, 2000, 1000, 0⟩) := by
    rw [PktsAcked_fresh 0 ⟨0⟩ ⟨100000000⟩ ⟨10000, 2000, 1000, 0⟩ ⟨0, 0⟩ 2 2000 0 0
      Dbl.zero_def Dbl.zero_def (le_refl _) (by norm_num) (by norm_num) (by norm_num)
      (by norm_num) 100000 tracedDiv_10000_100ms (by norm_num)]
    simp only [hbr, Dbl.zero_def]
    norm_num
  have h2 : PktsAcked
      { m_currentERE := Dbl.fin 0, m_bestRate := Dbl.fin 100000,
        m_interval := ⟨100000000⟩, m_lastSampleERE := Dbl.fin 20000,
        m_lastERE := Dbl.fin 0, m_minRtt := ⟨100000000⟩, m_Rtt := ⟨100000000⟩,
        m_ackedSinceT := 0, m_lastAck := ⟨0⟩, m_deltaT := Dbl.fin 0, flag := true,
        m_ereEstimateEvent := some ⟨100000000⟩ }
      ⟨Dbl.fin 8000, Dbl.fin 8000⟩ ⟨100000000⟩ ⟨10000, 2000, 1000, 0⟩ 3 ⟨100000000⟩ =
      .ok ({ m_currentERE := Dbl.fin 0, m_bestRate := Dbl.fin 100000,
             m_interval := ⟨100000000⟩, m_lastSampleERE := Dbl.fin 20000,
             m_lastERE := Dbl.fin 0, m_minRtt := ⟨100000000⟩, m_Rtt := ⟨100000000⟩,
             m_ackedSinceT := 3, m_lastAck := ⟨100000000⟩, m_deltaT := Dbl.fin (1 / 10),
             flag := true, m_ereEstimateEvent := some ⟨100000000⟩ },
           ⟨Dbl.fin 8000, Dbl.fin 8000⟩, ⟨10000, 2000, 1000, 0⟩) := by
    refine (PktsAcked_started _ _ ⟨100000000⟩ ⟨10000, 2000, 1000, 0⟩ 3 ⟨100000000⟩ (by decide)
      rfl 0 castU32_zero 100000 ?_).trans ?_
    · exact tracedDiv_10000_100ms
    have hd : (Time.GetSeconds ⟨100000000⟩ - Time.GetSeconds ⟨0⟩ : Dbl) = Dbl.fin (1 / 10) := by
      unfold Time.GetSeconds
      rw [Dbl.fin_sub_fin]
      norm_num
    have hw : wrapInt32 (0 + ((3 : Nat) : Int)) = 3 := by decide
    have hne : ((⟨0⟩ : Time) = Time.Min) = False := by
      simp [Time.Min]
    have hmin : (if decide ((100000000 : Int) = 0) = true then (⟨100000000⟩ : Time)
        else if (100000000 : Int) < 100000000 then ⟨100000000⟩ else ⟨100000000⟩)
        = ⟨100000000⟩ := by decide
    have hss : Nat.max (2 * 1000 % 2 ^ 32) 0 = 2000 := by decide
    simp only [sampleAck, hd, hw, hne, if_false, Time.IsZero, hmin, hbr, hss]
  obtain ⟨hi1, hu1, hm1, -, -, hf1⟩ := tick_values
    { m_currentERE := Dbl.fin 0, m_bestRate := Dbl.fin 100000,
      m_interval := ⟨100000000⟩, m_lastSampleERE := Dbl.fin 20000,
      m_lastERE := Dbl.fin 0, m_minRtt := ⟨100000000⟩, m_Rtt := ⟨100000000⟩,
      m_ackedSinceT := 3, m_lastAck := ⟨100000000⟩, m_deltaT := Dbl.fin (1 / 10),
      flag := true, m_ereEstimateEvent := some ⟨100000000⟩ }
    ⟨Dbl.fin 8000, Dbl.fin 8000⟩ ⟨10000, 2000, 1000, 0⟩
    20000 8000 8000 (1 / 10) 0 30000 8800 8800 (11 / 10) (21 / 23) (60000 / 23)
    (by decide) rfl rfl rfl rfl rfl (by norm_num [Int.toNat])
    (by rw [abs_of_pos (by norm_num)]; norm_num) (by norm_num) (by norm_num) (by norm_num)
    (by norm_num) (by norm_num) (by norm_num)
  have hfl : ⌊(56 / 575 : ℚ) * 1000000000⌋ = 97391304 := by
    rw [Int.floor_eq_iff]; norm_num
  have h3 := CalculateERE_result _ _ _ 30000 8800 8800 (60000 / 23) 100000 (56 / 575)
    (by decide) hi1 hu1 hm1 hf1 rfl (by norm_num) (by norm_num) (by rw [hfl]; decide)
  rw [hfl, if_neg (by norm_num)] at h3
  simp only [run, step, h1, h2, h3]

/-- The fourth event of the worked run: an acknowledgment of no packet that
arrives ten seconds after the second one. -/
theorem scenario_late_ack (g : Statics) :
    PktsAcked
      { m_currentERE := Dbl.fin (60000 / 23), m_bestRate := Dbl.fin 100000,
        m_interval := ⟨97391304⟩, m_lastSampleERE := Dbl.fin 30000,
        m_lastERE := Dbl.fin (60000 / 23), m_minRtt := ⟨100000000⟩, m_Rtt := ⟨100000000⟩,
        m_ackedSinceT := 0, m_lastAck := ⟨100000000⟩, m_deltaT := Dbl.fin (1 / 10),
        flag := true, m_ereEstimateEvent := some ⟨97391304⟩ }
      g ⟨10100000000⟩ ⟨10000, 2000, 1000, 0⟩ 0 ⟨100000000⟩ =
    .ok ({ m_currentERE := Dbl.fin (60000 / 23), m_bestRate := Dbl.fin 100000,
           m_interval := ⟨97391304⟩, m_lastSampleERE := Dbl.fin 30000,
           m_lastERE := Dbl.fin (60000 / 23), m_minRtt := ⟨100000000⟩, m_Rtt := ⟨100000000⟩,
           m_ackedSinceT := 0, m_lastAck := ⟨10100000000⟩, m_deltaT := Dbl.fin 10,
           flag := true, m_ereEstimateEvent := some ⟨97391304⟩ },
         g, ⟨10000, 2608, 1000, 0⟩) := by
  have hc : castU32 (Dbl.fin (60000 / 23)) = .ok 2608 := by
    rw [castU32_fin _ (by norm_num) (by norm_num)]
    congr 1
    rw [Nat.floor_eq_iff (by norm_num)]
    norm_num
  refine (PktsAcked_started _ g ⟨10100000000⟩ ⟨10000, 2000, 1000, 0⟩ 0 ⟨100000000⟩ (by decide)
    rfl 2608 hc 100000 ?_).trans ?_
  · exact tracedDiv_10000_100ms
  have hbr : Dbl.ofU32 100000 = Dbl.fin 100000 := by
    simp [Dbl.ofU32]
  have hd : (Time.GetSeconds ⟨10100000000⟩ - Time.GetSeconds ⟨100000000⟩ : Dbl)
      = Dbl.fin 10 := by
    unfold Time.GetSeconds
    rw [Dbl.fin_sub_fin]
    norm_num
  have hw : wrapInt32 (0 + ((0 : Nat) : Int)) = 0 := by decide
  have hne : ((⟨100000000⟩ : Time) = Time.Min) = False := by
    simp [Time.Min]
  have hmin : (if decide ((100000000 : Int) = 0) = true then (⟨100000000⟩ : Time)
      else if (100000000 : Int) < 100000000 then ⟨100000000⟩ else ⟨100000000⟩)
      = ⟨100000000⟩ := by decide
  have hss : Nat.max (2 * 1000 % 2 ^ 32) 2608 = 2608 := by decide
  simp only [sampleAck, hd, hw, hne, if_false, Time.IsZero, hmin, hbr, hss]

/-- The quantities of the tick that follows the late acknowledgment: the filter
weight is `-39/61` and the filtered estimate is negative. -/
theorem scenario_late_tick_values :
    instantaneousERE
        { m_currentERE := Dbl.fin (60000 / 23), m_bestRate := Dbl.fin 100000,
          m_interval := ⟨97391304⟩, m_lastSampleERE := Dbl.fin 30000,
          m_lastERE := Dbl.fin (60000 / 23), m_minRtt := ⟨100000000⟩, m_Rtt := ⟨100000000⟩,
          m_ackedSinceT := 0, m_lastAck := ⟨10100000000⟩, m_deltaT := Dbl.fin 10,
          flag := true, m_ereEstimateEvent := some ⟨97391304⟩ }
        ⟨10000, 2000, 1000, 0⟩ = Dbl.fin 0 ∧
      tk
        { m_currentERE := Dbl.fin (60000 / 23), m_bestRate := Dbl.fin 100000,
          m_interval := ⟨97391304⟩, m_lastSampleERE := Dbl.fin 30000,
          m_lastERE := Dbl.fin (60000 / 23), m_minRtt := ⟨100000000⟩, m_Rtt := ⟨100000000⟩,
          m_ackedSinceT := 0, m_lastAck := ⟨10100000000⟩, m_deltaT := Dbl.fin 10,
          flag := true, m_ereEstimateEvent := some ⟨97391304⟩ }
        ⟨Dbl.fin 8800, Dbl.fin 8800⟩ ⟨10000, 2000, 1000, 0⟩ = Dbl.fin (11 / 10) ∧
      alpha
        { m_currentERE := Dbl.fin (60000 / 23), m_bestRate := Dbl.fin 100000,
          m_interval := ⟨97391304⟩, m_lastSampleERE := Dbl.fin 30000,
          m_lastERE := Dbl.fin (60000 / 23), m_minRtt := ⟨100000000⟩, m_Rtt := ⟨100000000⟩,
          m_ackedSinceT := 0, m_lastAck := ⟨10100000000⟩, m_deltaT := Dbl.fin 10,
          flag := true, m_ereEstimateEvent := some ⟨97391304⟩ }
        ⟨Dbl.fin 8800, Dbl.fin 8800⟩ ⟨10000, 2000, 1000, 0⟩ = Dbl.fin (-39 / 61) ∧
      filteredERE
        { m_currentERE := Dbl.fin (60000 / 23), m_bestRate := Dbl.fin 100000,
          m_interval := ⟨97391304⟩, m_lastSampleERE := Dbl.fin 30000,
          m_lastERE := Dbl.fin (60000 / 23), m_minRtt := ⟨100000000⟩, m_Rtt := ⟨100000000⟩,
          m_ackedSinceT := 0, m_lastAck := ⟨10100000000⟩, m_deltaT := Dbl.fin 10,
          flag := true, m_ereEstimateEvent := some ⟨97391304⟩ }
        ⟨Dbl.fin 8800, Dbl.fin 8800⟩ ⟨10000, 2000, 1000, 0⟩ = Dbl.fin (-2340000 / 1403) ∧
      CalculateERE
        { m_currentERE := Dbl.fin (60000 / 23), m_bestRate := Dbl.fin 100000,
          m_interval := ⟨97391304⟩, m_lastSampleERE := Dbl.fin 30000,
          m_lastERE := Dbl.fin (60000 / 23), m_minRtt := ⟨100000000⟩, m_Rtt := ⟨100000000⟩,
          m_ackedSinceT := 0, m_lastAck := ⟨10100000000⟩, m_deltaT := Dbl.fin 10,
          flag := true, m_ereEstimateEvent := some ⟨97391304⟩ }
        ⟨Dbl.fin 8800, Dbl.fin 8800⟩ ⟨10000, 2000, 1000, 0⟩ =
      .ok ({ m_currentERE := Dbl.fin (-2340000 / 1403), m_bestRate := Dbl.fin 100000,
             m_interval := ⟨101667854⟩, m_lastSampleERE := Dbl.fin 0,
             m_lastERE := Dbl.fin (-2340000 / 1403), m_minRtt := ⟨100000000⟩,
             m_Rtt := ⟨100000000⟩, m_ackedSinceT := 0, m_lastAck := ⟨10100000000⟩,
             m_deltaT := Dbl.fin 10, flag := true, m_ereEstimateEvent := some ⟨101667854⟩ },
           ⟨Dbl.fin 17280, Dbl.fin 17280⟩) := by
  obtain ⟨hi, hu, hm, htk, hal, hf⟩ := tick_values
    { m_currentERE := Dbl.fin (60000 / 23), m_bestRate := Dbl.fin 100000,
      m_interval := ⟨97391304⟩, m_lastSampleERE := Dbl.fin 30000,
      m_lastERE := Dbl.fin (60000 / 23), m_minRtt := ⟨100000000⟩, m_Rtt := ⟨100000000⟩,
      m_ackedSinceT := 0, m_lastAck := ⟨10100000000⟩, m_deltaT := Dbl.fin 10,
      flag := true, m_ereEstimateEvent := some ⟨97391304⟩ }
    ⟨Dbl.fin 8800, Dbl.fin 8800⟩ ⟨10000, 2000, 1000, 0⟩
    30000 8800 8800 10 (60000 / 23) 0 17280 17280 (11 / 10) (-39 / 61) (-2340000 / 1403)
    (by decide) rfl rfl rfl rfl rfl (by norm_num [Int.toNat])
    (by rw [abs_of_neg (by norm_num)]; norm_num) (by norm_num) (by norm_num) (by norm_num)
    (by norm_num) (by norm_num) (by norm_num)
  have hfl : ⌊(3566 / 35075 : ℚ) * 1000000000⌋ = 101667854 := by
    rw [Int.floor_eq_iff]; norm_num
  have h := CalculateERE_result _ _ _ 0 17280 17280 (-2340000 / 1403) 100000 (3566 / 35075)
    (by decide) hi hu hm hf rfl (by norm_num) (by norm_num) (by rw [hfl]; decide)
  rw [hfl, if_neg (by norm_num)] at h
  exact ⟨hi, htk, hal, hf, h⟩

end TcpAdaptiveStart

/-- A run over two sequences of events in a row is the run over the second
sequence from the result of the first. -/
theorem run_append (es1 es2 : List Event) :
    ∀ sg : TcpAdaptiveStart × Statics,
      run sg (es1 ++ es2) = match run sg es1 with
        | .error f => .error f
        | .ok sg1 => run sg1 es2 := by
  induction es1 with
  | nil => intro sg; rfl
  | cons e es ih =>
    intro sg
    simp only [List.cons_append, run]
    cases step sg e with
    | error f => rfl
    | ok sg1 => exact ih sg1

/-! ## The estimate that stays at zero -/

namespace Dbl

/-- One times any value plus zero is that value. -/
theorem one_mul_add_zero (y : Dbl) : fin 1 * y + fin 0 = y := by
  cases y with
  | fin a =>
    rw [fin_mul_fin, fin_add_fin]
    norm_num
  | pinf =>
    show add (mul (fin 1) pinf) (fin 0) = pinf
    simp [mul, add, infOfSign]
  | ninf =>
    show add (mul (fin 1) ninf) (fin 0) = ninf
    have h : ¬ ((1 : ℚ) < 0) := by norm_num
    simp [mul, add, infOfSign, h]
  | nan => rfl

end Dbl

namespace TcpAdaptiveStart

/-- A tick with a zero inter-ACK gap and a finite non-zero time constant uses the
weight 1, and its filtered estimate is the previous estimate. -/
theorem tick_zero_gap (self : TcpAdaptiveStart) (g : Statics) (tcb : TcpSocketState) (T : ℚ)
    (htk : tk self g tcb = Dbl.fin T) (hT : T ≠ 0) (hd : self.m_deltaT = Dbl.fin 0)
    (hI : self.m_interval.IsZero = false) :
    alpha self g tcb = Dbl.fin 1 ∧ filteredERE self g tcb = self.m_lastERE := by
  have hal : alpha self g tcb = Dbl.fin 1 := by
    unfold alpha
    rw [htk, hd]
    simp only [Dbl.two_def, Dbl.fin_mul_fin, Dbl.fin_sub_fin, Dbl.fin_add_fin]
    rw [Dbl.fin_div_fin _ _ (by simpa using hT)]
    congr 1
    rw [sub_zero, add_zero]
    exact div_self (by simpa using hT)
  refine ⟨hal, ?_⟩
  unfold filteredERE
  rw [hal, instantaneousERE_fin self tcb hI]
  simp only [Dbl.one_def, Dbl.fin_sub_fin, Dbl.fin_mul_fin, sub_self, zero_mul]
  exact Dbl.one_mul_add_zero _

/-- A tick whose 32-bit product of the acked counter and the segment size is
zero, with a zero previous raw sample and zero statics, leaves `u` and `umax` at
zero. -/
theorem tick_zero_sample_statics (self : TcpAdaptiveStart) (tcb : TcpSocketState)
    (hI : self.m_interval.ns ≠ 0)
    (hP : Int.toNat (self.m_ackedSinceT % 2 ^ 32) * tcb.m_segmentSize % 2 ^ 32 = 0)
    (hl : self.m_lastSampleERE = Dbl.fin 0) :
    instantaneousERE self tcb = Dbl.fin 0 ∧
      nextU self ⟨0, 0⟩ tcb = Dbl.fin 0 ∧ nextUmax self ⟨0, 0⟩ tcb = Dbl.fin 0 := by
  have hIq : (self.m_interval.ns : ℚ) / 1000000000 ≠ 0 := by
    have : (self.m_interval.ns : ℚ) ≠ 0 := by exact_mod_cast hI
    positivity
  have hi : instantaneousERE self tcb = Dbl.fin 0 := by
    unfold instantaneousERE Dbl.ofU32 Time.GetSeconds
    rw [hP, Dbl.fin_div_fin _ _ hIq]
    norm_num
  have hu : nextU self ⟨0, 0⟩ tcb = Dbl.fin 0 := by
    unfold nextU
    rw [hi, hl]
    simp only [Dbl.zero_def, Dbl.lt_fin_fin, Dbl.lit_06, Dbl.lit_04, Dbl.fin_mul_fin,
      Dbl.fin_sub_fin, Dbl.fin_add_fin]
    norm_num
  refine ⟨hi, hu, ?_⟩
  unfold nextUmax
  rw [hu]
  simp only [Dbl.zero_def, Dbl.lt_fin_fin, lt_self_iff_false, decide_False, if_false,
    Bool.false_eq_true]

/-- A tick on a state in which the estimate and the inter-ACK gap are zero
completes and leaves them zero. -/
theorem CalculateERE_quiet (t mr : Time) (self : TcpAdaptiveStart) (g : Statics)
    (tcb : TcpSocketState) (h : QuietInv t mr self g) :
    ∃ r, CalculateERE self g tcb = .ok r ∧ QuietInv t mr r.1 r.2 := by
  obtain ⟨hf, hc, he, hd, ⟨b, hb, hb0⟩, hR, hR63, hmr, hmr0, hI, ⟨l, hl⟩, ⟨u, hu, hu0⟩,
    ⟨m, hm, hm0⟩, hla⟩ := h
  have hbq : ((b : Nat) : ℚ) ≠ 0 := by
    have : (0 : ℚ) < ((b : Nat) : ℚ) := by exact_mod_cast hb0
    exact this.ne'
  have hRq : (0 : ℚ) < (self.m_Rtt.ns : ℚ) / 1000000000 := by
    have : (0 : ℚ) < (self.m_Rtt.ns : ℚ) := by exact_mod_cast hR
    positivity
  generalize hX : ((Int.toNat (self.m_ackedSinceT % 2 ^ 32) * tcb.m_segmentSize % 2 ^ 32 : Nat)
    : ℚ) / ((self.m_interval.ns : ℚ) / 1000000000) = X
  have hU0 : 0 ≤ 3 / 5 * u + 2 / 5 * |X - l| := by
    have := abs_nonneg (X - l)
    linarith
  generalize hU : 3 / 5 * u + 2 / 5 * |X - l| = U at hU0
  have hM0 : 0 < (if m < U then U else m) := by
    split_ifs with hlt
    · exact lt_trans hm0 hlt
    · exact hm0
  generalize hM : (if m < U then U else m) = M at hM0
  have hT0 : 0 < (self.m_Rtt.ns : ℚ) / 1000000000
      + 10 * ((self.m_Rtt.ns : ℚ) / 1000000000) * (U / M) := by
    have : 0 ≤ U / M := div_nonneg hU0 hM0.le
    have : 0 ≤ 10 * ((self.m_Rtt.ns : ℚ) / 1000000000) * (U / M) := by positivity
    linarith
  generalize hT : (self.m_Rtt.ns : ℚ) / 1000000000
      + 10 * ((self.m_Rtt.ns : ℚ) / 1000000000) * (U / M) = T at hT0
  obtain ⟨hinst, hnu, hnm, -, -, hfil⟩ := tick_values self g tcb l u m 0 0 X U M T 1 0
    hI.ne' hl hu hm hd he hX.symm hU.symm hM.symm hM0.ne' hT.symm (by linarith)
    (by rw [sub_zero, add_zero, div_self (by linarith)]) (by ring)
  have hx : (self.m_Rtt.ns : ℚ) / 1000000000
      = (self.m_Rtt.ns : ℚ) / 1000000000 * ((((b : Nat) : ℚ) - 0) / ((b : Nat) : ℚ)) := by
    rw [sub_zero, div_self hbq, mul_one]
  have hfl : ⌊(self.m_Rtt.ns : ℚ) / 1000000000 * 1000000000⌋ = self.m_Rtt.ns := by
    rw [div_mul_cancel₀ _ (by norm_num : (1000000000 : ℚ) ≠ 0)]
    exact Int.floor_intCast _
  have hres := CalculateERE_result self g tcb X U M 0 ((b : Nat) : ℚ)
    ((self.m_Rtt.ns : ℚ) / 1000000000)
    hI.ne' hinst hnu hnm hfil hb hbq hx (by rw [hfl]; exact hR63)
  refine ⟨_, hres, hf, rfl, rfl, hd, ⟨b, hb, hb0⟩, hR, hR63, hmr, hmr0, ?_, ⟨X, rfl⟩,
    ⟨U, rfl, hU0⟩, ⟨M, rfl, hM0⟩, hla⟩
  show 0 < (if (self.m_Rtt.ns : ℚ) / 1000000000 < 1 / 100 then (⟨10000000⟩ : Time)
    else ⟨⌊(self.m_Rtt.ns : ℚ) / 1000000000 * 1000000000⌋⟩).ns
  split_ifs
  · show (0 : Int) < 10000000
    decide
  · show 0 < ⌊(self.m_Rtt.ns : ℚ) / 1000000000 * 1000000000⌋
    rw [hfl]
    exact hR

/-- A further acknowledgment that arrives at the time of the last one, with a
positive representable RTT and a best rate `b` that is defined and non-zero,
returns and leaves the estimate and the inter-ACK gap at zero. -/
theorem PktsAcked_quiet (t mr : Time) (self : TcpAdaptiveStart) (g : Statics)
    (tcb : TcpSocketState) (n : Nat) (rtt : Time) (h : QuietInv t mr self g)
    (hrtt : 0 < rtt.ns) (hr63 : rtt.ns < 2 ^ 63) (b : Nat)
    (hb : tracedDiv tcb.m_cWnd (if rtt.ns < mr.ns then rtt else mr).GetSeconds = .ok b)
    (hb0 : 0 < b) :
    ∃ r, PktsAcked self g t tcb n rtt = .ok r ∧
      QuietInv t (if rtt.ns < mr.ns then rtt else mr) r.1 r.2.1 := by
  obtain ⟨hf, hc, he, hd, -, hR, hR63, hmr, hmr0, hI, hl, hu, hm, hla⟩ := h
  have hz : rtt.IsZero = false := by simp [Time.IsZero, hrtt.ne']
  have hmin : (sampleAck self t n rtt).m_minRtt = (if rtt.ns < mr.ns then rtt else mr) := by
    show (if self.m_minRtt.IsZero then rtt
      else if rtt.ns < self.m_minRtt.ns then rtt else self.m_minRtt) = _
    rw [hmr]
    have : mr.IsZero = false := by simp [Time.IsZero, hmr0]
    rw [this]
    rfl
  refine ⟨_, PktsAcked_started self g t tcb n rtt hz hf 0 (by rw [hc]; exact castU32_zero) b
    (by rw [hmin]; exact hb), hf, hc, he, ?_, ⟨b, rfl, hb0⟩, hrtt, hr63, hmin, ?_, hI, hl, hu,
    hm, rfl⟩
  · show (if self.m_lastAck = Time.Min then (0 : Dbl)
      else t.GetSeconds - self.m_lastAck.GetSeconds) = Dbl.fin 0
    rw [hla]
    split_ifs
    · exact Dbl.zero_def
    · unfold Time.GetSeconds
      rw [Dbl.fin_sub_fin, sub_self]
  · split_ifs
    · exact hrtt.ne'
    · exact hmr0

end TcpAdaptiveStart

/-- A run of ticks and of acknowledgments that arrive at the time of the last
one, from a state in which the estimate and the inter-ACK gap are zero,
completes and leaves the estimate at zero. -/
theorem run_quiet (t : Time) (es : List Event) :
    ∀ (mr : Time) (sg : TcpAdaptiveStart × Statics), QuietInv t mr sg.1 sg.2 →
      staysQuiet t mr es →
      ∃ r, run sg es = .ok r ∧ r.1.m_currentERE = Dbl.fin 0 := by
  induction es with
  | nil =>
    intro mr sg hinv _
    exact ⟨sg, rfl, hinv.2.1⟩
  | cons e es ih =>
    intro mr sg hinv hes
    cases e with
    | tick tcb =>
      obtain ⟨r1, h1, hq⟩ := TcpAdaptiveStart.CalculateERE_quiet t mr sg.1 sg.2 tcb hinv
      obtain ⟨r, hr, hc⟩ := ih mr r1 hq hes
      refine ⟨r, ?_, hc⟩
      simp only [run, step, h1]
      exact hr
    | ack now tcb n rtt =>
      obtain ⟨hnow, hrtt, hr63, ⟨b, hb, hb0⟩, hes2⟩ := hes
      subst hnow
      obtain ⟨r1, h1, hq⟩ := TcpAdaptiveStart.PktsAcked_quiet now mr sg.1 sg.2 tcb n rtt hinv
        hrtt hr63 b hb hb0
      obtain ⟨r, hr, hc⟩ := ih _ (r1.1, r1.2.1) hq hes2
      refine ⟨r, ?_, hc⟩
      simp only [run, step, h1]
      exact hr

/-! ## Rounding -/

/-- No rounding at all is a rounding: the exact arithmetic of `Dbl`. -/
theorem isRounding_id : IsRounding id :=
  ⟨monotone_id, rfl, rfl, fun _ => rfl⟩

/-- A rounding keeps a non-negative value non-negative. -/
theorem IsRounding.nonneg {fl : ℚ → ℚ} (h : IsRounding fl) {x : ℚ} (hx : 0 ≤ x) : 0 ≤ fl x := by
  have := h.1 hx
  rwa [h.2.1] at this

/-- A rounding keeps a value that is at most one at most one. -/
theorem IsRounding.le_one {fl : ℚ → ℚ} (h : IsRounding fl) {x : ℚ} (hx : x ≤ 1) : fl x ≤ 1 := by
  have := h.1 hx
  rwa [h.2.2.1] at this

/-- With a ratio in `[0, 1]` and a last RTT that is a `double`, the time constant
computed with rounding lies between the RTT and its own value at ratio 1. -/
theorem tkWith_bounds (fl : ℚ → ℚ) (h : IsRounding fl) (R ratio : ℚ) (hR : 0 ≤ R)
    (hfR : fl R = R) (h0 : 0 ≤ ratio) (h1 : ratio ≤ 1) :
    R ≤ tkWith fl R ratio ∧ tkWith fl R ratio ≤ tkWith fl R 1 := by
  have h10 : 0 ≤ fl (10 * R) := h.nonneg (by linarith)
  have hp0 : 0 ≤ fl (fl (10 * R) * ratio) := h.nonneg (mul_nonneg h10 h0)
  have hp1 : fl (fl (10 * R) * ratio) ≤ fl (fl (10 * R) * 1) :=
    h.1 (mul_le_mul_of_nonneg_left h1 h10)
  constructor
  · have := h.1 (show R ≤ R + fl (fl (10 * R) * ratio) by linarith)
    rw [hfR] at this
    exact this
  · exact h.1 (by linarith)

/-- With `0 ≤ m_deltaT ≤ 2 * tk`, the filter weight computed with rounding lies
in `[0, 1]`. -/
theorem alphaWith_range (fl : ℚ → ℚ) (h : IsRounding fl) (T d : ℚ) (hT : 0 < fl (2 * T))
    (hd0 : 0 ≤ d) (hd2 : d ≤ fl (2 * T)) :
    0 ≤ alphaWith fl T d ∧ alphaWith fl T d ≤ 1 := by
  have hn0 : 0 ≤ fl (fl (2 * T) - d) := h.nonneg (by linarith)
  have hnm : fl (fl (2 * T) - d) ≤ fl (fl (2 * T) + d) := h.1 (by linarith)
  have hm0 : 0 < fl (fl (2 * T) + d) := by
    have := h.1 (show fl (2 * T) ≤ fl (2 * T) + d by linarith)
    rw [h.2.2.2] at this
    linarith
  constructor
  · exact h.nonneg (div_nonneg hn0 hm0.le)
  · exact h.le_one ((div_le_one hm0).mpr hnm)

/-- With a weight in `[0, 1]` and a non-negative previous estimate and sample, the
filtered estimate computed with rounding is non-negative. -/
theorem filteredWith_nonneg (fl : ℚ → ℚ) (h : IsRounding fl) (a e X : ℚ) (ha1 : a ≤ 1)
    (ha0 : 0 ≤ a) (he : 0 ≤ e) (hX : 0 ≤ X) : 0 ≤ filteredWith fl a e X := by
  have h1 : 0 ≤ fl (a * e) := h.nonneg (mul_nonneg ha0 he)
  have h2 : 0 ≤ fl (1 - a) := h.nonneg (by linarith)
  have h3 : 0 ≤ fl (fl (1 - a) * X) := h.nonneg (mul_nonneg h2 hX)
  exact h.nonneg (by linarith)

/-- Where `2 ^ e ≤ |q| < 2 ^ (e + 1)`, `round64` rounds at the exponent `e`. -/
theorem round64_eq_roundAt (q : ℚ) (e : Int) (h1 : (2 : ℚ) ^ e ≤ |q|)
    (h2 : |q| < (2 : ℚ) ^ (e + 1)) : round64 q = roundAt e q := by
  have hpos : 0 < |q| := lt_of_lt_of_le (by positivity) h1
  have hq : q ≠ 0 := abs_pos.mp hpos
  have hlog : Int.log 2 |q| = e := by
    apply le_antisymm
    · have := (Int.lt_zpow_iff_log_lt (R := ℚ) (b := 2) (by norm_num) hpos).mp
        (by exact_mod_cast h2)
      omega
    · exact (Int.zpow_le_iff_le_log (R := ℚ) (b := 2) (by norm_num) hpos).mp
        (by exact_mod_cast h1)
  unfold round64
  rw [if_neg hq, hlog]

/-- The value of `roundHalfEven` below the half. -/
theorem roundHalfEven_down (q : ℚ) (f : Int) (h1 : (f : ℚ) ≤ q) (h2 : q < (f : ℚ) + 1 / 2) :
    roundHalfEven q = f := by
  have hf : ⌊q⌋ = f := by
    rw [Int.floor_eq_iff]
    constructor
    · exact h1
    · linarith
  unfold roundHalfEven
  rw [hf, if_pos (by linarith)]

/-- The value of `roundHalfEven` above the half. -/
theorem roundHalfEven_up (q : ℚ) (f : Int) (h1 : (f : ℚ) + 1 / 2 < q) (h2 : q < (f : ℚ) + 1) :
    roundHalfEven q = f + 1 := by
  have hf : ⌊q⌋ = f := by
    rw [Int.floor_eq_iff]
    constructor
    · linarith
    · exact h2
  unfold roundHalfEven
  rw [hf, if_neg (by linarith), if_pos (by linarith)]

/-- The `double` nearest to `0.1`. -/
theorem round64_tenth : round64 (1 / 10) = 3602879701896397 / 2 ^ 55 := by
  rw [round64_eq_roundAt (1 / 10) (-4) (by rw [abs_of_pos (by norm_num)]; norm_num)
    (by rw [abs_of_pos (by norm_num)]; norm_num)]
  unfold roundAt
  rw [roundHalfEven_up _ 7205759403792793 (by norm_num) (by norm_num)]
  norm_num

/-- In binary64, ten times the `double` nearest to `0.1` is `1`. -/
theorem round64_ten_tenths : round64 (10 * (3602879701896397 / 2 ^ 55)) = 1 := by
  rw [round64_eq_roundAt _ 0 (by rw [abs_of_pos (by norm_num)]; norm_num)
    (by rw [abs_of_pos (by norm_num)]; norm_num)]
  unfold roundAt
  rw [roundHalfEven_down _ 4503599627370496 (by norm_num) (by norm_num)]
  norm_num

/-- In binary64, `1` is a `double`. -/
theorem round64_one : round64 1 = 1 := by
  rw [round64_eq_roundAt 1 0 (by rw [abs_of_pos (by norm_num)]; norm_num)
    (by rw [abs_of_pos (by norm_num)]; norm_num)]
  unfold roundAt
  rw [roundHalfEven_down _ 4503599627370496 (by norm_num) (by norm_num)]
  norm_num

/-- In binary64, the `double` nearest to `0.1` plus `1` is `4953959590107546 / 2^52`,
the `double` just above `1.1`. -/
theorem round64_tenth_add_one :
    round64 (3602879701896397 / 2 ^ 55 + 1) = 4953959590107546 / 2 ^ 52 := by
  rw [round64_eq_roundAt _ 0 (by rw [abs_of_pos (by norm_num)]; norm_num)
    (by rw [abs_of_pos (by norm_num)]; norm_num)]
  unfold roundAt
  rw [roundHalfEven_up _ 4953959590107545 (by norm_num) (by norm_num)]
  norm_num

/-- The value of `roundHalfEven` lies between the floor and the floor plus one. -/
theorem roundHalfEven_floor (q : ℚ) : ⌊q⌋ ≤ roundHalfEven q ∧ roundHalfEven q ≤ ⌊q⌋ + 1 := by
  unfold roundHalfEven
  split_ifs <;> omega

/-- A whole number is its own rounding. -/
theorem roundHalfEven_intCast (n : Int) : roundHalfEven (n : ℚ) = n := by
  unfold roundHalfEven
  rw [Int.floor_intCast, sub_self, if_pos (by norm_num)]

/-- The function `roundHalfEven` is monotone. -/
theorem roundHalfEven_mono : Monotone roundHalfEven := by
  intro x y hxy
  have hf : ⌊x⌋ ≤ ⌊y⌋ := Int.floor_mono hxy
  rcases hf.lt_or_eq with hlt | heq
  · have h1 := (roundHalfEven_floor x).2
    have h2 := (roundHalfEven_floor y).1
    omega
  · unfold roundHalfEven
    rw [heq]
    have hr : x - (⌊y⌋ : ℚ) ≤ y - (⌊y⌋ : ℚ) := by linarith
    split_ifs <;> first | omega | (exfalso; linarith)

/-- The function `roundHalfEven` is odd. -/
theorem roundHalfEven_neg (x : ℚ) : roundHalfEven (-x) = -roundHalfEven x := by
  have hf1 : ((⌊x⌋ : Int) : ℚ) ≤ x := Int.floor_le x
  have hf2 : x < ((⌊x⌋ : Int) : ℚ) + 1 := Int.lt_floor_add_one x
  by_cases hint : x = ((⌊x⌋ : Int) : ℚ)
  · have h1 : roundHalfEven x = ⌊x⌋ := by
      conv_lhs => rw [hint]
      exact roundHalfEven_intCast _
    have h2 : roundHalfEven (-x) = -⌊x⌋ := by
      have : -x = ((-⌊x⌋ : Int) : ℚ) := by
        push_cast
        linarith
      rw [this]
      exact roundHalfEven_intCast _
    rw [h1, h2]
  · have hlt : ((⌊x⌋ : Int) : ℚ) < x := lt_of_le_of_ne hf1 (Ne.symm hint)
    have hfn : ⌊-x⌋ = -⌊x⌋ - 1 := by
      rw [Int.floor_eq_iff]
      push_cast
      constructor <;> linarith
    generalize hfx : ⌊x⌋ = f at hf1 hf2 hlt hfn
    unfold roundHalfEven
    rw [hfn, hfx]
    push_cast
    split_ifs <;> first | omega | (exfalso; linarith)

/-- The step of `roundAt` is positive. -/
theorem roundAt_step_pos (e : Int) : (0 : ℚ) < 2 ^ (e - 52) := by positivity

/-- The power `2 ^ e` in steps of `roundAt e`. -/
theorem two_zpow_eq (e : Int) : (2 : ℚ) ^ e = 4503599627370496 * 2 ^ (e - 52) := by
  have h : (2 : ℚ) ^ e = 2 ^ (e - 52 + 52) := by rw [sub_add_cancel]
  rw [h, zpow_add₀ (by norm_num)]
  norm_num
  ring

/-- The power `2 ^ (e + 1)` in steps of `roundAt e`. -/
theorem two_zpow_succ_eq (e : Int) : (2 : ℚ) ^ (e + 1) = 9007199254740992 * 2 ^ (e - 52) := by
  have h : (2 : ℚ) ^ (e + 1) = 2 ^ (e - 52 + 53) := by
    congr 1
    ring
  rw [h, zpow_add₀ (by norm_num)]
  norm_num
  ring

/-- The function `roundAt e` is monotone. -/
theorem roundAt_mono (e : Int) : Monotone (roundAt e) := by
  intro x y hxy
  unfold roundAt
  have hs := roundAt_step_pos e
  have h1 : x / 2 ^ (e - 52) ≤ y / 2 ^ (e - 52) := div_le_div_of_nonneg_right hxy hs.le
  have h2 : ((roundHalfEven (x / 2 ^ (e - 52)) : Int) : ℚ)
      ≤ ((roundHalfEven (y / 2 ^ (e - 52)) : Int) : ℚ) := by
    exact_mod_cast roundHalfEven_mono h1
  exact mul_le_mul_of_nonneg_right h2 hs.le

/-- A whole number of steps is its own rounding. -/
theorem roundAt_steps (e : Int) (n : Int) :
    roundAt e ((n : ℚ) * 2 ^ (e - 52)) = (n : ℚ) * 2 ^ (e - 52) := by
  unfold roundAt
  rw [mul_div_assoc, div_self (roundAt_step_pos e).ne', mul_one, roundHalfEven_intCast]

/-- The function `roundAt e` is odd. -/
theorem roundAt_neg (e : Int) (q : ℚ) : roundAt e (-q) = -roundAt e q := by
  unfold roundAt
  rw [neg_div, roundHalfEven_neg]
  push_cast
  ring

/-- The function `round64` is odd. -/
theorem round64_neg (q : ℚ) : round64 (-q) = -round64 q := by
  unfold round64
  by_cases hq : q = 0
  · simp [hq]
  · rw [if_neg hq, if_neg (neg_ne_zero.mpr hq), abs_neg, roundAt_neg]

/-- The binary exponent of a positive rational. -/
theorem log_bounds (q : ℚ) (hq : 0 < q) :
    (2 : ℚ) ^ Int.log 2 q ≤ q ∧ q < (2 : ℚ) ^ (Int.log 2 q + 1) := by
  constructor
  · exact_mod_cast Int.zpow_log_le_self (R := ℚ) (b := 2) (by norm_num) hq
  · exact_mod_cast Int.lt_zpow_succ_log_self (R := ℚ) (b := 2) (by norm_num) q

/-- On a positive rational `round64` rounds at its binary exponent and stays in
the binade. -/
theorem round64_pos (q : ℚ) (hq : 0 < q) :
    round64 q = roundAt (Int.log 2 q) q ∧ (2 : ℚ) ^ Int.log 2 q ≤ round64 q ∧
      round64 q ≤ (2 : ℚ) ^ (Int.log 2 q + 1) := by
  obtain ⟨h1, h2⟩ := log_bounds q hq
  have hr : round64 q = roundAt (Int.log 2 q) q := by
    unfold round64
    rw [if_neg hq.ne', abs_of_pos hq]
  refine ⟨hr, ?_, ?_⟩
  · rw [hr]
    have := roundAt_mono (Int.log 2 q) h1
    rw [two_zpow_eq] at this
    have h3 := roundAt_steps (Int.log 2 q) 4503599627370496
    push_cast at h3
    rw [h3] at this
    rw [two_zpow_eq]
    exact this
  · rw [hr]
    have := roundAt_mono (Int.log 2 q) h2.le
    rw [two_zpow_succ_eq] at this
    have h3 := roundAt_steps (Int.log 2 q) 9007199254740992
    push_cast at h3
    rw [h3] at this
    rw [two_zpow_succ_eq]
    exact this

/-- On the non-negative rationals `round64` is monotone. -/
theorem round64_mono_nonneg (x y : ℚ) (hx : 0 ≤ x) (hxy : x ≤ y) : round64 x ≤ round64 y := by
  rcases hx.lt_or_eq with hx0 | hx0
  · have hy0 : 0 < y := lt_of_lt_of_le hx0 hxy
    obtain ⟨hrx, -, hx2⟩ := round64_pos x hx0
    obtain ⟨hry, hy1, -⟩ := round64_pos y hy0
    have hlog : Int.log 2 x ≤ Int.log 2 y := Int.log_mono_right hx0 hxy
    rcases hlog.lt_or_eq with hlt | heq
    · have : (2 : ℚ) ^ (Int.log 2 x + 1) ≤ 2 ^ Int.log 2 y :=
        zpow_le_zpow_right₀ (by norm_num) (by omega)
      linarith
    · rw [hrx, hry, heq]
      exact roundAt_mono _ hxy
  · rw [← hx0]
    have h0 : round64 0 = 0 := by simp [round64]
    rw [h0]
    rcases hxy.lt_or_eq with hy0 | hy0
    · obtain ⟨-, hy1, -⟩ := round64_pos y (by rw [hx0]; exact hy0)
      have : (0 : ℚ) < 2 ^ Int.log 2 y := by positivity
      linarith
    · rw [← hy0, ← hx0, h0]

/-- On the non-negative rationals, rounding twice is rounding once. -/
theorem round64_idem_nonneg (q : ℚ) (hq : 0 ≤ q) : round64 (round64 q) = round64 q := by
  rcases hq.lt_or_eq with hq0 | hq0
  · obtain ⟨hr, h1, h2⟩ := round64_pos q hq0
    obtain ⟨hl1, hl2⟩ := log_bounds q hq0
    have hs := roundAt_step_pos (Int.log 2 q)
    -- the rounded value is a whole number `m` of steps
    have hm : round64 q
        = ((roundHalfEven (q / 2 ^ (Int.log 2 q - 52)) : Int) : ℚ) * 2 ^ (Int.log 2 q - 52) := by
      rw [hr]
      rfl
    generalize roundHalfEven (q / 2 ^ (Int.log 2 q - 52)) = m at hm
    have hpos : 0 < round64 q := lt_of_lt_of_le (by positivity) h1
    rcases h2.lt_or_eq with hlt | heq
    · have hlog : Int.log 2 (round64 q) = Int.log 2 q := by
        apply le_antisymm
        · have := (Int.lt_zpow_iff_log_lt (R := ℚ) (b := 2) (by norm_num) hpos).mp
            (by exact_mod_cast hlt)
          omega
        · exact (Int.zpow_le_iff_le_log (R := ℚ) (b := 2) (by norm_num) hpos).mp
            (by exact_mod_cast h1)
      rw [(round64_pos _ hpos).1, hlog]
      conv_lhs => rw [hm]
      rw [roundAt_steps, ← hm]
    · have hlog : Int.log 2 (round64 q) = Int.log 2 q + 1 := by
        rw [heq]
        exact_mod_cast Int.log_zpow (R := ℚ) (b := 2) (by norm_num) (Int.log 2 q + 1)
      rw [(round64_pos _ hpos).1, hlog]
      conv_lhs => rw [heq, two_zpow_eq]
      have h3 := roundAt_steps (Int.log 2 q + 1) 4503599627370496
      push_cast at h3
      rw [h3, ← two_zpow_eq, heq]
  · rw [← hq0]
    simp [round64]

/-- Rounding to binary64 (round to nearest, ties to even) is a rounding. -/
theorem isRounding_round64 : IsRounding round64 := by
  refine ⟨?_, by simp [round64], round64_one, ?_⟩
  · intro x y hxy
    rcases le_total 0 x with hx | hx
    · exact round64_mono_nonneg x y hx hxy
    · rcases le_total 0 y with hy | hy
      · have h1 := round64_mono_nonneg 0 (-x) (le_refl _) (by linarith)
        have h2 := round64_mono_nonneg 0 y (le_refl _) hy
        rw [round64_neg] at h1
        have h0 : round64 0 = 0 := by simp [round64]
        rw [h0] at h1 h2
        linarith
      · have := round64_mono_nonneg (-y) (-x) (by linarith) (by linarith)
        rw [round64_neg, round64_neg] at this
        linarith
  · intro x
    rcases le_total 0 x with hx | hx
    · exact round64_idem_nonneg x hx
    · have := round64_idem_nonneg (-x) (by linarith)
      rw [round64_neg, round64_neg] at this
      linarith

/-- The value of `roundHalfEven` is at most half a unit above its argument. -/
theorem roundHalfEven_le (q : ℚ) : ((roundHalfEven q : Int) : ℚ) ≤ q + 1 / 2 := by
  have h1 : ((⌊q⌋ : Int) : ℚ) ≤ q := Int.floor_le q
  unfold roundHalfEven
  split_ifs with ha hb hc
  · linarith
  · push_cast
    linarith
  · linarith
  · push_cast
    linarith

/-- The relative error of `round64` on a positive rational is at most `2 ^ -53`. -/
theorem round64_le (q : ℚ) (hq : 0 < q) : round64 q ≤ q * (1 + 1 / 2 ^ 53) := by
  obtain ⟨hr, -, -⟩ := round64_pos q hq
  obtain ⟨h1, -⟩ := log_bounds q hq
  have hs := roundAt_step_pos (Int.log 2 q)
  rw [hr]
  unfold roundAt
  have h2 := roundHalfEven_le (q / 2 ^ (Int.log 2 q - 52))
  have h3 : ((roundHalfEven (q / 2 ^ (Int.log 2 q - 52)) : Int) : ℚ) * 2 ^ (Int.log 2 q - 52)
      ≤ (q / 2 ^ (Int.log 2 q - 52) + 1 / 2) * 2 ^ (Int.log 2 q - 52) :=
    mul_le_mul_of_nonneg_right h2 hs.le
  have h4 : (q / 2 ^ (Int.log 2 q - 52) + 1 / 2) * 2 ^ (Int.log 2 q - 52)
      = q + 2 ^ (Int.log 2 q - 52) / 2 := by
    generalize (2 : ℚ) ^ (Int.log 2 q - 52) = s at hs
    field_simp
    ring
  rw [two_zpow_eq] at h1
  rw [h4] at h3
  have h5 : q * (1 + 1 / 2 ^ 53) = q + q / 2 ^ 53 := by ring
  rw [h5]
  have h6 : (2 : ℚ) ^ (Int.log 2 q - 52) / 2 ≤ q / 2 ^ 53 := by
    rw [div_le_div_iff₀ (by norm_num) (by norm_num)]
    nlinarith
  linarith

/-- In binary64 the time constant at ratio 1 is at most `11` times the RTT up to
two roundings. -/
theorem tkWith_round64_le (R : ℚ) (hR : 0 < R) :
    tkWith round64 R 1 ≤ 11 * R * (1 + 1 / 2 ^ 53) ^ 2 := by
  unfold tkWith
  rw [mul_one, isRounding_round64.2.2.2]
  have h1 := round64_le (10 * R) (by linarith)
  have h0 : 0 ≤ round64 (10 * R) := isRounding_round64.nonneg (by linarith)
  have h2 := round64_le (R + round64 (10 * R)) (by linarith)
  have hd : (0 : ℚ) ≤ 1 / 2 ^ 53 := by positivity
  have h3 : (R + round64 (10 * R)) * (1 + 1 / 2 ^ 53)
      ≤ (R * (1 + 1 / 2 ^ 53) + 10 * R * (1 + 1 / 2 ^ 53)) * (1 + 1 / 2 ^ 53) := by
    apply mul_le_mul_of_nonneg_right _ (by linarith)
    have : R ≤ R * (1 + 1 / 2 ^ 53) := by nlinarith
    linarith
  have h4 : (R * (1 + 1 / 2 ^ 53) + 10 * R * (1 + 1 / 2 ^ 53)) * (1 + 1 / 2 ^ 53)
      = 11 * R * (1 + 1 / 2 ^ 53) ^ 2 := by ring
  linarith

/-- In binary64, with a last RTT of 100 ms and ratio 1, the time constant is the
`double` just above `1.1`. -/
theorem tkWith_round64_tenth :
    tkWith round64 (3602879701896397 / 2 ^ 55) 1 = 4953959590107546 / 2 ^ 52 := by
  unfold tkWith
  rw [round64_ten_tenths, mul_one, round64_one, round64_tenth_add_one]

/-- One tick with a rounding after every operation: with a positive last RTT, a
ratio in `[0, 1]` and an inter-ACK gap between zero and twice the RTT, the weight
lies in `[0, 1]` and the filtered estimate of non-negative operands is
non-negative. -/
theorem filteredWith_tick_nonneg (fl : ℚ → ℚ) (h : IsRounding fl) (R ratio d e X : ℚ)
    (hR : 0 < R) (hfR : fl R = R) (h0 : 0 ≤ ratio) (h1 : ratio ≤ 1) (hd0 : 0 ≤ d)
    (hd2 : d ≤ fl (2 * R)) (he : 0 ≤ e) (hX : 0 ≤ X) :
    0 ≤ alphaWith fl (tkWith fl R ratio) d ∧ alphaWith fl (tkWith fl R ratio) d ≤ 1 ∧
      0 ≤ filteredWith fl (alphaWith fl (tkWith fl R ratio) d) e X := by
  obtain ⟨hT, -⟩ := tkWith_bounds fl h R ratio hR.le hfR h0 h1
  have hfT : fl (tkWith fl R ratio) = tkWith fl R ratio := h.2.2.2 _
  have h2T : tkWith fl R ratio ≤ fl (2 * tkWith fl R ratio) := by
    have := h.1 (show tkWith fl R ratio ≤ 2 * tkWith fl R ratio by linarith)
    rwa [hfT] at this
  have h2R : fl (2 * R) ≤ fl (2 * tkWith fl R ratio) := h.1 (by linarith)
  obtain ⟨ha0, ha1⟩ := alphaWith_range fl h (tkWith fl R ratio) d (by linarith) hd0
    (by linarith)
  exact ⟨ha0, ha1, filteredWith_nonneg fl h _ e X ha1 ha0 he hX⟩

/-- The gap that binary64 computes between acknowledgments at 0 s and 0.1 s. -/
theorem gap64_tenth : gap64 ⟨100000000⟩ ⟨0⟩ = 3602879701896397 / 2 ^ 55 := by
  unfold gap64
  have h1 : (((⟨100000000⟩ : Time).ns : ℚ) / 1000000000) = 1 / 10 := by
    show ((100000000 : Int) : ℚ) / 1000000000 = 1 / 10
    norm_num
  have h2 : (((⟨0⟩ : Time).ns : ℚ) / 1000000000) = 0 := by
    show ((0 : Int) : ℚ) / 1000000000 = 0
    norm_num
  rw [h1, h2, isRounding_round64.2.1, sub_zero, isRounding_round64.2.2.2, round64_tenth]

namespace TcpAdaptiveStart

/-- A call of `GetSsThresh` that returns leaves the estimator and the connection
state as they were, and the value returned is the same for every `bytesInFlight`. -/
theorem GetSsThresh_ok (self : TcpAdaptiveStart) (tcb : TcpSocketState)
    (b : Nat) (r : TcpAdaptiveStart × TcpSocketState × Nat)
    (h : GetSsThresh self tcb b = .ok r) :
    r.1 = self ∧ r.2.1 = tcb ∧ ∀ b2, GetSsThresh self tcb b2 = .ok (self, tcb, r.2.2) := by
  unfold GetSsThresh at h
  cases hc : castU32 self.m_currentERE with
  | error e =>
    rw [hc] at h
    cases h
  | ok c =>
    rw [hc] at h
    injection h with h
    subst h
    refine ⟨rfl, rfl, ?_⟩
    intro b2
    simp only [GetSsThresh, hc]

/-- Calls of `GetSsThresh` in a row, the first of which returns `v`, all return `v`
and leave the estimator and the connection state as they were. -/
theorem GetSsThreshRepeated_replicate (self : TcpAdaptiveStart)
    (tcb : TcpSocketState) (v : Nat)
    (h : ∀ b, GetSsThresh self tcb b = .ok (self, tcb, v)) (bs : List Nat) :
    GetSsThreshRepeated self tcb bs = .ok (self, tcb, List.replicate bs.length v) := by
  induction bs with
  | nil => rfl
  | cons b bs ih =>
    simp only [GetSsThreshRepeated, h b, ih, List.length_cons, List.replicate_succ]

end TcpAdaptiveStart

/-! ## The claims on forks, the filter and the statics -/

/-- C11 (the code at the failing input): the copy constructor leaves `m_interval`
default-constructed, so every estimator produced by `Fork` has a zero sampling
interval; a tick of such an estimator fails the assertion
`NS_ASSERT (!m_interval.IsZero ())`, and so does the first acknowledgment (with
an RTT of 100 ms) delivered to the fork of a fresh estimator, whatever the
values of the uninitialised members, the statics, the time, the connection state
and the number of packets acknowledged, as soon as the best rate converts to
`uint32_t` (as it does for a window of 10000 bytes); when it does not, the call
ends on that conversion. -/
theorem C11_forked_child_has_zero_interval (self : TcpAdaptiveStart) (acked0 : Int)
    (deltaT0 deltaT1 : Dbl) (g : Statics) (now : Time) (tcb : TcpSocketState)
    (packetsAcked : Nat) :
    (Fork self acked0 deltaT0).m_interval = ⟨0⟩ ∧
      CalculateERE (Fork self acked0 deltaT0) g tcb = .error .assertion ∧
      PktsAcked (Fork (create deltaT1) acked0 deltaT0) g now tcb packetsAcked ⟨100000000⟩
        = (match tracedDiv tcb.m_cWnd (Time.GetSeconds ⟨100000000⟩) with
          | .ok _ => .error .assertion
          | .error e => .error e) ∧
      PktsAcked (Fork (create deltaT1) acked0 deltaT0) g now { tcb with m_cWnd := 10000 }
        packetsAcked ⟨100000000⟩ = .error .assertion := by
  have hc : castU32 (Fork (create deltaT1) acked0 deltaT0).m_currentERE = .ok 0 := by
    have : (Fork (create deltaT1) acked0 deltaT0).m_currentERE = Dbl.fin 0 := Dbl.zero_def
    rw [this, castU32_zero]
  have hmin : (sampleAck (Fork (create deltaT1) acked0 deltaT0) now packetsAcked
      ⟨100000000⟩).m_minRtt = ⟨100000000⟩ := by
    simp only [sampleAck, Fork, copy, Time.IsZero, decide_True, if_true]
  have key : ∀ t : TcpSocketState,
      PktsAcked (Fork (create deltaT1) acked0 deltaT0) g now t packetsAcked ⟨100000000⟩
        = (match tracedDiv t.m_cWnd (Time.GetSeconds ⟨100000000⟩) with
          | .ok _ => .error .assertion
          | .error e => .error e) := by
    intro t
    cases hb : tracedDiv t.m_cWnd (Time.GetSeconds ⟨100000000⟩) with
    | error e =>
      exact PktsAcked_rate_fault _ g now t packetsAcked ⟨100000000⟩ (by decide) 0 hc e
        (by rw [hmin]; exact hb)
    | ok b =>
      rw [PktsAcked_unstarted _ g now t packetsAcked ⟨100000000⟩ (by decide) rfl 0 hc b
        (by rw [hmin]; exact hb)]
      rfl
  refine ⟨rfl, rfl, key tcb, ?_⟩
  rw [key { tcb with m_cWnd := 10000 }]
  have : tracedDiv ({ tcb with m_cWnd := 10000 } : TcpSocketState).m_cWnd
      (Time.GetSeconds ⟨100000000⟩) = .ok 100000 := tracedDiv_10000_100ms
  rw [this]

/-- C12 (as stated, refuted): a fresh estimator receives acknowledgments with
RTT 100 ms at the non-decreasing times 0 s, 0.1 s and 10.1 s (2, 3 and 0
packets), with a tick after the second and after the third. The run completes
and leaves `m_currentERE = -2340000/1403`, a negative estimate. -/
theorem C12_estimate_goes_negative_counterexample :
    ∃ r, run (create 0, ⟨0, 0⟩)
        [Event.ack ⟨0⟩ ⟨10000, 2000, 1000, 0⟩ 2 ⟨100000000⟩,
         Event.ack ⟨100000000⟩ ⟨10000, 2000, 1000, 0⟩ 3 ⟨100000000⟩,
         Event.tick ⟨10000, 2000, 1000, 0⟩,
         Event.ack ⟨10100000000⟩ ⟨10000, 2000, 1000, 0⟩ 0 ⟨100000000⟩,
         Event.tick ⟨10000, 2000, 1000, 0⟩] = .ok r ∧
      r.1.m_currentERE = Dbl.fin (-2340000 / 1403) ∧ (-2340000 / 1403 : ℚ) < 0 := by
  have h := run_append
    [Event.ack ⟨0⟩ ⟨10000, 2000, 1000, 0⟩ 2 ⟨100000000⟩,
     Event.ack ⟨100000000⟩ ⟨10000, 2000, 1000, 0⟩ 3 ⟨100000000⟩,
     Event.tick ⟨10000, 2000, 1000, 0⟩]
    [Event.ack ⟨10100000000⟩ ⟨10000, 2000, 1000, 0⟩ 0 ⟨100000000⟩,
     Event.tick ⟨10000, 2000, 1000, 0⟩] (create 0, ⟨0, 0⟩)
  rw [scenario_start] at h
  simp only [List.cons_append, List.nil_append, run, step, scenario_late_ack,
    scenario_late_tick_values.2.2.2.2] at h
  exact ⟨_, h, rfl, by norm_num⟩

/-- C12 (amended): from a freshly constructed estimator with finite statics
`0 ≤ u`, every run of acknowledgments and ticks that completes, in which every
acknowledgment has a positive RTT and an inter-ACK gap
`Now ().GetSeconds () - m_lastAck.GetSeconds ()` that is, as a `double`, at least
0 and at most twice `rtt.GetSeconds ()`, ends in a state whose `m_currentERE` is
a finite number `≥ 0`.  The step behind it holds with a rounding after every
operation that is monotone and exact on `0` and `1`, such as the rounding of
binary64: with a positive last RTT, a ratio `u / umax` in `[0, 1]` and a gap
between 0 and twice the RTT, the weight of a tick lies in `[0, 1]` and its
filtered estimate of non-negative operands is non-negative. -/
theorem C12_estimate_nonnegative (deltaT0 : Dbl) (g : Statics) (es : List Event)
    (r : TcpAdaptiveStart × Statics) (a m : ℚ)
    (hu : g.u = Dbl.fin a) (hm : g.umax = Dbl.fin m) (ha : 0 ≤ a)
    (hpos : ∀ t ∈ rtts es, 0 < t.ns) (hgap : gapsWithin Time.Min es)
    (hrun : run (create deltaT0, g) es = .ok r) :
    (∃ c, r.1.m_currentERE = Dbl.fin c ∧ 0 ≤ c) ∧
    (∀ (fl : ℚ → ℚ) (R ratio d e X : ℚ), IsRounding fl → 0 < R → fl R = R →
      0 ≤ ratio → ratio ≤ 1 → 0 ≤ d → d ≤ fl (2 * R) → 0 ≤ e → 0 ≤ X →
      0 ≤ alphaWith fl (tkWith fl R ratio) d ∧ alphaWith fl (tkWith fl R ratio) d ≤ 1 ∧
        0 ≤ filteredWith fl (alphaWith fl (tkWith fl R ratio) d) e X) ∧
    IsRounding round64 :=
  ⟨run_nonneg es (create deltaT0, g) r hpos hgap
    (Or.inl ⟨rfl, Dbl.zero_def, Dbl.zero_def, rfl, by show (0 : Int) < 100000000; decide, rfl,
      Dbl.zero_def, ⟨a, hu, ha⟩, ⟨m, hm⟩⟩) hrun,
    fun fl R ratio d e X hfl hR hfR h0 h1 hd0 hd2 he hX =>
      filteredWith_tick_nonneg fl hfl R ratio d e X hR hfR h0 h1 hd0 hd2 he hX,
    isRounding_round64⟩

/-- C12 (amended) applies to the run of two acknowledgments 100 ms apart (RTT
100 ms) followed by a tick: it completes and leaves a finite estimate `≥ 0`. -/
theorem C12_estimate_nonnegative_witness :
    ∃ r, run (create 0, ⟨0, 0⟩)
        [Event.ack ⟨0⟩ ⟨10000, 2000, 1000, 0⟩ 2 ⟨100000000⟩,
         Event.ack ⟨100000000⟩ ⟨10000, 2000, 1000, 0⟩ 3 ⟨100000000⟩,
         Event.tick ⟨10000, 2000, 1000, 0⟩] = .ok r ∧
      ∃ c, r.1.m_currentERE = Dbl.fin c ∧ 0 ≤ c :=
  ⟨_, scenario_start,
    (C12_estimate_nonnegative 0 ⟨0, 0⟩ _ _ 0 0 Dbl.zero_def Dbl.zero_def (le_refl _)
      (by
        intro t ht
        simp only [rtts, List.mem_cons, List.mem_nil_iff, or_false, or_self] at ht
        rw [ht]
        show (0 : Int) < 100000000
        decide)
      (by
        refine ⟨Or.inl rfl, Or.inr ⟨?_, ?_, ?_, ?_⟩, trivial⟩
        · unfold Time.GetSeconds
          simp only [Dbl.zero_def, Dbl.fin_sub_fin, Dbl.le_fin_fin, decide_eq_true_eq]
          norm_num
        · unfold Time.GetSeconds
          simp only [Dbl.two_def, Dbl.fin_sub_fin, Dbl.fin_mul_fin, Dbl.le_fin_fin,
            decide_eq_true_eq]
          norm_num
        · rw [gap64_tenth]
          norm_num
        · have h1 : (((⟨100000000⟩ : Time).ns : ℚ) / 1000000000) = 1 / 10 := by
            show ((100000000 : Int) : ℚ) / 1000000000 = 1 / 10
            norm_num
          rw [gap64_tenth, h1, round64_tenth]
          norm_num)
      scenario_start).1⟩

/-- C13: in a run of acknowledgments and ticks from a fresh estimator, the flag is
set exactly when an acknowledgment with a non-zero RTT has been delivered.  A
call of `PktsAcked` that returns leaves the flag set if it was set or the RTT is
non-zero (so the first acknowledgment that is processed sets it and no call
clears it), and a tick leaves it as it was; `GetSsThresh` and `IncreaseWindow`
assign no member of the estimator.  Once the flag is set `PktsAcked` runs no
tick: the statics, the interval, the pending tick, the estimate and the filter
history come back as they were; while it is clear, `PktsAcked` on a non-zero RTT
sets it and returns what the tick returns. -/
theorem C13_started_flag_set_once (deltaT0 : Dbl) (g : Statics) (es : List Event)
    (r : TcpAdaptiveStart × Statics) (hrun : run (create deltaT0, g) es = .ok r) :
    (r.1.flag = true ↔ ∃ t ∈ rtts es, t.ns ≠ 0) ∧
    (∀ (s : TcpAdaptiveStart) (g1 : Statics) (now : Time) (tcb : TcpSocketState) (n : Nat)
        (rtt : Time) (r1 : TcpAdaptiveStart × Statics × TcpSocketState),
      PktsAcked s g1 now tcb n rtt = .ok r1 → r1.1.flag = (s.flag || !rtt.IsZero)) ∧
    (∀ (s : TcpAdaptiveStart) (g1 : Statics) (tcb : TcpSocketState)
        (r1 : TcpAdaptiveStart × Statics),
      CalculateERE s g1 tcb = .ok r1 → r1.1.flag = s.flag) ∧
    (∀ (s : TcpAdaptiveStart) (g1 : Statics) (now : Time) (tcb : TcpSocketState) (n : Nat)
        (rtt : Time) (r1 : TcpAdaptiveStart × Statics × TcpSocketState),
      s.flag = true → PktsAcked s g1 now tcb n rtt = .ok r1 →
        r1.2.1 = g1 ∧ r1.1.m_interval = s.m_interval ∧
        r1.1.m_ereEstimateEvent = s.m_ereEstimateEvent ∧
        r1.1.m_currentERE = s.m_currentERE ∧ r1.1.m_lastERE = s.m_lastERE ∧
        r1.1.m_lastSampleERE = s.m_lastSampleERE) ∧
    (∀ (s : TcpAdaptiveStart) (g1 : Statics) (now : Time) (tcb : TcpSocketState) (n : Nat)
        (rtt : Time) (c b : Nat),
      s.flag = false → rtt.IsZero = false → castU32 s.m_currentERE = .ok c →
        tracedDiv tcb.m_cWnd (sampleAck s now n rtt).m_minRtt.GetSeconds = .ok b →
        PktsAcked s g1 now tcb n rtt =
          match CalculateERE
              { sampleAck s now n rtt with m_bestRate := Dbl.ofU32 b, flag := true } g1
              { tcb with m_ssThresh := Nat.max (2 * tcb.m_segmentSize % 2 ^ 32) c } with
          | .error e => .error e
          | .ok (s3, g3) =>
            .ok (s3, g3, { tcb with m_ssThresh := Nat.max (2 * tcb.m_segmentSize % 2 ^ 32) c })) := by
  refine ⟨?_, ?_, ?_, ?_, ?_⟩
  · have h := run_flag es (create deltaT0, g) r hrun
    rw [h]
    constructor
    · rintro (h0 | h1)
      · cases h0
      · exact h1
    · exact Or.inr
  · intro s g1 now tcb n rtt r1 h
    exact PktsAcked_flag s g1 now tcb n rtt r1 h
  · intro s g1 tcb r1 h
    exact CalculateERE_flag s g1 tcb r1 h
  · intro s g1 now tcb n rtt r1 hf h
    cases hrtt : rtt.IsZero
    · obtain ⟨b, -, h1, h2⟩ := PktsAcked_started_ok s g1 now tcb n rtt hrtt hf r1 h
      rw [h1]
      exact ⟨h2, rfl, rfl, rfl, rfl, rfl⟩
    · unfold PktsAcked at h
      rw [hrtt] at h
      simp only [if_true] at h
      cases h
      exact ⟨rfl, rfl, rfl, rfl, rfl, rfl⟩
  · intro s g1 now tcb n rtt c b hf hrtt hc hb
    exact PktsAcked_unstarted s g1 now tcb n rtt hrtt hf c hc b hb

/-- C13 applies to the run of two acknowledgments with RTTs 40 ms and 60 ms, which
completes with the flag set. -/
theorem C13_started_flag_set_once_witness :
    ∃ r, run (create 0, ⟨0, 0⟩)
        [Event.ack ⟨0⟩ ⟨14600, 2920, 1460, 0⟩ 3 ⟨40000000⟩,
         Event.ack ⟨20000000⟩ ⟨14600, 2920, 1460, 0⟩ 1 ⟨60000000⟩] = .ok r ∧
      (r.1.flag = true ↔
        ∃ t ∈ rtts [Event.ack ⟨0⟩ ⟨14600, 2920, 1460, 0⟩ 3 ⟨40000000⟩,
          Event.ack ⟨20000000⟩ ⟨14600, 2920, 1460, 0⟩ 1 ⟨60000000⟩], t.ns ≠ 0) := by
  have h1 := PktsAcked_fresh 0 ⟨0⟩ ⟨40000000⟩ ⟨14600, 2920, 1460, 0⟩ ⟨0, 0⟩ 3 4380 0 0
    Dbl.zero_def Dbl.zero_def (le_refl _) (by norm_num) (by norm_num) (by norm_num)
    (by norm_num) 365000
    (tracedDiv_exact 14600 365000 ⟨40000000⟩ (by decide) (by norm_num) (by norm_num))
    (by norm_num)
  have hrun : ∃ r, run (create 0, ⟨0, 0⟩)
      [Event.ack ⟨0⟩ ⟨14600, 2920, 1460, 0⟩ 3 ⟨40000000⟩,
       Event.ack ⟨20000000⟩ ⟨14600, 2920, 1460, 0⟩ 1 ⟨60000000⟩] = .ok r := by
    simp only [run, step, h1]
    rw [PktsAcked_started _ _ _ _ _ _ (by decide) rfl 0 castU32_zero 365000
      (tracedDiv_exact 14600 365000 ⟨40000000⟩ (by decide) (by norm_num) (by norm_num))]
    exact ⟨_, rfl⟩
  obtain ⟨r, hr⟩ := hrun
  exact ⟨r, hr, (C13_started_flag_set_once 0 ⟨0, 0⟩ _ r hr).1⟩

/-- C14: `GetSsThresh` is a pure read.  Its outcome does not depend on
`bytesInFlight`; a call that returns leaves every field of the estimator and of
the connection state as it found them, so any number of calls in a row, each on
the state the previous one left and with any `bytesInFlight` arguments, return
the same value each time and end in the state they started from. -/
theorem C14_getSsThresh_pure_read (self : TcpAdaptiveStart) (tcb : TcpSocketState)
    (bytesInFlight : Nat) (r : TcpAdaptiveStart × TcpSocketState × Nat)
    (h : GetSsThresh self tcb bytesInFlight = .ok r) :
    r.1 = self ∧ r.2.1 = tcb ∧
    (∀ b1 b2, GetSsThresh self tcb b1 = GetSsThresh self tcb b2) ∧
    (∀ b, GetSsThresh r.1 r.2.1 b = .ok (self, tcb, r.2.2)) ∧
    (∀ bs : List Nat, GetSsThreshRepeated self tcb bs
      = .ok (self, tcb, List.replicate bs.length r.2.2)) := by
  obtain ⟨h1, h2, h3⟩ := GetSsThresh_ok self tcb bytesInFlight r h
  refine ⟨h1, h2, fun b1 b2 => by rw [h3 b1, h3 b2], ?_, ?_⟩
  · intro b
    rw [h1, h2]
    exact h3 b
  · exact GetSsThreshRepeated_replicate self tcb r.2.2 h3

/-- C14 applies to an estimator whose estimate is 3000.7 bytes per second on a
connection with segments of 1000 bytes: three calls with `bytesInFlight` 0, 5000
and 123456 each return 3000 and leave both states untouched. -/
theorem C14_getSsThresh_pure_read_witness :
    GetSsThresh { create 0 with m_currentERE := Dbl.fin (30007 / 10) }
        ⟨10000, 65535, 1000, 0⟩ 0
      = .ok ({ create 0 with m_currentERE := Dbl.fin (30007 / 10) },
          ⟨10000, 65535, 1000, 0⟩, 3000) ∧
    GetSsThreshRepeated { create 0 with m_currentERE := Dbl.fin (30007 / 10) }
        ⟨10000, 65535, 1000, 0⟩ [0, 5000, 123456]
      = .ok ({ create 0 with m_currentERE := Dbl.fin (30007 / 10) },
          ⟨10000, 65535, 1000, 0⟩, [3000, 3000, 3000]) := by
  have hc : castU32 (Dbl.fin (30007 / 10)) = .ok 3000 := by
    have h : ⌊(30007 / 10 : ℚ)⌋₊ = 3000 := by
      rw [Nat.floor_eq_iff (by norm_num)]
      norm_num
    rw [castU32_fin _ (by norm_num) (by norm_num), h]
  have hg : GetSsThresh { create 0 with m_currentERE := Dbl.fin (30007 / 10) }
      ⟨10000, 65535, 1000, 0⟩ 0
    = .ok ({ create 0 with m_currentERE := Dbl.fin (30007 / 10) },
        ⟨10000, 65535, 1000, 0⟩, 3000) := by
    unfold GetSsThresh
    simp only [hc]
    rfl
  exact ⟨hg, (C14_getSsThresh_pure_read _ _ 0 _ hg).2.2.2.2 [0, 5000, 123456]⟩

/-- C16 (the code at the failing input): a fresh estimator, with the statics at
zero, whose first acknowledgment carries `packetsAcked = 0` and an RTT of 50 ms.
In its first tick, whatever the best rate `b`, the instantaneous rate equals the
previous raw sample 0, so `u` and `umax` stay 0 and the ratio `u / umax` is
`0 / 0 = NaN`, not zero: `tk` is `NaN` instead of `0.05`, the filtered estimate
and the candidate interval are `NaN`, and neither the tick nor `PktsAcked`
yields a state. -/
theorem C16_zero_peak_ratio_is_nan (deltaT0 : Dbl) (now : Time) (tcb : TcpSocketState)
    (b : Nat) :
    nextUmax
        { m_currentERE := 0, m_bestRate := Dbl.ofU32 b,
          m_interval := ⟨100000000⟩, m_lastSampleERE := 0, m_lastERE := 0,
          m_minRtt := ⟨50000000⟩, m_Rtt := ⟨50000000⟩, m_ackedSinceT := 0, m_lastAck := now,
          m_deltaT := 0, flag := true, m_ereEstimateEvent := none } ⟨0, 0⟩ tcb = Dbl.fin 0 ∧
      tk
        { m_currentERE := 0, m_bestRate := Dbl.ofU32 b,
          m_interval := ⟨100000000⟩, m_lastSampleERE := 0, m_lastERE := 0,
          m_minRtt := ⟨50000000⟩, m_Rtt := ⟨50000000⟩, m_ackedSinceT := 0, m_lastAck := now,
          m_deltaT := 0, flag := true, m_ereEstimateEvent := none } ⟨0, 0⟩ tcb = Dbl.nan ∧
      filteredERE
        { m_currentERE := 0, m_bestRate := Dbl.ofU32 b,
          m_interval := ⟨100000000⟩, m_lastSampleERE := 0, m_lastERE := 0,
          m_minRtt := ⟨50000000⟩, m_Rtt := ⟨50000000⟩, m_ackedSinceT := 0, m_lastAck := now,
          m_deltaT := 0, flag := true, m_ereEstimateEvent := none } ⟨0, 0⟩ tcb = Dbl.nan ∧
      nextIntervalSeconds
        { m_currentERE := 0, m_bestRate := Dbl.ofU32 b,
          m_interval := ⟨100000000⟩, m_lastSampleERE := 0, m_lastERE := 0,
          m_minRtt := ⟨50000000⟩, m_Rtt := ⟨50000000⟩, m_ackedSinceT := 0, m_lastAck := now,
          m_deltaT := 0, flag := true, m_ereEstimateEvent := none } ⟨0, 0⟩ tcb = Dbl.nan ∧
      CalculateERE
        { m_currentERE := 0, m_bestRate := Dbl.ofU32 b,
          m_interval := ⟨100000000⟩, m_lastSampleERE := 0, m_lastERE := 0,
          m_minRtt := ⟨50000000⟩, m_Rtt := ⟨50000000⟩, m_ackedSinceT := 0, m_lastAck := now,
          m_deltaT := 0, flag := true, m_ereEstimateEvent := none } ⟨0, 0⟩ tcb
        = .error .conversion ∧
      PktsAcked (create deltaT0) ⟨0, 0⟩ now tcb 0 ⟨50000000⟩ = .error .conversion := by
  have key : ∀ (t : TcpSocketState) (b1 : Nat),
      nextU
        { m_currentERE := 0, m_bestRate := Dbl.ofU32 b1,
          m_interval := ⟨100000000⟩, m_lastSampleERE := 0, m_lastERE := 0,
          m_minRtt := ⟨50000000⟩, m_Rtt := ⟨50000000⟩, m_ackedSinceT := 0, m_lastAck := now,
          m_deltaT := 0, flag := true, m_ereEstimateEvent := none } ⟨0, 0⟩ t = Dbl.fin 0 ∧
      nextUmax
        { m_currentERE := 0, m_bestRate := Dbl.ofU32 b1,
          m_interval := ⟨100000000⟩, m_lastSampleERE := 0, m_lastERE := 0,
          m_minRtt := ⟨50000000⟩, m_Rtt := ⟨50000000⟩, m_ackedSinceT := 0, m_lastAck := now,
          m_deltaT := 0, flag := true, m_ereEstimateEvent := none } ⟨0, 0⟩ t = Dbl.fin 0 :=
    fun t _ => tick_idle_statics _ t (show (100000000 : Int) ≠ 0 by decide) rfl Dbl.zero_def
  obtain ⟨hu, hm⟩ := key tcb b
  obtain ⟨htk, -, hf, hn⟩ := tick_zero_umax _ _ _ hu hm
  refine ⟨hm, htk, hf, hn, CalculateERE_zero_umax _ _ _ (by rfl) hu hm, ?_⟩
  have hc : castU32 (create deltaT0).m_currentERE = .ok 0 := by
    have : (create deltaT0).m_currentERE = Dbl.fin 0 := Dbl.zero_def
    rw [this, castU32_zero]
  cases hb : tracedDiv tcb.m_cWnd (sampleAck (create deltaT0) now 0 ⟨50000000⟩).m_minRtt.GetSeconds
    with
  | error e =>
    rw [PktsAcked_rate_fault (create deltaT0) ⟨0, 0⟩ now tcb 0 ⟨50000000⟩ (by decide) 0 hc e hb,
      tracedDiv_error _ _ _ hb]
  | ok b1 =>
    rw [PktsAcked_unstarted (create deltaT0) ⟨0, 0⟩ now tcb 0 ⟨50000000⟩ (by decide) rfl 0 hc
      b1 hb]
    have hw : wrapInt32 (0 + ((0 : Nat) : Int)) = 0 := by decide
    have hsamp : ({ sampleAck (create deltaT0) now 0 ⟨50000000⟩ with
          m_bestRate := Dbl.ofU32 b1, flag := true } : TcpAdaptiveStart) =
        { m_currentERE := 0, m_bestRate := Dbl.ofU32 b1,
          m_interval := ⟨100000000⟩, m_lastSampleERE := 0, m_lastERE := 0,
          m_minRtt := ⟨50000000⟩, m_Rtt := ⟨50000000⟩, m_ackedSinceT := 0, m_lastAck := now,
          m_deltaT := 0, flag := true, m_ereEstimateEvent := none } := by
      simp only [sampleAck, create, Time.IsZero, decide_True, if_true, hw]
    rw [hsamp]
    obtain ⟨hu2, hm2⟩ :=
      key { tcb with m_ssThresh := Nat.max (2 * tcb.m_segmentSize % 2 ^ 32) 0 } b1
    rw [CalculateERE_zero_umax _ _ _ (by rfl) hu2 hm2]

/-- C17: on a non-zero RTT the `minRtt` that `PktsAcked` passes to
`CalculateBestRate` is non-zero, whatever the estimator state, so that call
passes its assertion - it returns as soon as the best rate converts to
`uint32_t` and never ends on the assertion - and `PktsAcked` as a whole fails no
assertion when the interval is non-zero on entry; on a zero RTT `PktsAcked`
returns before reaching `CalculateBestRate`. -/
theorem C17_best_rate_assertion_holds (self : TcpAdaptiveStart) (g : Statics) (now : Time)
    (tcb : TcpSocketState) (packetsAcked : Nat) (rtt : Time) (hrtt : rtt.ns ≠ 0) :
    (sampleAck self now packetsAcked rtt).m_minRtt.ns ≠ 0 ∧
      (∀ (t : TcpSocketState) (b : Nat),
        tracedDiv t.m_cWnd (sampleAck self now packetsAcked rtt).m_minRtt.GetSeconds = .ok b →
        CalculateBestRate (sampleAck self now packetsAcked rtt)
          (sampleAck self now packetsAcked rtt).m_minRtt t =
        .ok { sampleAck self now packetsAcked rtt with m_bestRate := Dbl.ofU32 b }) ∧
      (∀ t : TcpSocketState,
        CalculateBestRate (sampleAck self now packetsAcked rtt)
          (sampleAck self now packetsAcked rtt).m_minRtt t ≠ .error .assertion) ∧
      (self.m_interval.ns ≠ 0 →
        PktsAcked self g now tcb packetsAcked rtt ≠ .error .assertion) ∧
      PktsAcked self g now tcb packetsAcked ⟨0⟩ = .ok (self, g, tcb) := by
  have hz : rtt.IsZero = false := by simp [Time.IsZero, hrtt]
  have hm := sampleAck_minRtt_ne_zero self now packetsAcked rtt hz
  refine ⟨?_, ?_, ?_, ?_, rfl⟩
  · intro h0
    simp [Time.IsZero, h0] at hm
  · intro t b hb
    exact CalculateBestRate_ok _ _ t b hm hb
  · intro t h
    simp only [CalculateBestRate, hm, Bool.false_eq_true, if_false] at h
    cases hb : tracedDiv t.m_cWnd (sampleAck self now packetsAcked rtt).m_minRtt.GetSeconds with
    | error e =>
      rw [hb] at h
      have := tracedDiv_error _ _ _ hb
      subst this
      cases h
    | ok b =>
      rw [hb] at h
      cases h
  · intro hI h
    have hIz : self.m_interval.IsZero = false := by simp [Time.IsZero, hI]
    have := PktsAcked_error self g now tcb packetsAcked rtt _ hz hIz h
    cases this

/-- C17 applies to a first acknowledgment of 2 packets with RTT 100 ms on a fresh
estimator. -/
theorem C17_best_rate_assertion_holds_witness :
    (sampleAck (create 0) ⟨0⟩ 2 ⟨100000000⟩).m_minRtt.ns ≠ 0 ∧
      (∀ (t : TcpSocketState) (b : Nat),
        tracedDiv t.m_cWnd (sampleAck (create 0) ⟨0⟩ 2 ⟨100000000⟩).m_minRtt.GetSeconds
          = .ok b →
        CalculateBestRate (sampleAck (create 0) ⟨0⟩ 2 ⟨100000000⟩)
          (sampleAck (create 0) ⟨0⟩ 2 ⟨100000000⟩).m_minRtt t =
        .ok { sampleAck (create 0) ⟨0⟩ 2 ⟨100000000⟩ with m_bestRate := Dbl.ofU32 b }) ∧
      (∀ t : TcpSocketState,
        CalculateBestRate (sampleAck (create 0) ⟨0⟩ 2 ⟨100000000⟩)
          (sampleAck (create 0) ⟨0⟩ 2 ⟨100000000⟩).m_minRtt t ≠ .error .assertion) ∧
      ((create 0).m_interval.ns ≠ 0 →
        PktsAcked (create 0) ⟨0, 0⟩ ⟨0⟩ ⟨10000, 2000, 1000, 0⟩ 2 ⟨100000000⟩
          ≠ .error .assertion) ∧
      PktsAcked (create 0) ⟨0, 0⟩ ⟨0⟩ ⟨10000, 2000, 1000, 0⟩ 2 ⟨0⟩
        = .ok (create 0, ⟨0, 0⟩, ⟨10000, 2000, 1000, 0⟩) :=
  C17_best_rate_assertion_holds (create 0) ⟨0, 0⟩ ⟨0⟩ ⟨10000, 2000, 1000, 0⟩ 2 ⟨100000000⟩
    (by decide)

/-- C18 (as stated, refuted): a first acknowledgment with `packetsAcked = 4194304`,
`segmentSize = 1024` and RTT 100 ms on a fresh estimator. The 32-bit product
`4194304 * 1024` wraps to 0, so the instantaneous rate of the first tick is 0,
`u` and `umax` stay 0, `tk` and `alpha` are `NaN` rather than non-zero and 1, and
the estimate computed by the tick is `NaN`, not 0; the call yields no state. -/
theorem C18_first_tick_not_zero_counterexample :
    instantaneousERE
        { m_currentERE := 0, m_bestRate := Dbl.ofU32 100000,
          m_interval := ⟨100000000⟩, m_lastSampleERE := 0, m_lastERE := 0,
          m_minRtt := ⟨100000000⟩, m_Rtt := ⟨100000000⟩, m_ackedSinceT := 4194304,
          m_lastAck := ⟨0⟩, m_deltaT := 0, flag := true, m_ereEstimateEvent := none }
        ⟨10000, 2048, 1024, 0⟩ = Dbl.fin 0 ∧
      alpha
        { m_currentERE := 0, m_bestRate := Dbl.ofU32 100000,
          m_interval := ⟨100000000⟩, m_lastSampleERE := 0, m_lastERE := 0,
          m_minRtt := ⟨100000000⟩, m_Rtt := ⟨100000000⟩, m_ackedSinceT := 4194304,
          m_lastAck := ⟨0⟩, m_deltaT := 0, flag := true, m_ereEstimateEvent := none }
        ⟨0, 0⟩ ⟨10000, 2048, 1024, 0⟩ = Dbl.nan ∧
      filteredERE
        { m_currentERE := 0, m_bestRate := Dbl.ofU32 100000,
          m_interval := ⟨100000000⟩, m_lastSampleERE := 0, m_lastERE := 0,
          m_minRtt := ⟨100000000⟩, m_Rtt := ⟨100000000⟩, m_ackedSinceT := 4194304,
          m_lastAck := ⟨0⟩, m_deltaT := 0, flag := true, m_ereEstimateEvent := none }
        ⟨0, 0⟩ ⟨10000, 2048, 1024, 0⟩ = Dbl.nan ∧
      PktsAcked (create 0) ⟨0, 0⟩ ⟨0⟩ ⟨10000, 2048, 1024, 0⟩ 4194304 ⟨100000000⟩
        = .error .conversion := by
  obtain ⟨hi, hu, hm⟩ := tick_zero_sample_statics
    { m_currentERE := 0, m_bestRate := Dbl.ofU32 100000,
      m_interval := ⟨100000000⟩, m_lastSampleERE := 0, m_lastERE := 0,
      m_minRtt := ⟨100000000⟩, m_Rtt := ⟨100000000⟩, m_ackedSinceT := 4194304,
      m_lastAck := ⟨0⟩, m_deltaT := 0, flag := true, m_ereEstimateEvent := none }
    ⟨10000, 2048, 1024, 0⟩ (show (100000000 : Int) ≠ 0 by decide) (by decide) Dbl.zero_def
  obtain ⟨-, hal, hf, -⟩ := tick_zero_umax _ _ _ hu hm
  refine ⟨hi, hal, hf, ?_⟩
  have hc : castU32 (create 0).m_currentERE = .ok 0 := by
    have : (create 0).m_currentERE = Dbl.fin 0 := Dbl.zero_def
    rw [this, castU32_zero]
  rw [PktsAcked_unstarted (create 0) ⟨0, 0⟩ ⟨0⟩ ⟨10000, 2048, 1024, 0⟩ 4194304 ⟨100000000⟩
    (by decide) rfl 0 hc 100000 (by rw [sampleAck_create_minRtt]; exact tracedDiv_10000_100ms)]
  have hw : wrapInt32 (0 + ((4194304 : Nat) : Int)) = 4194304 := by decide
  have hsamp : ({ sampleAck (create 0) ⟨0⟩ 4194304 ⟨100000000⟩ with
        m_bestRate := Dbl.ofU32 100000, flag := true } : TcpAdaptiveStart) =
      { m_currentERE := 0, m_bestRate := Dbl.ofU32 100000,
        m_interval := ⟨100000000⟩, m_lastSampleERE := 0, m_lastERE := 0,
        m_minRtt := ⟨100000000⟩, m_Rtt := ⟨100000000⟩, m_ackedSinceT := 4194304,
        m_lastAck := ⟨0⟩, m_deltaT := 0, flag := true, m_ereEstimateEvent := none } := by
    simp only [sampleAck, create, Time.IsZero, decide_True, if_true, hw]
  rw [hsamp]
  obtain ⟨-, hu2, hm2⟩ := tick_zero_sample_statics
    { m_currentERE := 0, m_bestRate := Dbl.ofU32 100000,
      m_interval := ⟨100000000⟩, m_lastSampleERE := 0, m_lastERE := 0,
      m_minRtt := ⟨100000000⟩, m_Rtt := ⟨100000000⟩, m_ackedSinceT := 4194304,
      m_lastAck := ⟨0⟩, m_deltaT := 0, flag := true, m_ereEstimateEvent := none }
    { (⟨10000, 2048, 1024, 0⟩ : TcpSocketState) with
      m_ssThresh := Nat.max (2 * (⟨10000, 2048, 1024, 0⟩ : TcpSocketState).m_segmentSize
        % 2 ^ 32) 0 }
    (show (100000000 : Int) ≠ 0 by decide) (by decide) Dbl.zero_def
  rw [CalculateERE_zero_umax _ _ _ (by rfl) hu2 hm2]

/-- C18 (amended): a tick that completes, entered with a zero inter-ACK gap and a
finite non-zero time constant, uses `alpha = 1` and leaves `m_currentERE` equal
to the previous filtered estimate. On a fresh estimator with finite statics
`0 ≤ u`, a first acknowledgment with a positive representable RTT, a non-zero
32-bit product of `packetsAcked` and `segmentSize` and a best rate
`uint32_t (cWnd / rtt)` that is defined and non-zero returns with the started
flag set and `m_currentERE = 0`; and every run that continues with ticks, and
with acknowledgments arriving at that same time (positive representable RTT,
best rate defined and non-zero), completes with `m_currentERE = 0`. -/
theorem C18_zero_gap_keeps_estimate (deltaT0 : Dbl) (g : Statics) (now rtt : Time)
    (tcb : TcpSocketState) (n b : Nat) (es : List Event) (u0 m : ℚ)
    (hgu : g.u = Dbl.fin u0) (hgm : g.umax = Dbl.fin m) (hu0 : 0 ≤ u0)
    (hP : 0 < n % 2 ^ 32 * tcb.m_segmentSize % 2 ^ 32)
    (hrtt : 0 < rtt.ns) (hr63 : rtt.ns < 2 ^ 63)
    (hb : tracedDiv tcb.m_cWnd rtt.GetSeconds = .ok b) (hb0 : 0 < b)
    (hes : staysQuiet now rtt es) :
    (∀ (self : TcpAdaptiveStart) (g1 : Statics) (tcb1 : TcpSocketState) (T : ℚ)
        (r : TcpAdaptiveStart × Statics),
        tk self g1 tcb1 = Dbl.fin T → T ≠ 0 → self.m_deltaT = Dbl.fin 0 →
        CalculateERE self g1 tcb1 = .ok r →
        alpha self g1 tcb1 = Dbl.fin 1 ∧ r.1.m_currentERE = self.m_lastERE) ∧
      (∃ r1, PktsAcked (create deltaT0) g now tcb n rtt = .ok r1 ∧ r1.1.flag = true ∧
        r1.1.m_currentERE = Dbl.fin 0) ∧
      ∃ r, run (create deltaT0, g) (Event.ack now tcb n rtt :: es) = .ok r ∧
        r.1.m_currentERE = Dbl.fin 0 := by
  have h1 := PktsAcked_fresh deltaT0 now rtt tcb g n _ u0 m hgu hgm hu0 rfl hP hrtt hr63 b hb hb0
  have hPq : (0 : ℚ) < ((n % 2 ^ 32 * tcb.m_segmentSize % 2 ^ 32 : Nat) : ℚ) := by
    exact_mod_cast hP
  have hU : (0 : ℚ) < 3 / 5 * u0
      + 2 / 5 * (((n % 2 ^ 32 * tcb.m_segmentSize % 2 ^ 32 : Nat) : ℚ) / (1 / 10)) := by
    have : (0 : ℚ) < ((n % 2 ^ 32 * tcb.m_segmentSize % 2 ^ 32 : Nat) : ℚ) / (1 / 10) := by
      positivity
    linarith
  refine ⟨?_, ⟨_, h1, rfl, rfl⟩, ?_⟩
  · intro self g1 tcb1 T r htk hT hd hr
    obtain ⟨hI, hc, -⟩ := CalculateERE_ok self g1 tcb1 r hr
    obtain ⟨hal, hf⟩ := tick_zero_gap self g1 tcb1 T htk hT hd hI
    exact ⟨hal, by rw [hc, hf]⟩
  · have hq : QuietInv now rtt
        { m_currentERE := Dbl.fin 0
          m_bestRate := Dbl.ofU32 b
          m_interval := if rtt.ns < 10000000 then ⟨10000000⟩ else rtt
          m_lastSampleERE :=
            Dbl.fin (((n % 2 ^ 32 * tcb.m_segmentSize % 2 ^ 32 : Nat) : ℚ) / (1 / 10))
          m_lastERE := Dbl.fin 0
          m_minRtt := rtt
          m_Rtt := rtt
          m_ackedSinceT := 0
          m_lastAck := now
          m_deltaT := 0
          flag := true
          m_ereEstimateEvent := some (if rtt.ns < 10000000 then ⟨10000000⟩ else rtt) }
        { u := Dbl.fin (3 / 5 * u0
            + 2 / 5 * (((n % 2 ^ 32 * tcb.m_segmentSize % 2 ^ 32 : Nat) : ℚ) / (1 / 10)))
          umax := Dbl.fin (if m < 3 / 5 * u0
              + 2 / 5 * (((n % 2 ^ 32 * tcb.m_segmentSize % 2 ^ 32 : Nat) : ℚ) / (1 / 10))
            then 3 / 5 * u0
              + 2 / 5 * (((n % 2 ^ 32 * tcb.m_segmentSize % 2 ^ 32 : Nat) : ℚ) / (1 / 10))
            else m) } := by
      refine ⟨rfl, rfl, rfl, Dbl.zero_def, ⟨b, rfl, hb0⟩, hrtt, hr63, rfl, hrtt.ne', ?_,
        ⟨_, rfl⟩, ⟨_, rfl, hU.le⟩, ⟨_, rfl, ?_⟩, rfl⟩
      · show 0 < (if rtt.ns < 10000000 then (⟨10000000⟩ : Time) else rtt).ns
        split_ifs
        · show (0 : Int) < 10000000
          decide
        · exact hrtt
      · split_ifs with hlt
        · exact hU
        · exact lt_of_lt_of_le hU (not_lt.mp hlt)
    obtain ⟨r, hr, hc⟩ := run_quiet now es rtt (_, _) hq hes
    refine ⟨r, ?_, hc⟩
    simp only [run, step, h1]
    exact hr

/-- C18 (amended) applies to a first acknowledgment of 2 packets of 1000 bytes
with RTT 100 ms on a window of 10000 bytes, followed by two ticks. -/
theorem C18_zero_gap_keeps_estimate_witness :
    ∃ r, run (create 0, ⟨0, 0⟩)
        [Event.ack ⟨0⟩ ⟨10000, 2000, 1000, 0⟩ 2 ⟨100000000⟩,
         Event.tick ⟨10000, 2000, 1000, 0⟩, Event.tick ⟨10000, 2000, 1000, 0⟩] = .ok r ∧
      r.1.m_currentERE = Dbl.fin 0 :=
  (C18_zero_gap_keeps_estimate 0 ⟨0, 0⟩ ⟨0⟩ ⟨100000000⟩ ⟨10000, 2000, 1000, 0⟩ 2 100000
    [Event.tick ⟨10000, 2000, 1000, 0⟩, Event.tick ⟨10000, 2000, 1000, 0⟩] 0 0
    Dbl.zero_def Dbl.zero_def (le_refl _) (by decide)
    (show (0 : Int) < 100000000 by decide) (show (100000000 : Int) < 2 ^ 63 by decide)
    tracedDiv_10000_100ms (by decide) trivial).2.2

/-- C19 (as stated, refuted): the upper end `11 × lastRtt` does not survive the
rounding of `double` arithmetic.  In the first tick of an estimator that has
received 2 packets of 1000 bytes with RTT 100 ms the statics are updated to
`u = umax = 8000`, so the ratio is 1.  In binary64 `m_Rtt.GetSeconds ()` is the
`double` nearest to `0.1`, `3602879701896397 / 2^55`, and the time constant
`m_Rtt.GetSeconds () + 10 * m_Rtt.GetSeconds () * 1` evaluates to
`4953959590107546 / 2^52 = 1.100000000000000088...`, which is greater than
eleven times 100 ms and greater than eleven times that `double`. -/
theorem C19_tk_exceeds_eleven_rtt_counterexample :
    nextU
        { m_currentERE := 0, m_bestRate := Dbl.ofU32 100000,
          m_interval := ⟨100000000⟩, m_lastSampleERE := 0, m_lastERE := 0,
          m_minRtt := ⟨100000000⟩, m_Rtt := ⟨100000000⟩, m_ackedSinceT := 2, m_lastAck := ⟨0⟩,
          m_deltaT := 0, flag := true, m_ereEstimateEvent := none }
        ⟨0, 0⟩ ⟨10000, 2000, 1000, 0⟩ = Dbl.fin 8000 ∧
      nextUmax
        { m_currentERE := 0, m_bestRate := Dbl.ofU32 100000,
          m_interval := ⟨100000000⟩, m_lastSampleERE := 0, m_lastERE := 0,
          m_minRtt := ⟨100000000⟩, m_Rtt := ⟨100000000⟩, m_ackedSinceT := 2, m_lastAck := ⟨0⟩,
          m_deltaT := 0, flag := true, m_ereEstimateEvent := none }
        ⟨0, 0⟩ ⟨10000, 2000, 1000, 0⟩ = Dbl.fin 8000 ∧
      Time.GetSeconds ⟨100000000⟩ = Dbl.fin (1 / 10) ∧
      round64 (1 / 10) = 3602879701896397 / 2 ^ 55 ∧
      tkWith round64 (3602879701896397 / 2 ^ 55) (8000 / 8000) = 4953959590107546 / 2 ^ 52 ∧
      (11 * (1 / 10) : ℚ) < 4953959590107546 / 2 ^ 52 ∧
      (11 * (3602879701896397 / 2 ^ 55) : ℚ) < 4953959590107546 / 2 ^ 52 := by
  obtain ⟨-, hnu, hnm, -, -, -⟩ := tick_values
    { m_currentERE := 0, m_bestRate := Dbl.ofU32 100000,
      m_interval := ⟨100000000⟩, m_lastSampleERE := 0, m_lastERE := 0,
      m_minRtt := ⟨100000000⟩, m_Rtt := ⟨100000000⟩, m_ackedSinceT := 2, m_lastAck := ⟨0⟩,
      m_deltaT := 0, flag := true, m_ereEstimateEvent := none }
    ⟨0, 0⟩ ⟨10000, 2000, 1000, 0⟩
    0 0 0 0 0 20000 8000 8000 (11 / 10) 1 0
    (by decide) Dbl.zero_def Dbl.zero_def Dbl.zero_def Dbl.zero_def Dbl.zero_def
    (by norm_num [Int.toNat])
    (by rw [abs_of_pos (by norm_num)]; norm_num) (by norm_num) (by norm_num) (by norm_num)
    (by norm_num) (by norm_num) (by norm_num)
  refine ⟨hnu, hnm, ?_, round64_tenth, ?_, by norm_num, by norm_num⟩
  · unfold Time.GetSeconds
    norm_num
  · rw [div_self (by norm_num)]
    exact tkWith_round64_tenth

/-- C19 (amended): a tick that completes, entered with finite statics and
`0 ≤ u`, leaves finite statics `0 ≤ u ≤ umax` with `umax` positive and not
smaller than before, so the ratio `u / umax` it used lies in `[0, 1]`, and with a
positive last RTT its time constant `tk` lies between the RTT and the value the
same expression takes at ratio 1.  With a rounding after every operation that is
monotone and exact on `0` and `1` the time constant still lies between the RTT
and its value at ratio 1; for the rounding of binary64 that value is at most
`11 × RTT × (1 + 2^-53)^2`.  Starting from `u = umax = 0`, every run of
acknowledgments and ticks from a fresh estimator that completes ends with finite
statics `0 ≤ u ≤ umax`. -/
theorem C19_volatility_accumulators_ordered (self : TcpAdaptiveStart) (g : Statics)
    (tcb : TcpSocketState) (r : TcpAdaptiveStart × Statics) (a m : ℚ)
    (hu : g.u = Dbl.fin a) (hm : g.umax = Dbl.fin m) (h0 : 0 ≤ a)
    (h : CalculateERE self g tcb = .ok r) :
    (∃ U M, r.2.u = Dbl.fin U ∧ r.2.umax = Dbl.fin M ∧ 0 ≤ U ∧ U ≤ M ∧ m ≤ M ∧ 0 < M ∧
      0 ≤ U / M ∧ U / M ≤ 1 ∧
      tk self g tcb = Dbl.fin (tkWith id ((self.m_Rtt.ns : ℚ) / 1000000000) (U / M)) ∧
      (0 < self.m_Rtt.ns →
        (self.m_Rtt.ns : ℚ) / 1000000000
            ≤ tkWith id ((self.m_Rtt.ns : ℚ) / 1000000000) (U / M) ∧
          tkWith id ((self.m_Rtt.ns : ℚ) / 1000000000) (U / M)
            ≤ tkWith id ((self.m_Rtt.ns : ℚ) / 1000000000) 1)) ∧
    (∀ (fl : ℚ → ℚ) (R ratio : ℚ), IsRounding fl → 0 ≤ R → fl R = R → 0 ≤ ratio → ratio ≤ 1 →
      R ≤ tkWith fl R ratio ∧ tkWith fl R ratio ≤ tkWith fl R 1) ∧
    (IsRounding round64 ∧
      ∀ R : ℚ, 0 < R → tkWith round64 R 1 ≤ 11 * R * (1 + 1 / 2 ^ 53) ^ 2) ∧
    (∀ (deltaT0 : Dbl) (es : List Event) (r1 : TcpAdaptiveStart × Statics),
      run (create deltaT0, ⟨0, 0⟩) es = .ok r1 →
      ∃ U M, r1.2.u = Dbl.fin U ∧ r1.2.umax = Dbl.fin M ∧ 0 ≤ U ∧ U ≤ M) := by
  refine ⟨?_, ?_, ⟨isRounding_round64, tkWith_round64_le⟩, ?_⟩
  · obtain ⟨U, M, hnu, hnm, h3, h4, h5, h6, h7, h8⟩ :=
      CalculateERE_statics self g tcb r a m hu hm h0 h
    have hr0 : 0 ≤ U / M := div_nonneg h5 h8.le
    have hr1 : U / M ≤ 1 := (div_le_one h8).mpr h6
    refine ⟨U, M, h3, h4, h5, h6, h7, h8, hr0, hr1, ?_, ?_⟩
    · unfold tk
      rw [hnu, hnm, Dbl.fin_div_fin _ _ h8.ne']
      simp only [Time.GetSeconds, Dbl.ten_def, Dbl.fin_mul_fin, Dbl.fin_add_fin, tkWith, id]
    · intro hR
      have hRq : (0 : ℚ) ≤ (self.m_Rtt.ns : ℚ) / 1000000000 := by
        have : (0 : ℚ) < (self.m_Rtt.ns : ℚ) := by exact_mod_cast hR
        positivity
      exact tkWith_bounds id isRounding_id _ _ hRq rfl hr0 hr1
  · intro fl R ratio hfl hR hfR hr0 hr1
    exact tkWith_bounds fl hfl R ratio hR hfR hr0 hr1
  · intro deltaT0 es r1 hrun
    obtain ⟨U, M, k3, k4, k5, k6, -⟩ :=
      run_statics es (create deltaT0, ⟨0, 0⟩) r1 0 0 Dbl.zero_def Dbl.zero_def (le_refl _)
        (le_refl _) hrun
    exact ⟨U, M, k3, k4, k5, k6⟩

/-- C19 (amended) applies to the first tick of an estimator that has received 2
packets of 1000 bytes with RTT 100 ms, which completes. -/
theorem C19_volatility_accumulators_ordered_witness :
    ∃ r, CalculateERE
        { m_currentERE := 0, m_bestRate := Dbl.ofU32 100000,
          m_interval := ⟨100000000⟩, m_lastSampleERE := 0, m_lastERE := 0,
          m_minRtt := ⟨100000000⟩, m_Rtt := ⟨100000000⟩, m_ackedSinceT := 2, m_lastAck := ⟨0⟩,
          m_deltaT := 0, flag := true, m_ereEstimateEvent := none }
        ⟨0, 0⟩ ⟨10000, 2000, 1000, 0⟩ = .ok r ∧
      ∃ U M, r.2.u = Dbl.fin U ∧ r.2.umax = Dbl.fin M ∧ 0 ≤ U ∧ U ≤ M ∧ 0 < M := by
  have h := firstAck_tick 2 ⟨0⟩ ⟨100000000⟩ ⟨10000, 2000, 1000, 0⟩ ⟨0, 0⟩ 2000 0 0
    Dbl.zero_def Dbl.zero_def (le_refl _) (by decide) (by norm_num) (by norm_num) (by norm_num)
    100000 (by norm_num)
  obtain ⟨⟨U, M, h3, h4, h5, h6, -, h8, -⟩, -⟩ :=
    C19_volatility_accumulators_ordered _ ⟨0, 0⟩ ⟨10000, 2000, 1000, 0⟩ _ 0 0
      Dbl.zero_def Dbl.zero_def (le_refl _) h
  exact ⟨_, h, U, M, h3, h4, h5, h6, h8⟩

/-- C20: with a non-empty window, at least one segment acknowledged and no 32-bit
overflow, `CongestionAvoidance` returns a window strictly larger than the one it
was given, strictly larger than the threshold too unless the congestion state is
4, and leaves the threshold alone; with no segment acknowledged it returns the
connection state unchanged. -/
theorem C20_congestion_avoidance_never_shrinks (tcb : TcpSocketState) (segmentsAcked : Nat)
    (hw : 0 < tcb.m_cWnd) (hn : 0 < segmentsAcked)
    (hseg : tcb.m_segmentSize * tcb.m_segmentSize < 2 ^ 32)
    (hov : (if tcb.m_congState ≠ 4 then Nat.max tcb.m_ssThresh tcb.m_cWnd else tcb.m_cWnd)
      + ⌊max (1 : ℚ) ((tcb.m_segmentSize : ℚ) ^ 2 / (tcb.m_cWnd : ℚ))⌋₊ < 2 ^ 32) :
    (∃ t, CongestionAvoidance tcb segmentsAcked = .ok t ∧ tcb.m_cWnd < t.m_cWnd ∧
      (tcb.m_congState ≠ 4 → tcb.m_ssThresh < t.m_cWnd) ∧ t.m_ssThresh = tcb.m_ssThresh) ∧
    CongestionAvoidance tcb 0 = .ok tcb := by
  have hfl : ⌊max (1 : ℚ) ((tcb.m_segmentSize : ℚ) ^ 2 / (tcb.m_cWnd : ℚ))⌋₊ =
      Nat.max 1 (tcb.m_segmentSize * tcb.m_segmentSize % 2 ^ 32 / tcb.m_cWnd) := by
    rw [Nat.mod_eq_of_lt hseg, ← natFloor_max_one_div]
    push_cast
    rw [sq]
  rw [hfl] at hov
  have h1 : 1 ≤ Nat.max 1 (tcb.m_segmentSize * tcb.m_segmentSize % 2 ^ 32 / tcb.m_cWnd) :=
    Nat.le_max_left _ _
  refine ⟨⟨_, CongestionAvoidance_pos tcb segmentsAcked hw hn, ?_, ?_, rfl⟩, rfl⟩
  · show tcb.m_cWnd < ((if tcb.m_congState ≠ 4 then Nat.max tcb.m_ssThresh tcb.m_cWnd
        else tcb.m_cWnd)
      + Nat.max 1 (tcb.m_segmentSize * tcb.m_segmentSize % 2 ^ 32 / tcb.m_cWnd)) % 2 ^ 32
    rw [Nat.mod_eq_of_lt hov]
    split_ifs
    · have : tcb.m_cWnd ≤ Nat.max tcb.m_ssThresh tcb.m_cWnd := Nat.le_max_right _ _
      omega
    · omega
  · intro hc
    show tcb.m_ssThresh < ((if tcb.m_congState ≠ 4 then Nat.max tcb.m_ssThresh tcb.m_cWnd
        else tcb.m_cWnd)
      + Nat.max 1 (tcb.m_segmentSize * tcb.m_segmentSize % 2 ^ 32 / tcb.m_cWnd)) % 2 ^ 32
    rw [Nat.mod_eq_of_lt hov, if_pos hc]
    have : tcb.m_ssThresh ≤ Nat.max tcb.m_ssThresh tcb.m_cWnd := Nat.le_max_left _ _
    omega

/-- C20 applies to a window of 3000 bytes with threshold 8000 and segment size
1000: the new window is 8333. -/
theorem C20_congestion_avoidance_never_shrinks_witness :
    (∃ t, CongestionAvoidance ⟨3000, 8000, 1000, 0⟩ 1 = .ok t ∧
      (⟨3000, 8000, 1000, 0⟩ : TcpSocketState).m_cWnd < t.m_cWnd ∧
      ((⟨3000, 8000, 1000, 0⟩ : TcpSocketState).m_congState ≠ 4 →
        (⟨3000, 8000, 1000, 0⟩ : TcpSocketState).m_ssThresh < t.m_cWnd) ∧
      t.m_ssThresh = (⟨3000, 8000, 1000, 0⟩ : TcpSocketState).m_ssThresh) ∧
    CongestionAvoidance ⟨3000, 8000, 1000, 0⟩ 0 = .ok ⟨3000, 8000, 1000, 0⟩ :=
  C20_congestion_avoidance_never_shrinks ⟨3000, 8000, 1000, 0⟩ 1 (by norm_num) (by norm_num)
    (by norm_num)
    (by
      have h : ⌊max (1 : ℚ) (((1000 : Nat) : ℚ) ^ 2 / ((3000 : Nat) : ℚ))⌋₊ = 333 := by
        rw [Nat.floor_eq_iff (by positivity)]
        norm_num
      show (if (0 : Nat) ≠ 4 then Nat.max 8000 3000 else 3000)
        + ⌊max (1 : ℚ) (((1000 : Nat) : ℚ) ^ 2 / ((3000 : Nat) : ℚ))⌋₊ < 2 ^ 32
      rw [h]
      decide)

end ns3
